import Mathlib

/-!
Verification of the `mds.fake` synthetic provider-data simulator
(`mds/fake/provider.py`, `mds/fake/util.py`, `mds/fake/geometry.py`).

The Python code is shallowly embedded:

* Python dicts representing devices become the `Device` structure, with
  `Option` fields for keys that may be absent (`propulsion_type`,
  `battery_pct`, and the `event_time` key added to removed-device copies).
* In-place mutation of device dicts becomes explicit state passing: every
  embedded operation that mutates a device returns the updated device(s).
* The global pseudo-random source becomes an explicit `Oracle` of value
  streams together with a draw counter threaded through the computation;
  each primitive draw reads the stream of its kind at the current counter
  and advances the counter.  Universally quantifying over the oracle
  captures every possible run.
* Fallible operations (`random.sample` on a bad size, reading a missing
  `battery_pct` key) return `Except String`.
* `datetime` values become rationals (seconds); timedeltas become integer
  or rational second counts exactly as the Python arithmetic combines them.
-/

namespace MdsFake

/-- A geographic point (lon, lat), as produced by the geometry helpers.
Coordinates are modelled as rationals. -/
abbrev Pt := ℚ × ℚ

/-- A GeoJSON point Feature as built by `mds.geometry.to_feature(point,
properties=dict(timestamp=event_time))`: the point plus its timestamp
property. -/
structure Feature where
  point : Pt
  timestamp : ℚ
  deriving DecidableEq, Repr

/-- A device dict from `ProviderDataGenerator.devices`.  Only the fields the
simulator reads or writes are carried; identity fields other than
`device_id` never influence control flow and are omitted.  `propulsion_type`
and `battery_pct` are `Option` because the corresponding dict keys may be
absent; `event_time` models the `EVENT_TIME` key that `service_hour` adds to
the copies it places in the removed list. -/
structure Device where
  device_id : ℕ
  propulsion_type : Option (List String)
  battery_pct : Option ℚ
  event_time : Option ℚ
  deriving DecidableEq, Repr

/-- Character-list prefix test, used to express the Python substring test. -/
def startsWith : List Char → List Char → Bool
  | [], _ => true
  | _ :: _, [] => false
  | a :: as, b :: bs => a == b && startsWith as bs

/-- Character-list substring test: does `pat` occur contiguously in `s`? -/
def containsChars (pat : List Char) : List Char → Bool
  | [] => pat == []
  | c :: rest => startsWith pat (c :: rest) || containsChars pat rest

/-- Python `"electric" in pt` substring test. -/
def containsElectric (s : String) : Bool :=
  containsChars "electric".toList s.toList

/-- Embedding of `ProviderDataGenerator.has_battery`.  Python parses
`BATTERY in device or any("electric" in pt for pt in device[PROPULSION])
if PROPULSION in device else False` as a conditional expression whose
condition is `PROPULSION in device`: when the `propulsion_type` key is
absent the whole expression is `False`, even if `battery_pct` is present. -/
def has_battery (d : Device) : Bool :=
  match d.propulsion_type with
  | some pts => d.battery_pct.isSome || pts.any containsElectric
  | none => false

/-- Embedding of `ProviderDataGenerator.recharge_battery`:
`device[BATTERY] = 1.0`, unconditionally. -/
def recharge_battery (d : Device) : Device :=
  { d with battery_pct := some 1 }

/-- Embedding of `ProviderDataGenerator.drain_battery`: when
`has_battery(device)` the code reads `device[BATTERY]`, which raises
`KeyError` if the key is absent; otherwise it writes
`(battery - amount) * (1 - rate)`.  When `has_battery` is false it does
nothing. -/
def drain_battery (d : Device) (amount rate : ℚ) : Except String Device :=
  if has_battery d then
    match d.battery_pct with
    | some b => Except.ok { d with battery_pct := some ((b - amount) * (1 - rate)) }
    | none => Except.error "KeyError: battery_pct"
  else
    Except.ok d

/-- Embedding of `ProviderDataGenerator.make_payload`.  The payload dict has
a `version` tag and an optional single `data` entry; assigning
`payload["data"]` twice keeps only the second assignment. -/
inductive PayloadData
  | status_changes (xs : List ℕ)
  | trips (xs : List ℕ)
  deriving DecidableEq, Repr

/-- Payload envelope: version string plus the optional `data` entry. -/
structure Payload where
  version : String
  data : Option PayloadData
  deriving DecidableEq, Repr

/-- Embedding of `make_payload(status_changes, trips)`.  The record
collections are abstracted to lists of record identifiers; only presence
and which collection survives matter. -/
def make_payload (version : String) (status_changes trips : Option (List ℕ)) : Payload :=
  let payload : Payload := { version := version, data := none }
  let payload :=
    match status_changes with
    | some sc => { payload with data := some (PayloadData.status_changes sc) }
    | none => payload
  match trips with
  | some t => { payload with data := some (PayloadData.trips t) }
  | none => payload

/-! ### Embedding of `mds/fake/geometry.py: point_nearby`

The haversine destination-point computation operates on floating-point
trigonometry and (when no bearing is given) a random bearing; each call to
it is modelled as reading the next point from a candidate stream
`gen : Nat → Pt`.  The shapely polygon is modelled by its containment test
`inBoundary : Pt → Bool`.  The shrink loop (`while not
boundary.contains(end_point)`) has no syntactic termination bound, so it is
given fuel and returns `none` when the fuel runs out; the branches the
claims are about never reach that loop. -/

/-- Scan candidates `gen start, gen (start+1), ...` for up to `tries`
attempts, returning the index of the first candidate inside the boundary
(the `for _ in range(MAX_TRIES)` loop of `point_nearby`). -/
def firstHit (inBoundary : Pt → Bool) (gen : ℕ → Pt) (start : ℕ) : ℕ → Option ℕ
  | 0 => none
  | tries + 1 =>
    if inBoundary (gen start) then some start
    else firstHit inBoundary gen (start + 1) tries

/-- The distance-shrinking `while` loop of `point_nearby`: keep the current
end point if it is inside the boundary, otherwise draw the next candidate
(at 0.9 times the previous distance in the source; the changed distance is
folded into the candidate stream). -/
def shrinkLoop (inBoundary : Pt → Bool) (gen : ℕ → Pt) : Pt → ℕ → ℕ → Option Pt
  | cur, _, 0 => if inBoundary cur then some cur else none
  | cur, i, fuel + 1 =>
    if inBoundary cur then some cur
    else shrinkLoop inBoundary gen (gen i) (i + 1) fuel

/-- Embedding of `point_nearby(point, dist, bearing, boundary)` with a
boundary supplied.  `bearingGiven` selects `MAX_TRIES = 1` versus `50`.
Result: `Except.error` models the raised `ValueError`; `Except.ok none`
models the (fuel-bounded) shrink loop failing to terminate;
`Except.ok (some p)` models returning `p`. -/
def point_nearby (inBoundary : Pt → Bool) (origin : Pt) (bearingGiven : Bool)
    (gen : ℕ → Pt) (fuel : ℕ) : Except String (Option Pt) :=
  let maxTries := if bearingGiven then 1 else 50
  match firstHit inBoundary gen 0 maxTries with
  | some i => Except.ok (some (gen i))
  | none =>
    if inBoundary origin = false then
      Except.error "Cannot find point nearby the starting point, which is outside the given boundary."
    else
      Except.ok (shrinkLoop inBoundary gen (gen (maxTries - 1)) maxTries fuel)

/-! ### Embedding of the randomness primitives

Each kind of primitive draw reads its own stream of the `Oracle` at a
shared counter and advances the counter; quantifying over the oracle
captures every possible run of the random program. -/

/-- The pseudo-random source, as value streams per primitive kind. -/
structure Oracle where
  u : ℕ → ℚ
  ri : ℕ → ℕ
  pt : ℕ → Pt
  b : ℕ → Bool
  q : ℕ → ℚ

/-- Clamp into the unit interval; `random.random()` yields values there. -/
def clamp01 (x : ℚ) : ℚ := max 0 (min 1 x)

/-- Embedding of `random.uniform(a, b)`: `a + (b - a) * random.random()`. -/
def uniformD (g : Oracle) (n : ℕ) (a b : ℚ) : ℚ × ℕ :=
  (a + (b - a) * clamp01 (g.u n), n + 1)

/-- Embedding of `random.randint(a, b)` for `a ≤ b`: some integer in
`[a, b]`. -/
def randintD (g : Oracle) (n : ℕ) (a b : ℤ) : ℤ × ℕ :=
  (a + (g.ri n : ℤ) % (b - a + 1), n + 1)

/-- Embedding of `mds/fake/util.py: random_date_from(date, min_td,
max_td)`, with timedeltas already converted to integer second counts as at
every call site in the simulator.  The four `None`-combination branches
mirror the source; the result is `date + random.uniform(min_td, max_td)`. -/
def random_date_from (g : Oracle) (n : ℕ) (date : ℚ) :
    Option ℤ → Option ℤ → ℚ × ℕ
  | none, none =>
    let (m, n1) := randintD g n (-3600) 3600
    let (mx, n2) := randintD g n1 (-3600) 3600
    let (off, n3) := uniformD g n2 (m : ℚ) (mx : ℚ)
    (date + off, n3)
  | some m, none =>
    let (mx, n1) := randintD g n m 3600
    let (off, n2) := uniformD g n1 (m : ℚ) (mx : ℚ)
    (date + off, n2)
  | none, some mx =>
    let (m, n1) := randintD g n 0 mx
    let (off, n2) := uniformD g n1 (m : ℚ) (mx : ℚ)
    (date + off, n2)
  | some m, some mx =>
    let (off, n1) := uniformD g n (m : ℚ) (mx : ℚ)
    (date + off, n1)

/-- Python `int(x)`: truncation toward zero. -/
def pyInt (x : ℚ) : ℤ := if 0 ≤ x then ⌊x⌋ else ⌈x⌉

/-! ### Embedding of `mds/fake/provider.py: ProviderDataGenerator` -/

/-- Generator context: the fields of the generator object the simulator
reads.  `v03` is `version >= Version("0.3.0")` (adds `publication_time`);
`speed` is the average speed in meters/second; `sqrtQ` abstracts
`math.sqrt`, which appears only in the trip battery-drain rate and whose
real value is irrational in general. -/
structure Ctx where
  v03 : Bool
  speed : ℚ
  sqrtQ : ℚ → ℚ

/-- A status_change event dict `{**device, **status_change}`.  The device
snapshot keeps the device fields; the event fields shadow any same-named
device keys, exactly as the merge does. -/
structure Event where
  device : Device
  event_type : String
  event_type_reason : String
  event_time : ℚ
  event_location : Feature
  publication_time : Option ℚ
  deriving DecidableEq, Repr

/-- Embedding of `ProviderDataGenerator.status_change_event` (no extra
keyword attributes are passed anywhere in the simulator). -/
def status_change_event (c : Ctx) (d : Device) (et reason : String)
    (t : ℚ) (loc : Feature) : Event :=
  { device := d, event_type := et, event_type_reason := reason,
    event_time := t, event_location := loc,
    publication_time := if c.v03 then some t else none }

/-- Placeholder device for list lookups with a default; every lookup the
simulator performs is at a valid index. -/
def defaultDevice : Device :=
  { device_id := 0, propulsion_type := none, battery_pct := none, event_time := none }

/-- Placeholder feature for list lookups with a default. -/
def defaultFeature : Feature := { point := (0, 0), timestamp := 0 }

/-- Placeholder event for list lookups with a default. -/
def defaultEvent : Event :=
  { device := defaultDevice, event_type := "", event_type_reason := "",
    event_time := 0, event_location := defaultFeature, publication_time := none }

/-- A trip record.  The device snapshot has the `battery_pct` and
`event_time` keys deleted, as by the cleanup at the end of `device_trip`;
`parking_verification` records whether the random url was attached. -/
structure TripRec where
  device : Device
  accuracy : ℤ
  trip_id : ℕ
  trip_duration : ℤ
  trip_distance : ℤ
  route : Feature × Feature
  start_time : ℚ
  end_time : ℚ
  publication_time : Option ℚ
  parking_verification : Bool
  standard_cost : Option ℤ
  actual_cost : Option ℤ
  deriving DecidableEq, Repr

/-- Embedding of `ProviderDataGenerator.device_trip` as called from
`service_hour`: `event_location` given, `event_time = None` with
`reference_time` given, `min_td = 0`, `max_td = TD_HOUR` (3600 s),
`end_location = None`, `speed = self.speed`.  Returns the two status
changes (pick-up with the pre-drain device snapshot, drop-off with the
post-drain one, as the dict merges produce), the trip record, the updated
device, and the counter.  The content of the random parking url is folded
into the presence flag. -/
def device_trip (c : Ctx) (g : Oracle) (d : Device) (loc : Feature)
    (reference_time : ℚ) (n : ℕ) :
    Except String (List Event × TripRec × Device × ℕ) := do
  let (t, n1) := random_date_from g n reference_time (some 0) (some 3600)
  let pick := status_change_event c d "reserved" "user_pick_up" t loc
  -- trip_duration = random.gammavariate(3, 4.5) * 60, a positive real
  let dur := |g.q n1| * 60
  let n2 := n1 + 1
  -- trip_distance = trip_duration * speed * 0.8
  let dist := dur * c.speed * (4 / 5)
  -- accuracy = scipy.stats.rayleigh.rvs(scale=5), a positive real
  let acc := |g.q n2|
  let n3 := n2 + 1
  -- drain the battery: amount = speed / 100, rate = dist / (sqrt(dist) * 200)
  let d' ← if has_battery d then
      drain_battery d (c.speed / 100) (dist / (c.sqrtQ dist * 200))
    else Except.ok d
  let end_time := t + dur
  -- end_location = point_nearby(start_point, trip_distance, boundary=...)
  let endLoc : Feature := { point := g.pt n3, timestamp := end_time }
  let n4 := n3 + 1
  -- trip_id = uuid.uuid4()
  let tripId := g.ri n4
  let n5 := n4 + 1
  -- parking_verification_url attached with random.choice([True, False])
  let hasUrl := g.b n5
  let n6 := n5 + 1
  -- standard_cost attached with random.choice([True, False])
  let hasStd := g.b n6
  let n7 := n6 + 1
  let stdCost : Option ℤ :=
    if hasStd then some (100 + (⌊dur / 60⌋ - 1) * 15) else none
  -- actual_cost attached with random.choice([True, False])
  let hasAct := g.b n7
  let n8 := n7 + 1
  let (actCost, n9) : Option ℤ × ℕ :=
    if hasAct then
      let (astart, na) := randintD g n8 75 150
      let (arate, nb) := randintD g na 12 20
      (some (astart + (⌊dur / 60⌋ - 1) * arate), nb)
    else (none, n8)
  let dropEv := status_change_event c d' "available" "user_drop_off" end_time endLoc
  let trip : TripRec := {
    device := { d' with battery_pct := none, event_time := none },
    accuracy := pyInt acc, trip_id := tripId,
    trip_duration := pyInt dur, trip_distance := pyInt dist,
    route := (loc, endLoc), start_time := t, end_time := end_time,
    publication_time := if c.v03 then some end_time else none,
    parking_verification := hasUrl,
    standard_cost := stdCost, actual_cost := actCost }
  Except.ok ([pick, dropEv], trip, d', n9)

/-- Embedding of `ProviderDataGenerator.device_lowbattery`. -/
def device_lowbattery (c : Ctx) (d : Device) (t : ℚ) (loc : Feature) : Event :=
  status_change_event c d "unavailable" "low_battery" t loc

/-- Embedding of `ProviderDataGenerator.start_service`, one device at a
time in roster order.  The emitted event carries the pre-recharge device
snapshot (the inner dict merge wins); the returned device list carries the
in-place battery recharge. -/
def start_service (c : Ctx) (g : Oracle) (start_time : ℚ) :
    List Device → ℕ → List Event × List Device × ℕ
  | [], n => ([], [], n)
  | d :: ds, n =>
    -- event_time = util.random_date_from(start_time, min_td=-7200)
    let (t, n1) := random_date_from g n start_time (some (-7200)) none
    -- point = geometry.point_within(self.boundary)
    let p := g.pt n1
    let ev := status_change_event c d "available" "service_start" t
      { point := p, timestamp := t }
    -- reset the battery for electric devices
    let d' := if has_battery d then recharge_battery d else d
    let (evs, ds', n2) := start_service c g start_time ds (n1 + 1)
    (ev :: evs, d' :: ds', n2)

/-- Loop body of `ProviderDataGenerator.end_service`; `all` is the full
device list the Python `devices.index(device)` lookup runs against. -/
def end_service_go (c : Ctx) (g : Oracle) (end_time : ℚ) (all : List Device)
    (locs : Option (List Feature)) : List Device → ℕ → List Event × ℕ
  | [], n => ([], n)
  | d :: ds, n =>
    -- event_time = util.random_date_from(end_time, max_td=7200)
    let (t, n1) := random_date_from g n end_time none (some 7200)
    let (p, n2) :=
      match locs with
      | none => (g.pt n1, n1 + 1)
      | some ls => ((ls.getD (all.indexOf d) defaultFeature).point, n1)
    let ev := status_change_event c d "removed" "service_end" t
      { point := p, timestamp := t }
    let (evs, n3) := end_service_go c g end_time all locs ds n2
    (ev :: evs, n3)

/-- Embedding of `ProviderDataGenerator.end_service`. -/
def end_service (c : Ctx) (g : Oracle) (end_time : ℚ) (devices : List Device)
    (locs : Option (List Feature)) (n : ℕ) : List Event × ℕ :=
  end_service_go c g end_time devices locs devices n

/-- Embedding of `ProviderDataGenerator.device_recharged`: recharge (an
in-place mutation, so the event snapshot is post-recharge) and build the
`available:maintenance_drop_off` event. -/
def device_recharged (c : Ctx) (d : Device) (t : ℚ) (loc : Feature) :
    Event × Device :=
  let d' := recharge_battery d
  (status_change_event c d' "available" "maintenance_drop_off" t loc, d')

/-- The `event_times` argument of `devices_recharged`: either a reference
datetime or a list parallel to the devices. -/
inductive TimesArg
  | ref (t : ℚ)
  | list (ts : List ℚ)

/-- Number of seconds to the next hour as computed in `devices_recharged`:
`(60 - minute - 1) * 60 + (60 - second)` of the reference datetime, for a
time measured in seconds. -/
def secondsToNextHour (t : ℚ) : ℤ :=
  (60 - (⌊t⌋ / 60) % 60 - 1) * 60 + (60 - ⌊t⌋ % 60)

/-- Loop body of `ProviderDataGenerator.devices_recharged`: `upd` is the
already-processed (recharged-in-place) prefix, so the `devices.index`
lookups run against `upd ++ d :: todo`, the list as mutated so far.  The
variant where `event_locations` is a single feature is not exercised by the
simulator (its only call passes `None`) and is folded into the list case.
Returns the events, the updated devices, and the counter. -/
def devices_recharged_go (c : Ctx) (g : Oracle) (ts : TimesArg)
    (locs : Option (List Feature)) :
    List Device → List Device → ℕ → List Event × List Device × ℕ
  | _upd, [], n => ([], [], n)
  | upd, d :: todo, n =>
    let all := upd ++ d :: todo
    let (t, n1) :=
      match ts with
      | .ref r => random_date_from g n r none (some (secondsToNextHour r))
      | .list ls => (ls.getD (all.indexOf d) 0, n)
    let (loc, n2) :=
      match locs with
      | none => (({ point := g.pt n1, timestamp := t } : Feature), n1 + 1)
      | some ls => (ls.getD (all.indexOf d) defaultFeature, n1)
    let (ev, d') := device_recharged c d t loc
    let (evs, ds, n3) := devices_recharged_go c g ts locs (upd ++ [d']) todo n2
    (ev :: evs, d' :: ds, n3)

/-- Embedding of `ProviderDataGenerator.devices_recharged`. -/
def devices_recharged (c : Ctx) (g : Oracle) (devices : List Device)
    (ts : TimesArg) (locs : Option (List Feature)) (n : ℕ) :
    List Event × List Device × ℕ :=
  devices_recharged_go c g ts locs [] devices n

/-- Embedding of `random.sample(pop, k)` selection: repeatedly pick an
arbitrary remaining element (oracle-chosen index) without replacement.
Returns the selection in pick order and the unpicked rest in original
order.  The empty-population case with `k > 0` is unreachable under the
validity check in `sample`. -/
def sampleGo (g : Oracle) : ℕ → List Device → ℕ → List Device × List Device × ℕ
  | n, pop, 0 => ([], pop, n)
  | n, pop, k + 1 =>
    match pop with
    | [] => ([], [], n)
    | p0 :: _ =>
      let i := g.ri n % pop.length
      let x := pop.getD i p0
      let (sel, rest, n') := sampleGo g (n + 1) (pop.eraseIdx i) k
      (x :: sel, rest, n')

/-- Embedding of `random.sample(pop, k)`: raises `ValueError` unless
`0 ≤ k ≤ len(pop)`. -/
def sample (g : Oracle) (n : ℕ) (pop : List Device) (k : ℤ) :
    Except String (List Device × List Device × ℕ) :=
  if 0 ≤ k ∧ k ≤ pop.length then Except.ok (sampleGo g n pop k.toNat)
  else Except.error "Sample larger than population or is negative"

/-- The mutable state of the `service_hour` loop. -/
structure HourState where
  active : List Device
  removed : List Device
  changes : List Event
  trips : List TripRec
  devices : List Device
  times : List ℚ
  locations : List Feature
  n : ℕ

/-- The charge-level test `self.has_battery(device) and device[BATTERY] <
0.2` at the top of the `service_hour` device loop; reading the missing
`battery_pct` key raises `KeyError`. -/
def battery_low (d : Device) : Except String Bool :=
  if has_battery d then
    match d.battery_pct with
    | some bb => Except.ok (decide (bb < 1/5))
    | none => Except.error "KeyError: battery_pct"
  else Except.ok false

/-- One iteration of the `service_hour` device loop at index `idx`.  The
in-place device mutations (trip drain, idle leak) show up as updates of
both the `devices` entry and the just-appended `active` entry, which alias
in the source. -/
def service_hour_step (c : Ctx) (g : Oracle) (st : HourState) (idx : ℕ) :
    Except String HourState := do
  let d := st.devices.getD idx defaultDevice
  let loc := st.locations.getD idx defaultFeature
  let cur := st.times.getD idx 0
  let low ← battery_low d
  if low then
    let ev := device_lowbattery c d cur loc
    -- active.append(device); del active[active.index(device)]
    let active' := (st.active ++ [d]).erase d
    -- rmvd = dict(device); rmvd.update(event_time=lowbattery[EVENT_TIME])
    let rmvd : Device := { d with event_time := some ev.event_time }
    Except.ok { st with
      active := active',
      removed := st.removed ++ [rmvd],
      changes := st.changes ++ [ev] }
  else
    -- will this device take a trip? random.choices([True, False], weights)
    let takeTrip := g.b st.n
    let n1 := st.n + 1
    if takeTrip then do
      let res ← device_trip c g d loc cur n1
      let evs := res.1
      let trip := res.2.1
      let d' := res.2.2.1
      -- times[idx], locations[idx] = status[-1][EVENT_TIME], status[-1][EVENT_LOC]
      let lastEv := evs.getLastD defaultEvent
      Except.ok { st with
        active := st.active ++ [d'],
        changes := st.changes ++ evs,
        trips := st.trips ++ [trip],
        times := st.times.set idx lastEv.event_time,
        locations := st.locations.set idx lastEv.event_location,
        devices := st.devices.set idx d',
        n := res.2.2.2 }
    else if has_battery d then do
      -- leak some power: drain_battery(device, rate=random.uniform(0, 0.05))
      let d' ← drain_battery d 0 (uniformD g n1 0 (1/20)).1
      Except.ok { st with
        active := st.active ++ [d'],
        devices := st.devices.set idx d', n := (uniformD g n1 0 (1/20)).2 }
    else
      Except.ok { st with active := st.active ++ [d], n := n1 }

/-- The `service_hour` device loop over the index list. -/
def service_hour_go (c : Ctx) (g : Oracle) :
    List ℕ → HourState → Except String HourState
  | [], st => Except.ok st
  | idx :: rest, st => do
    let st' ← service_hour_step c g st idx
    service_hour_go c g rest st'

/-- The tuple `service_hour` returns, plus the mutated `devices` list and
the draw counter for state passing. -/
structure HourOut where
  active : List Device
  times : List ℚ
  locations : List Feature
  removed : List Device
  changes : List Event
  trips : List TripRec
  devices : List Device
  n : ℕ

/-- Embedding of `ProviderDataGenerator.service_hour`.  The `inactivity`
argument only weights the boolean trip draw, which the oracle abstracts,
so it is retained but unread.  The final times/locations are re-indexed by
`devices.index(a)` over the mutated devices list, as in the source. -/
def service_hour (c : Ctx) (g : Oracle) (devices : List Device)
    (times : List ℚ) (locations : List Feature) (_inactivity : ℚ) (n : ℕ) :
    Except String HourOut := do
  let st ← service_hour_go c g (List.range devices.length)
    { active := [], removed := [], changes := [], trips := [],
      devices := devices, times := times, locations := locations, n := n }
  Except.ok {
    active := st.active,
    times := st.active.map (fun a => st.times.getD (st.devices.indexOf a) 0),
    locations := st.active.map
      (fun a => st.locations.getD (st.devices.indexOf a) defaultFeature),
    removed := st.removed, changes := st.changes, trips := st.trips,
    devices := st.devices, n := st.n }

/-- The per-day bookkeeping state threaded through the hour loop of
`service_day`. -/
structure DayState where
  active : List Device
  times : List ℚ
  locations : List Feature
  removed : List Device
  changes : List Event
  trips : List TripRec
  n : ℕ

/-- The recharge block at the top of each hour iteration of `service_day`
(lines 156-167): sample `randint(0, len(removed))` removed devices, and if
any were picked, reactivate them, emit their placement events at their
stored removal times, extend the bookkeeping lists, and drop them from the
removed pool.  Removed-device entries always carry the `event_time` key
(set when they were removed), read here as `r[EVENT_TIME]`. -/
def recharge_step (c : Ctx) (g : Oracle) (st : DayState) :
    Except String DayState := do
  let kn := randintD g st.n 0 st.removed.length
  let res ← sample g kn.2 st.removed kn.1
  let recharged := res.1
  let rest := res.2.1
  if recharged.length > 0 then
    let etimes := recharged.map (fun r => r.event_time.getD 0)
    let dr := devices_recharged c g recharged (TimesArg.list etimes) none res.2.2
    Except.ok {
      active := st.active ++ dr.2.1,
      times := st.times ++ dr.1.map (·.event_time),
      locations := st.locations ++ dr.1.map (·.event_location),
      removed := rest.filter (fun d => !(dr.2.1.contains d)),
      changes := st.changes ++ dr.1,
      trips := st.trips,
      n := dr.2.2 }
  else
    Except.ok { st with n := res.2.2 }

/-- The hour loop of `service_day`: recharge block, then `service_hour`,
accumulating events, trips and removals. -/
def service_day_hours (c : Ctx) (g : Oracle) (inactivity : ℚ) :
    List ℕ → DayState → Except String DayState
  | [], st => Except.ok st
  | _hour :: hs, st => do
    let st1 ← recharge_step c g st
    let out ← service_hour c g st1.active st1.times st1.locations inactivity st1.n
    service_day_hours c g inactivity hs {
      active := out.active, times := out.times, locations := out.locations,
      removed := st1.removed ++ out.removed,
      changes := st1.changes ++ out.changes,
      trips := st1.trips ++ out.trips,
      n := out.n }

/-- What a day of service produces: the returned status-change and trip
lists, plus (as explicit state passing for the in-place mutations) the
final inactive-sample, active and removed device lists and the draw
counter. -/
structure DayResult where
  status_changes : List Event
  trips : List TripRec
  inactive_final : List Device
  active_final : List Device
  removed_final : List Device
  n : ℕ

/-- Embedding of `ProviderDataGenerator.service_day`.  `day0` is the date
at midnight in seconds, so `date.replace(hour=h)` is `day0 + 3600 * h`. -/
def service_day (c : Ctx) (g : Oracle) (devices : List Device) (day0 : ℚ)
    (hour_open hour_closed : ℕ) (inactivity : ℚ) :
    Except String DayResult := do
  let start_time : ℚ := day0 + 3600 * hour_open
  let end_time : ℚ := day0 + 3600 * hour_closed
  -- inactive_devices = random.sample(devices, int(len(devices) * inactivity))
  let k := pyInt (devices.length * inactivity)
  let smp ← sample g 0 devices k
  let inactive := smp.1
  let restPop := smp.2.1
  let ss1 := start_service c g start_time inactive smp.2.2
  let inactiveStarts := ss1.1
  let inactive' := ss1.2.1
  -- inactive_locations = [e[EVENT_LOC] for e in inactive_starts]
  let inactiveLocations := inactiveStarts.map (·.event_location)
  let es1 := end_service c g end_time inactive' (some inactiveLocations) ss1.2.2
  -- active_devices = [d for d in devices if d not in inactive_devices],
  -- run after start_service mutated the sampled devices in place
  let activeDevices := restPop.filter (fun d => !(inactive'.contains d))
  let ss2 := start_service c g start_time activeDevices es1.2
  let startEvents := ss2.1
  -- times = [start_time for e in start_events]
  let times0 := startEvents.map (fun _ => start_time)
  -- locations = [e[EVENT_LOC] for e in start_events]
  let locations0 := startEvents.map (·.event_location)
  let st0 : DayState := {
    active := ss2.2.1, times := times0, locations := locations0,
    removed := [], changes := inactiveStarts ++ es1.1 ++ startEvents,
    trips := [], n := ss2.2.2 }
  -- for hour in range(hour_open, hour_closed + 1)
  let st ← service_day_hours c g inactivity
    (List.range' hour_open (hour_closed + 1 - hour_open)) st0
  -- end service for the remaining active devices
  let es2 := end_service c g end_time st.active (some st.locations) st.n
  Except.ok {
    status_changes := st.changes ++ es2.1,
    trips := st.trips,
    inactive_final := inactive', active_final := st.active,
    removed_final := st.removed, n := es2.2 }

/-! ### Concrete fixtures for witness runs -/

/-- Fixture generator context: version below 0.3.0, speed 1 m/s, and a
trivial square-root model (only the trip drain rate reads it). -/
def cW : Ctx := { v03 := false, speed := 1, sqrtQ := fun _ => 0 }

/-- Fixture oracle with all-zero draws. -/
def gW : Oracle :=
  { u := fun _ => 0, ri := fun _ => 0, pt := fun _ => (0, 0),
    b := fun _ => false, q := fun _ => 0 }

/-- Fixture electric device with a drained battery. -/
def dLow : Device :=
  { device_id := 9, propulsion_type := some ["electric"],
    battery_pct := some 0, event_time := none }

/-- The hour output produced by `service_hour` on the single drained
device `dLow`. -/
def wHourOut : HourOut :=
  { active := [], times := [], locations := [],
    removed := [{ dLow with event_time := some 0 }],
    changes := [device_lowbattery cW dLow 0 defaultFeature],
    trips := [], devices := [dLow], n := 0 }

/-! ### Derived notions the claims are phrased with -/

/-- The device a status-change event is attributed to. -/
def evId (e : Event) : ℕ := e.device.device_id

/-- Events other than the service_start / service_end brackets. -/
def isInterior (e : Event) : Bool :=
  !(e.event_type_reason == "service_start" || e.event_type_reason == "service_end")

/-- The subsequence of events attributed to device id `i`, in emission
order. -/
def devEvents (i : ℕ) (evs : List Event) : List Event :=
  evs.filter (fun e => evId e == i)

/-- The subsequence of interior events attributed to device id `i`. -/
def interiorEvents (i : ℕ) (evs : List Event) : List Event :=
  evs.filter (fun e => evId e == i && isInterior e)

/-- Location continuity between consecutive events of one device: the later
event sits at the earlier event's location, unless the earlier event is a
trip pick-up (the device moves during the trip, ending at the drop-off
location) or the later event is a maintenance drop-off (the recharge run
places the device at a fresh random location). -/
def contOk (a b : Event) : Prop :=
  a.event_type_reason = "user_pick_up" ∨
  b.event_type_reason = "maintenance_drop_off" ∨
  b.event_location.point = a.event_location.point


/-- Event times in emission order are non-decreasing. -/
def timesSorted (l : List Event) : Prop :=
  l.Pairwise (fun a b => a.event_time ≤ b.event_time)

/-- Consecutive events satisfy the location-continuity relation. -/
def locChain (l : List Event) : Prop := l.Chain' contOk

/-- Mid-hour invariant of the `service_hour` device loop, relative to the
day's changes so far (`dayCh`) and the remaining index list `is`. -/
structure HourInv (dayCh : List Event) (is : List ℕ) (st : HourState) : Prop where
  len_t : st.times.length = st.devices.length
  len_l : st.locations.length = st.devices.length
  ndev : (st.devices.map Device.device_id).Nodup
  bound : ∀ j ∈ is, j < st.devices.length
  isnd : is.Nodup
  perm : ((st.active ++ st.removed).map Device.device_id
      ++ is.map (fun j => (st.devices.getD j defaultDevice).device_id)).Perm
      (st.devices.map Device.device_id)
  sorted : ∀ i, timesSorted (interiorEvents i (dayCh ++ st.changes))
  chain : ∀ i, locChain (devEvents i (dayCh ++ st.changes))
  pristine : ∀ j ∈ is,
    (∀ e ∈ dayCh ++ st.changes,
        evId e = (st.devices.getD j defaultDevice).device_id → isInterior e = true →
        e.event_time ≤ st.times.getD j 0) ∧
    (∃ e, (devEvents (st.devices.getD j defaultDevice).device_id
        (dayCh ++ st.changes)).getLast? = some e ∧
      e.event_location = st.locations.getD j defaultFeature)
  tracked : ∀ a ∈ st.active, ∃ k, k < st.devices.length ∧
    st.devices.getD k defaultDevice = a ∧
    (∀ e ∈ dayCh ++ st.changes, evId e = a.device_id → isInterior e = true →
        e.event_time ≤ st.times.getD k 0) ∧
    (∃ e, (devEvents a.device_id (dayCh ++ st.changes)).getLast? = some e ∧
      e.event_location = st.locations.getD k defaultFeature)
  removed_ub : ∀ r ∈ st.removed, ∃ tr, r.event_time = some tr ∧
    ∀ e ∈ dayCh ++ st.changes, evId e = r.device_id → isInterior e = true →
      e.event_time ≤ tr
  hourly : ∀ e ∈ st.changes, isInterior e = true ∧
    evId e ∈ st.devices.map Device.device_id
  trips_attrib : ∀ tr ∈ st.trips, tr.device.device_id ∈ st.devices.map Device.device_id

/-- Day-level invariant of the bookkeeping state between hour iterations of
`service_day`.  `A0` is the id list of the day-active devices after the
start phase; `changes0` the events of the start phase (inactive brackets
plus active service_starts). -/
structure DayInv (A0 : List ℕ) (changes0 : List Event) (st : DayState) : Prop where
  len_t : st.times.length = st.active.length
  len_l : st.locations.length = st.active.length
  nodupA0 : A0.Nodup
  perm : ((st.active ++ st.removed).map Device.device_id).Perm A0
  init : ∃ delta, st.changes = changes0 ++ delta ∧
    ∀ e ∈ delta, isInterior e = true ∧ evId e ∈ A0
  sorted : ∀ i, timesSorted (interiorEvents i st.changes)
  chain : ∀ i, locChain (devEvents i st.changes)
  upper : ∀ k, k < st.active.length →
    ∀ e ∈ st.changes, evId e = (st.active.getD k defaultDevice).device_id →
      isInterior e = true → e.event_time ≤ st.times.getD k 0
  lastloc : ∀ k, k < st.active.length →
    ∃ e, (devEvents (st.active.getD k defaultDevice).device_id st.changes).getLast?
        = some e ∧
      e.event_location = st.locations.getD k defaultFeature
  removed_ub : ∀ r ∈ st.removed, ∃ tr, r.event_time = some tr ∧
    ∀ e ∈ st.changes, evId e = r.device_id → isInterior e = true → e.event_time ≤ tr
  trips_attrib : ∀ tr ∈ st.trips, tr.device.device_id ∈ A0

/-- Fixture oracle: always-trip booleans, gamma draws of 100, zero
uniform/randint/point draws. -/
def gT : Oracle :=
  { u := fun _ => 0, ri := fun _ => 0, pt := fun _ => (0, 1),
    b := fun _ => true, q := fun _ => 100 }

/-- A combustion device: no battery key, no electric propulsion. -/
def dNB : Device :=
  { device_id := 1, propulsion_type := some ["combustion"],
    battery_pct := none, event_time := none }

/-- The events of the single-device all-trip fixture day. -/
def c1Start : Event := status_change_event cW dNB "available" "service_start"
  (-7200) { point := (0, 1), timestamp := -7200 }

def c1Pick : Event := status_change_event cW dNB "reserved" "user_pick_up" 0
  { point := (0, 1), timestamp := -7200 }

def c1Drop : Event := status_change_event cW dNB "available" "user_drop_off"
  6000 { point := (0, 1), timestamp := 6000 }

def c1End : Event := status_change_event cW dNB "removed" "service_end" 0
  { point := (0, 1), timestamp := 0 }

def c1Trip : TripRec :=
  { device := dNB, accuracy := 100, trip_id := 0, trip_duration := 6000,
    trip_distance := 4800,
    route := ({ point := (0, 1), timestamp := -7200 },
              { point := (0, 1), timestamp := 6000 }),
    start_time := 0, end_time := 6000, publication_time := none,
    parking_verification := true, standard_cost := some 1585,
    actual_cost := some 1263 }

def c1Run : DayResult :=
  { status_changes := [c1Start, c1Pick, c1Drop, c1End], trips := [c1Trip],
    inactive_final := [], active_final := [dNB], removed_final := [], n := 17 }

/-- Fixture context for the drain run: top speed so one trip empties the
battery, unit square-root model. -/
def cE : Ctx := { v03 := false, speed := 100, sqrtQ := fun _ => 1 }

/-- Fixture oracle for the drain run: the hour-2 recharge randint picks one
device, booleans are true only for early draws (the hour-0 trip decision),
gamma draws of 1, distinct point draws. -/
def gE : Oracle :=
  { u := fun _ => 0, ri := fun n => if n == 14 then 1 else 0,
    pt := fun n => ((n : ℚ), 1), b := fun n => decide (n < 10),
    q := fun _ => 1 }

/-- An electric device with a full battery. -/
def dEl : Device :=
  { device_id := 1, propulsion_type := some ["electric"],
    battery_pct := some 1, event_time := none }

/-- The same device drained by the hour-0 trip. -/
def dE0 : Device := { dEl with battery_pct := some 0 }

/-- The removed-pool entry created by the low-battery removal. -/
def dRm : Device := { dE0 with event_time := some 60 }

/-- The device as reactivated by the maintenance recharge. -/
def dR : Device := { dRm with battery_pct := some 1 }

def c2S : Event := status_change_event cE dEl "available" "service_start"
  (-7200) { point := (2, 1), timestamp := -7200 }

def c2P : Event := status_change_event cE dEl "reserved" "user_pick_up" 0
  { point := (2, 1), timestamp := -7200 }

def c2D : Event := status_change_event cE dE0 "available" "user_drop_off" 60
  { point := (8, 1), timestamp := 60 }

def c2L : Event := device_lowbattery cE dE0 60
  { point := (8, 1), timestamp := 60 }

def c2M : Event := status_change_event cE dR "available" "maintenance_drop_off"
  60 { point := (16, 1), timestamp := 60 }

def c2E : Event := status_change_event cE dR "removed" "service_end" 7200
  { point := (16, 1), timestamp := 7200 }

def c2Trip : TripRec :=
  { device := { dEl with battery_pct := none }, accuracy := 1, trip_id := 0,
    trip_duration := 60, trip_distance := 4800,
    route := ({ point := (2, 1), timestamp := -7200 },
              { point := (8, 1), timestamp := 60 }),
    start_time := 0, end_time := 60, publication_time := none,
    parking_verification := false, standard_cost := none,
    actual_cost := none }

def c2Run : DayResult :=
  { status_changes := [c2S, c2P, c2D, c2L, c2M, c2E], trips := [c2Trip],
    inactive_final := [], active_final := [dR], removed_final := [], n := 21 }

def dHalf : Device :=
  { device_id := 3, propulsion_type := some ["electric"],
    battery_pct := some (1/2), event_time := none }

/-- The roster entry after the service-start recharge. -/
def dHalfR : Device := { dHalf with battery_pct := some 1 }

/-- The day result of the C8 fixture run. -/
def c8Run : DayResult :=
  { status_changes :=
      [status_change_event cW dHalf "available" "service_start" (-3600)
        { point := (0, 0), timestamp := -3600 },
       status_change_event cW dHalfR "removed" "service_end" 0
        { point := (0, 0), timestamp := 0 }],
    trips := [], inactive_final := [dHalfR], active_final := [],
    removed_final := [], n := 6 }

/-- Location continuity as the claim states it, granting only the trip
pick-up exemption the claim itself makes. -/
def origContOk (a b : Event) : Prop :=
  a.event_type_reason = "user_pick_up" ∨
  b.event_location.point = a.event_location.point

end MdsFake

namespace MdsFake

/-- Reduction of a bind on a successful `Except` computation. -/
theorem ok_bind {α β : Type} (a : α) (f : α → Except String β) :
    (Except.ok a >>= f) = f a := rfl

/-! ### Claims C3, C4, C10 -/

/-- C3 counterexample: the claim says `recharge_battery` on a device with no
battery field is a silent no-op leaving the device unchanged.  On a device
with no `battery_pct` key (and no propulsion key), `recharge_battery`
adds the key with value 1.0, so the device mapping changes. -/
theorem C3_counterexample :
    let d : Device := { device_id := 0, propulsion_type := none,
                        battery_pct := none, event_time := none }
    recharge_battery d ≠ d := by
  decide

/-- C3 amended: for a device with no battery field, `drain_battery` is a
silent no-op exactly when `has_battery` is false (no electric propulsion);
when the device has electric propulsion (so `has_battery` is true) but no
battery field, `drain_battery` raises `KeyError`; and `recharge_battery` is
never a no-op on such a device, since it always sets `battery_pct` to 1.0. -/
theorem C3_battery_ops_on_fieldless_device (d : Device) (amount rate : ℚ)
    (hb : d.battery_pct = none) :
    (has_battery d = false → drain_battery d amount rate = Except.ok d) ∧
    (has_battery d = true → drain_battery d amount rate = Except.error "KeyError: battery_pct") ∧
    recharge_battery d = { d with battery_pct := some 1 } := by
  refine ⟨fun h => ?_, fun h => ?_, rfl⟩
  · simp [drain_battery, h]
  · simp [drain_battery, h, hb]

/-- C3 witness: instantiation of the amended statement at concrete devices. -/
theorem C3_battery_ops_on_fieldless_device_witness :
    let d0 : Device := { device_id := 0, propulsion_type := some ["human"],
                         battery_pct := none, event_time := none }
    drain_battery d0 0 0 = Except.ok d0 ∧
    recharge_battery d0 = { d0 with battery_pct := some 1 } := by
  exact ⟨(C3_battery_ops_on_fieldless_device _ 0 0 rfl).1 (by decide),
         (C3_battery_ops_on_fieldless_device _ 0 0 rfl).2.2⟩

/-- C4 counterexample: the claim says a device carrying `battery_pct`
satisfies `has_battery` regardless of whether a `propulsion_type` key is
present.  Because the Python conditional expression has lowest precedence,
a device with `battery_pct` but no `propulsion_type` key yields `False`. -/
theorem C4_counterexample :
    let d : Device := { device_id := 0, propulsion_type := none,
                        battery_pct := some 1, event_time := none }
    has_battery d = false := by
  decide

/-- C4 amended: `has_battery` is true iff the `propulsion_type` key is
present AND (the device carries `battery_pct` or some propulsion value
contains the substring electric).  When the `propulsion_type` key is absent
the result is always false, even with a `battery_pct` field. -/
theorem C4_has_battery_spec (d : Device) :
    has_battery d = true ↔
      ∃ pts, d.propulsion_type = some pts ∧
        (d.battery_pct.isSome = true ∨ pts.any containsElectric = true) := by
  unfold has_battery
  cases h : d.propulsion_type with
  | none => simp
  | some pts => simp [Bool.or_eq_true]

/-! ### Claim C5 -/

/-- C5: evaluation of `start_service` at the failing input.  The claim (and
the comments in `start_service`) say the `service_start` event time lies in
the two hours before day open, never after it.  But `random_date_from` with
only `min_td = -7200` given draws `max_td = randint(-7200, 3600)`; with the
randint draw at its top (10800, giving `max_td = 3600`) and the uniform
draw at 1, a day opening at 36000 (10:00) gets its `service_start` at
39600, one hour after open. -/
theorem C5_service_start_after_open :
    let g5 : Oracle := { u := fun _ => 1, ri := fun _ => 10800,
                         pt := fun _ => (0, 0), b := fun _ => true, q := fun _ => 0 }
    let c5 : Ctx := { v03 := false, speed := 1, sqrtQ := fun _ => 0 }
    (start_service c5 g5 36000 [defaultDevice] 0).1.map (·.event_time) = [39600] ∧
    (36000 : ℚ) < 39600 := by
  refine ⟨?_, by norm_num⟩
  simp [start_service, random_date_from, randintD, uniformD, clamp01,
        has_battery, defaultDevice, status_change_event]
  norm_num

/-! ### Claim C6 -/

/-- When the candidate scan succeeds, the returned candidate is inside the
boundary. -/
theorem firstHit_mem {inB : Pt → Bool} {gen : ℕ → Pt} {start tries i : ℕ}
    (h : firstHit inB gen start tries = some i) : inB (gen i) = true := by
  induction tries generalizing start with
  | zero => simp [firstHit] at h
  | succ t ih =>
    rw [firstHit] at h
    by_cases hc : inB (gen start) = true
    · simp [hc] at h; rwa [← h]
    · rw [Bool.not_eq_true] at hc
      simp [hc] at h
      exact ih h

/-- When the shrink loop returns a point, that point is inside the
boundary. -/
theorem shrinkLoop_mem {inB : Pt → Bool} {gen : ℕ → Pt} {cur : Pt} {i fuel : ℕ} {p : Pt}
    (h : shrinkLoop inB gen cur i fuel = some p) : inB p = true := by
  induction fuel generalizing cur i with
  | zero =>
    rw [shrinkLoop] at h
    by_cases hc : inB cur = true
    · simp [hc] at h; rwa [← h]
    · rw [Bool.not_eq_true] at hc; simp [hc] at h
  | succ f ih =>
    rw [shrinkLoop] at h
    by_cases hc : inB cur = true
    · simp [hc] at h; rwa [← h]
    · rw [Bool.not_eq_true] at hc
      simp [hc] at h
      exact ih h

/-- C6 counterexample: the claim says that whenever the boundary does not
contain the origin, the call raises the unsatisfiable-constraint error.
With an origin outside the boundary but a candidate point inside it, the
call returns that point instead of raising. -/
theorem C6_counterexample :
    (fun p : Pt => decide (p = ((1 : ℚ), (1 : ℚ)))) ((0 : ℚ), (0 : ℚ)) = false ∧
    point_nearby (fun p : Pt => decide (p = ((1 : ℚ), (1 : ℚ)))) ((0 : ℚ), (0 : ℚ))
        false (fun _ => ((1 : ℚ), (1 : ℚ))) 0 =
      Except.ok (some ((1 : ℚ), (1 : ℚ))) := by
  constructor
  · decide
  · rfl

/-- C6 amended: with a boundary supplied and an origin outside it, the call
never reaches the unbounded shrink loop: after at most `MAX_TRIES` candidate
draws it either raises the unsatisfiable-constraint `ValueError` or returns
a point that is inside the boundary.  Moreover every point the call returns,
for any origin, lies inside the boundary. -/
theorem C6_point_nearby_constrained (inB : Pt → Bool) (origin : Pt) (bg : Bool)
    (gen : ℕ → Pt) (fuel : ℕ) (h : inB origin = false) :
    (point_nearby inB origin bg gen fuel ≠ Except.ok none ∧
      (point_nearby inB origin bg gen fuel =
        Except.error "Cannot find point nearby the starting point, which is outside the given boundary." ∨
       ∃ p, point_nearby inB origin bg gen fuel = Except.ok (some p) ∧ inB p = true)) ∧
    (∀ (origin' : Pt) (p : Pt),
      point_nearby inB origin' bg gen fuel = Except.ok (some p) → inB p = true) := by
  have hdef : ∀ o : Pt, point_nearby inB o bg gen fuel =
      match firstHit inB gen 0 (if bg then 1 else 50) with
      | some i => Except.ok (some (gen i))
      | none =>
        if inB o = false then
          Except.error "Cannot find point nearby the starting point, which is outside the given boundary."
        else
          Except.ok (shrinkLoop inB gen (gen ((if bg then 1 else 50) - 1))
            (if bg then 1 else 50) fuel) := fun o => rfl
  constructor
  · rw [hdef]
    cases hf : firstHit inB gen 0 (if bg then 1 else 50) with
    | some i =>
      refine ⟨by simp, Or.inr ⟨gen i, by simp, firstHit_mem hf⟩⟩
    | none =>
      simp only [h]
      exact ⟨by simp, Or.inl (by simp)⟩
  · intro origin' p hp
    rw [hdef] at hp
    cases hf : firstHit inB gen 0 (if bg then 1 else 50) with
    | some i =>
      rw [hf] at hp
      simp only [Except.ok.injEq, Option.some.injEq] at hp
      rw [← hp]
      exact firstHit_mem hf
    | none =>
      rw [hf] at hp
      by_cases ho : inB origin' = false
      · simp [ho] at hp
      · rw [Bool.not_eq_false] at ho
        simp only [ho, Bool.true_eq_false, if_false] at hp
        simp only [Except.ok.injEq] at hp
        exact shrinkLoop_mem hp

/-- C6 witness: the amended statement at a concrete boundary, origin outside
it, and a candidate stream that never enters the boundary, so the error is
raised. -/
theorem C6_point_nearby_constrained_witness :
    (fun p : Pt => decide (p = ((2 : ℚ), (2 : ℚ)))) ((0 : ℚ), (0 : ℚ)) = false ∧
    (point_nearby (fun p : Pt => decide (p = ((2 : ℚ), (2 : ℚ)))) ((0 : ℚ), (0 : ℚ))
        false (fun _ => ((3 : ℚ), (3 : ℚ))) 0 ≠ Except.ok none) := by
  refine ⟨by decide, ?_⟩
  exact (C6_point_nearby_constrained (fun p : Pt => decide (p = ((2 : ℚ), (2 : ℚ))))
    ((0 : ℚ), (0 : ℚ)) false (fun _ => ((3 : ℚ), (3 : ℚ))) 0 (by decide)).1.1

/-! ### Claim C9 -/

/-- C9: when the removed-device pool is empty, the recharge step of the
hour loop is a no-op: it raises no error, selects zero devices, emits no
maintenance_drop_off events, and leaves the active-device, time, and
location bookkeeping lists (and the accumulated events and trips)
unchanged; only the draw counter advances past the `randint(0, 0)` call. -/
theorem C9_recharge_step_empty_pool (c : Ctx) (g : Oracle) (st : DayState)
    (h : st.removed = []) :
    recharge_step c g st = Except.ok { st with n := st.n + 1 } := by
  unfold recharge_step
  rw [h]
  simp only [List.length_nil, Nat.cast_zero, randintD]
  have h0 : (0 : ℤ) + (g.ri st.n : ℤ) % (0 - 0 + 1) = 0 := by simp
  rw [h0]
  simp [sample, sampleGo, ok_bind]

/-- C9 witness: the empty-pool recharge step at a concrete state. -/
theorem C9_recharge_step_empty_pool_witness :
    recharge_step { v03 := false, speed := 1, sqrtQ := fun _ => 0 }
      { u := fun _ => 0, ri := fun _ => 0, pt := fun _ => (0, 0),
        b := fun _ => false, q := fun _ => 0 }
      { active := [defaultDevice], times := [5], locations := [defaultFeature],
        removed := [], changes := [], trips := [], n := 7 } =
    Except.ok
      { active := [defaultDevice], times := [5], locations := [defaultFeature],
        removed := [], changes := [], trips := [], n := 8 } := by
  exact C9_recharge_step_empty_pool _ _ _ rfl

/-- C10: `make_payload` keeps at most one typed array in `data`: when both
collections are supplied only `trips` survives (the `status_changes`
assignment is overwritten), and when neither is supplied the payload has a
version tag and no `data` entry. -/
theorem C10_make_payload_single_array (v : String) (sc t : List ℕ) :
    (∀ osc ot, (make_payload v osc ot).version = v ∧
      ((make_payload v osc ot).data = none ∨
       (∃ xs, (make_payload v osc ot).data = some (PayloadData.status_changes xs)) ∨
       (∃ xs, (make_payload v osc ot).data = some (PayloadData.trips xs)))) ∧
    make_payload v (some sc) (some t) = { version := v, data := some (PayloadData.trips t) } ∧
    make_payload v none none = { version := v, data := none } := by
  refine ⟨fun osc ot => ?_, rfl, rfl⟩
  cases osc <;> cases ot <;> simp [make_payload]

end MdsFake

namespace MdsFake

/-! ### Claim C7, with the supporting lemmas about `service_hour` -/


theorem err_bind {α β : Type} (e : String) (f : α → Except String β) :
    ((Except.error e : Except String α) >>= f) = Except.error e := rfl

theorem clamp01_bounds (x : ℚ) : 0 ≤ clamp01 x ∧ clamp01 x ≤ 1 := by
  unfold clamp01
  constructor
  · exact le_max_left 0 _
  · rcases le_total x 1 with h | h
    · simp [min_eq_left h]
    · simp [min_eq_right h]

theorem randintD_bounds (g : Oracle) (n : ℕ) (a b : ℤ) (hab : a ≤ b) :
    a ≤ (randintD g n a b).1 ∧ (randintD g n a b).1 ≤ b := by
  unfold randintD
  have hm : (0 : ℤ) < b - a + 1 := by omega
  have h1 : 0 ≤ (g.ri n : ℤ) % (b - a + 1) := Int.emod_nonneg _ (by omega)
  have h2 : (g.ri n : ℤ) % (b - a + 1) < b - a + 1 := Int.emod_lt_of_pos _ hm
  constructor <;> simp <;> omega

theorem rdf_bounds_both (g : Oracle) (n : ℕ) (date : ℚ) (m M : ℤ) (hmM : (m : ℚ) ≤ M) :
    date + m ≤ (random_date_from g n date (some m) (some M)).1 ∧
    (random_date_from g n date (some m) (some M)).1 ≤ date + M := by
  unfold random_date_from uniformD
  obtain ⟨hc0, hc1⟩ := clamp01_bounds (g.u n)
  constructor
  · simp only
    nlinarith
  · simp only
    nlinarith

theorem rdf_bounds_max (g : Oracle) (n : ℕ) (date : ℚ) (M : ℤ) (hM : 0 ≤ M) :
    date ≤ (random_date_from g n date none (some M)).1 ∧
    (random_date_from g n date none (some M)).1 ≤ date + M := by
  obtain ⟨hc0, hc1⟩ := clamp01_bounds (g.u (n + 1))
  obtain ⟨hr0, hr1⟩ := randintD_bounds g n 0 M hM
  have he : (random_date_from g n date none (some M)).1 =
      date + (((randintD g n 0 M).1 : ℚ) +
        ((M : ℚ) - ((randintD g n 0 M).1 : ℚ)) * clamp01 (g.u (n + 1))) := rfl
  have hm0 : (0 : ℚ) ≤ ((randintD g n 0 M).1 : ℚ) := by exact_mod_cast hr0
  have hm1 : ((randintD g n 0 M).1 : ℚ) ≤ (M : ℚ) := by exact_mod_cast hr1
  rw [he]
  constructor <;> nlinarith

theorem rdf_bounds_min (g : Oracle) (n : ℕ) (date : ℚ) (m : ℤ) (hm : m ≤ 3600) :
    date + m ≤ (random_date_from g n date (some m) none).1 ∧
    (random_date_from g n date (some m) none).1 ≤ date + 3600 := by
  obtain ⟨hc0, hc1⟩ := clamp01_bounds (g.u (n + 1))
  obtain ⟨hr0, hr1⟩ := randintD_bounds g n m 3600 hm
  have he : (random_date_from g n date (some m) none).1 =
      date + ((m : ℚ) +
        (((randintD g n m 3600).1 : ℚ) - (m : ℚ)) * clamp01 (g.u (n + 1))) := rfl
  have hm0 : (m : ℚ) ≤ ((randintD g n m 3600).1 : ℚ) := by exact_mod_cast hr0
  have hm1 : ((randintD g n m 3600).1 : ℚ) ≤ (3600 : ℚ) := by exact_mod_cast hr1
  rw [he]
  constructor <;> nlinarith

theorem drain_ok_fields {d : Device} {a r : ℚ} {d' : Device}
    (h : drain_battery d a r = Except.ok d') :
    d'.device_id = d.device_id ∧ d'.propulsion_type = d.propulsion_type ∧
    d'.event_time = d.event_time := by
  unfold drain_battery at h
  by_cases hb : has_battery d
  · simp only [hb, if_true] at h
    cases hbat : d.battery_pct with
    | none => rw [hbat] at h; simp at h
    | some b => rw [hbat] at h; simp at h; rw [← h]; exact ⟨rfl, rfl, rfl⟩
  · simp only [hb, if_false, Bool.false_eq_true] at h
    simp at h
    rw [← h]
    exact ⟨rfl, rfl, rfl⟩

theorem device_trip_spec {c : Ctx} {g : Oracle} {d : Device} {loc : Feature}
    {rt : ℚ} {n : ℕ} {evs : List Event} {trip : TripRec} {d' : Device} {n' : ℕ}
    (h : device_trip c g d loc rt n = Except.ok (evs, trip, d', n')) :
    d'.device_id = d.device_id ∧
    trip.device.device_id = d.device_id ∧
    ∃ t dur endLoc,
      rt ≤ t ∧ t ≤ rt + 3600 ∧ 0 ≤ dur ∧
      evs = [status_change_event c d "reserved" "user_pick_up" t loc,
             status_change_event c d' "available" "user_drop_off" (t + dur) endLoc] := by
  have hT := rdf_bounds_both g n rt 0 3600 (by norm_num)
  unfold device_trip at h
  by_cases hb : has_battery d
  · simp only [hb, if_true] at h
    cases hdr : drain_battery d (c.speed / 100)
        ((|g.q (random_date_from g n rt (some 0) (some 3600)).2| * 60 * c.speed * (4/5)) /
          (c.sqrtQ (|g.q (random_date_from g n rt (some 0) (some 3600)).2| * 60 * c.speed * (4/5)) * 200)) with
    | error e =>
      rw [hdr, err_bind] at h
      exact absurd h (by simp)
    | ok dd =>
      rw [hdr, ok_bind] at h
      simp only [Except.ok.injEq, Prod.mk.injEq] at h
      obtain ⟨hevs, htrip, hdd, hn⟩ := h
      obtain ⟨hid, _, _⟩ := drain_ok_fields hdr
      subst hdd
      refine ⟨hid, ?_, ?_⟩
      · rw [← htrip]; exact hid
      · exact ⟨(random_date_from g n rt (some 0) (some 3600)).1,
          |g.q (random_date_from g n rt (some 0) (some 3600)).2| * 60,
          { point := g.pt ((random_date_from g n rt (some 0) (some 3600)).2 + 1 + 1),
            timestamp := (random_date_from g n rt (some 0) (some 3600)).1 +
              |g.q (random_date_from g n rt (some 0) (some 3600)).2| * 60 },
          by simpa using hT.1, by simpa using hT.2, by positivity, hevs.symm⟩
  · simp only [hb, if_false, Bool.false_eq_true] at h
    rw [ok_bind] at h
    simp only [Except.ok.injEq, Prod.mk.injEq] at h
    obtain ⟨hevs, htrip, hdd, hn⟩ := h
    subst hdd
    refine ⟨rfl, ?_, ?_⟩
    · rw [← htrip]
    · exact ⟨(random_date_from g n rt (some 0) (some 3600)).1,
        |g.q (random_date_from g n rt (some 0) (some 3600)).2| * 60,
        { point := g.pt ((random_date_from g n rt (some 0) (some 3600)).2 + 1 + 1),
          timestamp := (random_date_from g n rt (some 0) (some 3600)).1 +
            |g.q (random_date_from g n rt (some 0) (some 3600)).2| * 60 },
        by simpa using hT.1, by simpa using hT.2, by positivity, hevs.symm⟩



theorem battery_low_some {d : Device} {b : ℚ} (hb : has_battery d = true)
    (hs : d.battery_pct = some b) :
    battery_low d = Except.ok (decide (b < 1/5)) := by
  unfold battery_low
  rw [hb, hs]
  simp

theorem battery_low_none {d : Device} (hb : has_battery d = true)
    (hn : d.battery_pct = none) :
    battery_low d = Except.error "KeyError: battery_pct" := by
  unfold battery_low
  rw [hb, hn]
  simp

theorem battery_low_nobat {d : Device} (hb : has_battery d = false) :
    battery_low d = Except.ok false := by
  unfold battery_low
  rw [hb]
  simp

theorem getD_set_ne {α : Type} (l : List α) (i j : ℕ) (a dflt : α) (hij : j ≠ i) :
    (l.set i a).getD j dflt = l.getD j dflt := by
  simp [List.getD, List.getElem?_set_ne (Ne.symm hij)]

theorem getD_set_id (l : List Device) (idx : ℕ) (d' : Device)
    (hid : d'.device_id = (l.getD idx defaultDevice).device_id) :
    ∀ j, ((l.set idx d').getD j defaultDevice).device_id
        = (l.getD j defaultDevice).device_id := by
  intro j
  by_cases hj : j = idx
  · subst hj
    by_cases hlt : j < l.length
    · rw [show (l.set j d').getD j defaultDevice = d' by
        simp [List.getD, List.getElem?_set_self, hlt]]
      exact hid
    · rw [List.set_eq_of_length_le (le_of_not_lt hlt)]
  · rw [getD_set_ne _ _ _ _ _ hj]

theorem evId_status (c : Ctx) (d : Device) (a b : String) (t : ℚ) (loc : Feature) :
    evId (status_change_event c d a b t loc) = d.device_id := rfl

theorem step_low {c : Ctx} {g : Oracle} {st : HourState} {idx : ℕ} {d : Device} {b : ℚ}
    (hd : st.devices.getD idx defaultDevice = d)
    (hhb : has_battery d = true) (hbat : d.battery_pct = some b) (hlow : b < 1/5)
    (hni : d ∉ st.active) :
    service_hour_step c g st idx = Except.ok { st with
      removed := st.removed ++ [{ d with event_time := some (st.times.getD idx 0) }],
      changes := st.changes ++ [device_lowbattery c d (st.times.getD idx 0)
        (st.locations.getD idx defaultFeature)] } := by
  simp only [service_hour_step, hd]
  rw [battery_low_some hhb hbat, ok_bind, decide_eq_true hlow, if_pos rfl]
  rw [List.erase_append_right _ hni, List.erase_cons_head]
  simp [device_lowbattery, status_change_event]

theorem step_effect {c : Ctx} {g : Oracle} {st st2 : HourState} {idx : ℕ}
    (h : service_hour_step c g st idx = Except.ok st2) :
    st2.devices.length = st.devices.length ∧
    st2.times.length = st.times.length ∧
    st2.locations.length = st.locations.length ∧
    (∀ j, j ≠ idx →
      st2.devices.getD j defaultDevice = st.devices.getD j defaultDevice ∧
      st2.times.getD j 0 = st.times.getD j 0 ∧
      st2.locations.getD j defaultFeature = st.locations.getD j defaultFeature) ∧
    (∀ j, (st2.devices.getD j defaultDevice).device_id
        = (st.devices.getD j defaultDevice).device_id) ∧
    (∃ dc dr dt,
      st2.changes = st.changes ++ dc ∧
      st2.removed = st.removed ++ dr ∧
      st2.trips = st.trips ++ dt ∧
      (∀ e ∈ dc, evId e = (st.devices.getD idx defaultDevice).device_id) ∧
      (∀ r ∈ dr, r.device_id = (st.devices.getD idx defaultDevice).device_id) ∧
      (∀ t ∈ dt, t.device.device_id = (st.devices.getD idx defaultDevice).device_id)) ∧
    (∀ a ∈ st2.active, a ∈ st.active ∨
      a.device_id = (st.devices.getD idx defaultDevice).device_id) := by
  simp only [service_hour_step] at h
  cases hbl : battery_low (st.devices.getD idx defaultDevice) with
  | error e =>
    rw [hbl, err_bind] at h
    exact absurd h (by simp)
  | ok low =>
    rw [hbl, ok_bind] at h
    cases low with
    | true =>
      rw [if_pos rfl] at h
      simp only [Except.ok.injEq] at h
      subst h
      refine ⟨rfl, rfl, rfl, fun j hj => ⟨rfl, rfl, rfl⟩, fun j => rfl,
        ⟨[device_lowbattery c (st.devices.getD idx defaultDevice)
            (st.times.getD idx 0) (st.locations.getD idx defaultFeature)],
         [{ st.devices.getD idx defaultDevice with
            event_time := some (device_lowbattery c (st.devices.getD idx defaultDevice)
              (st.times.getD idx 0) (st.locations.getD idx defaultFeature)).event_time }],
         [], rfl, rfl, (List.append_nil _).symm, ?_, ?_, by simp⟩, ?_⟩
      · intro e he
        simp only [List.mem_singleton] at he
        subst he
        rfl
      · intro r hr
        simp only [List.mem_singleton] at hr
        subst hr
        rfl
      · intro a ha
        have hmem := List.mem_of_mem_erase ha
        rcases List.mem_append.1 hmem with h1 | h2
        · exact Or.inl h1
        · simp only [List.mem_singleton] at h2
          subst h2
          exact Or.inr rfl
    | false =>
      rw [if_neg (by simp)] at h
      cases htt : g.b st.n with
      | true =>
        rw [htt, if_pos rfl] at h
        cases hdt : device_trip c g (st.devices.getD idx defaultDevice)
            (st.locations.getD idx defaultFeature) (st.times.getD idx 0) (st.n + 1) with
        | error e =>
          rw [hdt, err_bind] at h
          exact absurd h (by simp)
        | ok val =>
          obtain ⟨evs, trip, d', n2⟩ := val
          rw [hdt, ok_bind] at h
          simp only [Except.ok.injEq] at h
          subst h
          obtain ⟨hid', htrip, t, dur, endLoc, _, _, _, hevs⟩ := device_trip_spec hdt
          simp only at hid' htrip hevs ⊢
          refine ⟨by simp, by simp, by simp,
            fun j hj => ⟨getD_set_ne _ _ _ _ _ hj, getD_set_ne _ _ _ _ _ hj,
              getD_set_ne _ _ _ _ _ hj⟩,
            getD_set_id _ _ _ hid',
            ⟨evs, [], [trip], rfl, (List.append_nil _).symm, rfl, ?_, by simp, ?_⟩, ?_⟩
          · intro e he
            rw [hevs] at he
            simp only [List.mem_cons, List.not_mem_nil, or_false] at he
            rcases he with he | he
            · subst he
              rfl
            · subst he
              rw [evId_status]
              exact hid'
          · intro tr htr
            simp only [List.mem_singleton] at htr
            subst htr
            exact htrip
          · intro a ha
            rcases List.mem_append.1 ha with h1 | h2
            · exact Or.inl h1
            · simp only [List.mem_singleton] at h2
              subst h2
              exact Or.inr hid'
      | false =>
        rw [htt] at h
        simp only [Bool.false_eq_true, if_false] at h
        by_cases hb : has_battery (st.devices.getD idx defaultDevice)
        · rw [if_pos hb] at h
          cases hdr : drain_battery (st.devices.getD idx defaultDevice) 0
              (uniformD g (st.n + 1) 0 (1/20)).1 with
          | error e =>
            rw [hdr, err_bind] at h
            exact absurd h (by simp)
          | ok d'' =>
            rw [hdr, ok_bind] at h
            simp only [Except.ok.injEq] at h
            subst h
            obtain ⟨hid'', _, _⟩ := drain_ok_fields hdr
            refine ⟨by simp, rfl, rfl,
              fun j hj => ⟨getD_set_ne _ _ _ _ _ hj, rfl, rfl⟩,
              getD_set_id _ _ _ hid'',
              ⟨[], [], [], (List.append_nil _).symm, (List.append_nil _).symm,
                (List.append_nil _).symm, by simp, by simp, by simp⟩, ?_⟩
            intro a ha
            rcases List.mem_append.1 ha with h1 | h2
            · exact Or.inl h1
            · simp only [List.mem_singleton] at h2
              subst h2
              exact Or.inr hid''
        · rw [if_neg hb] at h
          simp only [Except.ok.injEq] at h
          subst h
          refine ⟨rfl, rfl, rfl, fun j hj => ⟨rfl, rfl, rfl⟩, fun j => rfl,
            ⟨[], [], [], (List.append_nil _).symm, (List.append_nil _).symm,
              (List.append_nil _).symm, by simp, by simp, by simp⟩, ?_⟩
          intro a ha
          rcases List.mem_append.1 ha with h1 | h2
          · exact Or.inl h1
          · simp only [List.mem_singleton] at h2
            subst h2
            exact Or.inr rfl



theorem go_append (c : Ctx) (g : Oracle) (is1 is2 : List ℕ) (st : HourState) :
    service_hour_go c g (is1 ++ is2) st =
      service_hour_go c g is1 st >>= service_hour_go c g is2 := by
  induction is1 generalizing st with
  | nil => simp [service_hour_go, ok_bind]
  | cons j js ih =>
    simp only [List.cons_append, service_hour_go]
    cases hs : service_hour_step c g st j with
    | error e => rw [err_bind, err_bind, err_bind]
    | ok st1 =>
      rw [ok_bind, ok_bind]
      exact ih st1

theorem go_preserves {c : Ctx} {g : Oracle} {is : List ℕ} {st st' : HourState}
    (h : service_hour_go c g is st = Except.ok st') {i0 : ℕ} {idx : ℕ}
    (hidx : idx ∉ is)
    (hfresh : ∀ j ∈ is, (st.devices.getD j defaultDevice).device_id ≠ i0) :
    (st'.devices.getD idx defaultDevice = st.devices.getD idx defaultDevice ∧
     st'.times.getD idx 0 = st.times.getD idx 0 ∧
     st'.locations.getD idx defaultFeature = st.locations.getD idx defaultFeature) ∧
    (∀ j, (st'.devices.getD j defaultDevice).device_id
        = (st.devices.getD j defaultDevice).device_id) ∧
    st'.changes.filter (fun e => evId e == i0)
      = st.changes.filter (fun e => evId e == i0) ∧
    st'.removed.filter (fun r => r.device_id == i0)
      = st.removed.filter (fun r => r.device_id == i0) ∧
    st'.trips.filter (fun t => t.device.device_id == i0)
      = st.trips.filter (fun t => t.device.device_id == i0) ∧
    (∀ a ∈ st'.active, a ∈ st.active ∨ a.device_id ≠ i0) := by
  induction is generalizing st with
  | nil =>
    rw [service_hour_go] at h
    simp only [Except.ok.injEq] at h
    subst h
    exact ⟨⟨rfl, rfl, rfl⟩, fun j => rfl, rfl, rfl, rfl, fun a ha => Or.inl ha⟩
  | cons j js ih =>
    rw [service_hour_go] at h
    cases hs : service_hour_step c g st j with
    | error e =>
      rw [hs, err_bind] at h
      exact absurd h (by simp)
    | ok st1 =>
      rw [hs, ok_bind] at h
      obtain ⟨_, _, _, huntouched, hids, ⟨dc, dr, dt, hch, hrm, htr, hdc, hdr, hdt⟩, hact⟩ :=
        step_effect hs
      have hjfresh : (st.devices.getD j defaultDevice).device_id ≠ i0 :=
        hfresh j (List.mem_cons_self _ _)
      have hfresh1 : ∀ j' ∈ js, (st1.devices.getD j' defaultDevice).device_id ≠ i0 := by
        intro j' hj'
        rw [hids j']
        exact hfresh j' (List.mem_cons_of_mem _ hj')
      have hidx1 : idx ∉ js := fun hc => hidx (List.mem_cons_of_mem _ hc)
      obtain ⟨⟨hd1, ht1, hl1⟩, hids1, hch1, hrm1, htr1, hact1⟩ := ih h hidx1 hfresh1
      have hjidx : idx ≠ j := fun hc => hidx (hc ▸ List.mem_cons_self _ _)
      obtain ⟨hdj, htj, hlj⟩ := huntouched idx hjidx
      refine ⟨⟨hd1.trans hdj, ht1.trans htj, hl1.trans hlj⟩,
        fun j' => (hids1 j').trans (hids j'), ?_, ?_, ?_, ?_⟩
      · rw [hch1, hch, List.filter_append]
        have hnil : dc.filter (fun e => evId e == i0) = [] := by
          rw [List.filter_eq_nil_iff]
          intro e he
          simp only [beq_iff_eq]
          rw [hdc e he]
          exact hjfresh
        rw [hnil, List.append_nil]
      · rw [hrm1, hrm, List.filter_append]
        have hnil : dr.filter (fun r => r.device_id == i0) = [] := by
          rw [List.filter_eq_nil_iff]
          intro r hr
          simp only [beq_iff_eq]
          rw [hdr r hr]
          exact hjfresh
        rw [hnil, List.append_nil]
      · rw [htr1, htr, List.filter_append]
        have hnil : dt.filter (fun t => t.device.device_id == i0) = [] := by
          rw [List.filter_eq_nil_iff]
          intro t ht
          simp only [beq_iff_eq]
          rw [hdt t ht]
          exact hjfresh
        rw [hnil, List.append_nil]
      · intro a ha
        rcases hact1 a ha with h1 | h1
        · rcases hact a h1 with h2 | h2
          · exact Or.inl h2
          · exact Or.inr (h2 ▸ hjfresh)
        · exact Or.inr h1

theorem getD_eq_get {α : Type} (l : List α) (i : ℕ) (d : α) (h : i < l.length) :
    l.getD i d = l.get ⟨i, h⟩ := by
  simp [List.getD, List.getElem?_eq_getElem h, List.get_eq_getElem]

theorem nodup_ids_getD {l : List Device} (h : (l.map Device.device_id).Nodup)
    {i j : ℕ} (hi : i < l.length) (hj : j < l.length) (hij : i ≠ j) :
    (l.getD i defaultDevice).device_id ≠ (l.getD j defaultDevice).device_id := by
  intro hc
  rw [getD_eq_get _ _ _ hi, getD_eq_get _ _ _ hj] at hc
  have hi' : i < (l.map Device.device_id).length := by simpa
  have hj' : j < (l.map Device.device_id).length := by simpa
  have hget : (l.map Device.device_id).get ⟨i, hi'⟩ = (l.map Device.device_id).get ⟨j, hj'⟩ := by
    simp only [List.get_eq_getElem, List.getElem_map]
    simpa using hc
  have := List.Nodup.get_inj_iff h |>.1 hget
  simp at this
  exact hij this



theorem range_split (N idx : ℕ) (h : idx < N) :
    List.range N = List.range idx ++ idx :: List.range' (idx + 1) (N - idx - 1) := by
  rw [List.range_eq_range']
  have h1 : N = (N - idx) + idx := by omega
  rw [h1, ← List.range'_append 0 idx (N - idx) 1]
  congr 1
  · simp [List.range_eq_range']
  · have h2 : N - idx = (N - idx - 1) + 1 := by omega
    rw [show (0 + 1 * idx) = idx by omega, h2, List.range'_succ]
    have h3 : N - idx - 1 + 1 + idx - idx - 1 = N - idx - 1 := by omega
    rw [h3]

/-- C7: in `service_hour`, every processed device that has a battery with
level below 0.2 emits exactly one `unavailable:low_battery` status change,
at its current tracked time and location; it appears exactly once in the
returned removed list, carrying the removal event time in its `event_time`
key; it does not appear in the returned active list; and no trip of the
hour is attributed to it.  Devices are identified by `device_id`, assumed
distinct across the roster as `devices()` guarantees via `uuid4`. -/
theorem C7_low_battery_removal (c : Ctx) (g : Oracle) (devices : List Device)
    (times : List ℚ) (locations : List Feature) (ia : ℚ) (n : ℕ) (out : HourOut)
    (hok : service_hour c g devices times locations ia n = Except.ok out)
    (hnd : (devices.map Device.device_id).Nodup)
    (idx : ℕ) (hidx : idx < devices.length)
    (hhb : has_battery (devices.getD idx defaultDevice) = true)
    (b : ℚ) (hbat : (devices.getD idx defaultDevice).battery_pct = some b)
    (hlow : b < 1/5) :
    out.changes.filter (fun e => evId e == (devices.getD idx defaultDevice).device_id)
      = [device_lowbattery c (devices.getD idx defaultDevice)
          (times.getD idx 0) (locations.getD idx defaultFeature)] ∧
    out.removed.filter (fun r => r.device_id == (devices.getD idx defaultDevice).device_id)
      = [{ devices.getD idx defaultDevice with event_time := some (times.getD idx 0) }] ∧
    (∀ a ∈ out.active, a.device_id ≠ (devices.getD idx defaultDevice).device_id) ∧
    out.trips.filter
      (fun t => t.device.device_id == (devices.getD idx defaultDevice).device_id) = [] := by
  unfold service_hour at hok
  cases hgo : service_hour_go c g (List.range devices.length)
      { active := [], removed := [], changes := [], trips := [],
        devices := devices, times := times, locations := locations, n := n } with
  | error e =>
    rw [hgo, err_bind] at hok
    exact absurd hok (by simp)
  | ok stF =>
    rw [hgo, ok_bind] at hok
    simp only [Except.ok.injEq] at hok
    subst hok
    rw [range_split devices.length idx hidx, go_append] at hgo
    cases hA : service_hour_go c g (List.range idx)
        { active := [], removed := [], changes := [], trips := [],
          devices := devices, times := times, locations := locations, n := n } with
    | error e =>
      rw [hA, err_bind] at hgo
      exact absurd hgo (by simp)
    | ok st1 =>
      rw [hA, ok_bind] at hgo
      have hidxA : idx ∉ List.range idx := by simp
      have hfreshA : ∀ j ∈ List.range idx,
          (devices.getD j defaultDevice).device_id
            ≠ (devices.getD idx defaultDevice).device_id := by
        intro j hj
        have hjlt : j < idx := List.mem_range.1 hj
        exact nodup_ids_getD hnd (lt_trans hjlt hidx) hidx (Nat.ne_of_lt hjlt)
      obtain ⟨⟨hdev1, htime1, hloc1⟩, hids1, hchf1, hrmf1, htrf1, hact1⟩ :=
        go_preserves hA hidxA hfreshA
      have hni : devices.getD idx defaultDevice ∉ st1.active := by
        intro hc
        rcases hact1 _ hc with h1 | h1
        · exact absurd h1 (List.not_mem_nil _)
        · exact h1 rfl
      have hstep := step_low (c := c) (g := g) hdev1 hhb hbat hlow hni
      rw [service_hour_go, hstep, ok_bind] at hgo
      have hidxB : idx ∉ List.range' (idx + 1) (devices.length - idx - 1) := by
        intro hc
        have := (List.mem_range'_1).1 hc
        omega
      have hfreshB : ∀ j ∈ List.range' (idx + 1) (devices.length - idx - 1),
          (st1.devices.getD j defaultDevice).device_id
            ≠ (devices.getD idx defaultDevice).device_id := by
        intro j hj
        have hjr := (List.mem_range'_1).1 hj
        have hjlt : j < devices.length := by omega
        have hjne : j ≠ idx := by omega
        rw [hids1 j]
        exact nodup_ids_getD hnd hjlt hidx hjne
      obtain ⟨_, hids3, hchf3, hrmf3, htrf3, hact3⟩ := go_preserves hgo hidxB hfreshB
      have hbeq : (evId (device_lowbattery c (devices.getD idx defaultDevice)
          (st1.times.getD idx 0) (st1.locations.getD idx defaultFeature))
            == (devices.getD idx defaultDevice).device_id) = true := by
        simp [evId, device_lowbattery, status_change_event]
      refine ⟨?_, ?_, ?_, ?_⟩
      · show stF.changes.filter _ = _
        rw [hchf3]
        show (st1.changes ++ [_]).filter _ = _
        rw [List.filter_append, hchf1]
        show List.filter _ [] ++ _ = _
        rw [List.filter_nil, List.nil_append, List.filter_cons, hbeq]
        rw [htime1, hloc1]
        rfl
      · show stF.removed.filter _ = _
        rw [hrmf3]
        show (st1.removed ++ [_]).filter _ = _
        rw [List.filter_append, hrmf1]
        show List.filter _ [] ++ _ = _
        rw [List.filter_nil, List.nil_append, List.filter_cons]
        rw [show (({ devices.getD idx defaultDevice with
            event_time := some (st1.times.getD idx 0) } : Device).device_id
              == (devices.getD idx defaultDevice).device_id) = true by simp]
        rw [htime1]
        rfl
      · intro a ha
        have ha' : a ∈ stF.active := ha
        rcases hact3 a ha' with h1 | h1
        · rcases hact1 a h1 with h2 | h2
          · exact absurd h2 (List.not_mem_nil _)
          · exact h2
        · exact h1
      · show stF.trips.filter _ = _
        rw [htrf3]
        show st1.trips.filter _ = _
        rw [htrf1]
        rfl



/-- C7 witness: one drained electric device; the hour emits exactly its
low-battery event and moves it to the removed list. -/
theorem C7_low_battery_removal_witness :
    service_hour cW gW [dLow] [0] [defaultFeature] (1/2) 0 = Except.ok wHourOut ∧
    wHourOut.changes.filter (fun e => evId e == dLow.device_id)
      = [device_lowbattery cW dLow 0 defaultFeature] ∧
    wHourOut.removed.filter (fun r => r.device_id == dLow.device_id)
      = [{ dLow with event_time := some 0 }] ∧
    (∀ a ∈ wHourOut.active, a.device_id ≠ dLow.device_id) := by
  have hok : service_hour cW gW [dLow] [0] [defaultFeature] (1/2) 0 = Except.ok wHourOut := by
    have hbl : battery_low dLow = Except.ok true := by
      rw [battery_low_some (by rfl) (show dLow.battery_pct = some 0 by rfl)]
      norm_num
    have hstep : service_hour_step cW gW
        { active := [], removed := [], changes := [], trips := [],
          devices := [dLow], times := [0], locations := [defaultFeature], n := 0 } 0 =
        Except.ok
          { active := [], removed := [{ dLow with event_time := some 0 }],
            changes := [device_lowbattery cW dLow 0 defaultFeature],
            trips := [], devices := [dLow], times := [0],
            locations := [defaultFeature], n := 0 } := by
      simp only [service_hour_step, List.getD_cons_zero, hbl, ok_bind, if_pos rfl]
      rfl
    simp only [service_hour, List.length_singleton, List.range_succ, List.range_zero, List.nil_append, service_hour_go,
      hstep, ok_bind]
    rfl
  have h := C7_low_battery_removal cW gW [dLow] [0] [defaultFeature] (1/2) 0 wHourOut hok
    (by simp [dLow]) 0 (by simp) (by rfl) 0 (by rfl) (by norm_num)
  exact ⟨hok, h.1, h.2.1, h.2.2.1⟩



theorem getD_append_left {α : Type} (l1 l2 : List α) (k : ℕ) (d : α) (h : k < l1.length) :
    (l1 ++ l2).getD k d = l1.getD k d := by
  rw [getD_eq_get _ _ _ (by simp; omega), getD_eq_get _ _ _ h]
  simp [List.get_eq_getElem, List.getElem_append_left h]

theorem getD_append_right {α : Type} (l1 l2 : List α) (k : ℕ) (d : α) (h : k < l2.length) :
    (l1 ++ l2).getD (l1.length + k) d = l2.getD k d := by
  rw [getD_eq_get _ _ _ (by simp; omega), getD_eq_get _ _ _ h]
  simp [List.get_eq_getElem]
  rw [List.getElem_append_right (by omega)]
  congr 1
  omega

theorem getD_map_of_lt {α β : Type} (f : α → β) (l : List α) (k : ℕ) (da : α) (db : β)
    (h : k < l.length) : (l.map f).getD k db = f (l.getD k da) := by
  rw [getD_eq_get _ _ _ (by simpa), getD_eq_get _ _ _ h]
  simp [List.get_eq_getElem]

theorem getD_mem {α : Type} (l : List α) (k : ℕ) (d : α) (h : k < l.length) :
    l.getD k d ∈ l := by
  rw [getD_eq_get _ _ _ h]
  exact List.get_mem l k h

theorem set_getD_self {α : Type} (l : List α) (i : ℕ) (d : α) :
    l.set i (l.getD i d) = l := by
  by_cases h : i < l.length
  · rw [getD_eq_get _ _ _ h]
    simp only [List.get_eq_getElem]
    apply List.ext_getElem?
    intro j
    rw [List.getElem?_set]
    split
    · next heq => subst heq; simp [List.getElem?_eq_getElem h]
    · rfl
  · exact List.set_eq_of_length_le (le_of_not_lt h)

theorem nodup_ids_indexOf_getD (l : List Device) (k : ℕ)
    (hnd : (l.map Device.device_id).Nodup) (hk : k < l.length) :
    l.indexOf (l.getD k defaultDevice) = k := by
  induction l generalizing k with
  | nil => simp at hk
  | cons x xs ih =>
    simp only [List.map_cons, List.nodup_cons] at hnd
    cases k with
    | zero => simp [List.indexOf_cons, List.getD_cons_zero]
    | succ k =>
      have hk' : k < xs.length := by simpa using hk
      have hne : x ≠ xs.getD k defaultDevice := by
        intro hc
        exact hnd.1 (by
          rw [hc]
          exact List.mem_map_of_mem Device.device_id (getD_mem xs k defaultDevice hk'))
      have hbeq : (x == xs.getD k defaultDevice) = false := beq_false_of_ne hne
      simp only [List.getD_cons_succ, List.indexOf_cons, hbeq, cond_false]
      exact congrArg (· + 1) (ih k hnd.2 hk')

theorem range_map_getD {α : Type} (l : List α) (d : α) :
    (List.range l.length).map (fun j => l.getD j d) = l := by
  apply List.ext_getElem
  · simp
  · intro i h1 h2
    simp [List.getD, List.getElem?_eq_getElem h2]

theorem indexOf_append_cons (l1 l2 : List Device) (a : Device) (h : a ∉ l1) :
    (l1 ++ a :: l2).indexOf a = l1.length := by
  induction l1 with
  | nil => simp [List.indexOf_cons]
  | cons x xs ih =>
    simp only [List.mem_cons, not_or] at h
    have hbeq : (x == a) = false := beq_false_of_ne (fun hc => h.1 hc.symm)
    simp only [List.cons_append, List.indexOf_cons, hbeq, cond_false]
    rw [ih h.2]
    simp

theorem cons_eraseIdx_perm {α : Type} [DecidableEq α] (l : List α) (i : ℕ) (d : α)
    (h : i < l.length) : (l.getD i d :: l.eraseIdx i).Perm l := by
  rw [getD_eq_get _ _ _ h]
  have h1 : l.Perm (l.get ⟨i, h⟩ :: l.erase (l.get ⟨i, h⟩)) :=
    List.perm_cons_erase (List.get_mem l i h)
  have h2 : (l.erase (l.get ⟨i, h⟩)).Perm (l.eraseIdx i) := by
    simpa [List.get_eq_getElem] using List.erase_getElem h
  exact ((h1.trans (h2.cons _)).symm)

theorem step_cases {c : Ctx} {g : Oracle} {st st2 : HourState} {idx : ℕ}
    (h : service_hour_step c g st idx = Except.ok st2)
    (hni : st.devices.getD idx defaultDevice ∉ st.active) :
    (st2 = { st with
        removed := st.removed ++ [{ st.devices.getD idx defaultDevice with
          event_time := some (st.times.getD idx 0) }],
        changes := st.changes ++ [device_lowbattery c (st.devices.getD idx defaultDevice)
          (st.times.getD idx 0) (st.locations.getD idx defaultFeature)] }) ∨
    (∃ (d' : Device) (t dur : ℚ) (endLoc : Feature) (trip : TripRec) (n2 : ℕ),
      d'.device_id = (st.devices.getD idx defaultDevice).device_id ∧
      trip.device.device_id = (st.devices.getD idx defaultDevice).device_id ∧
      st.times.getD idx 0 ≤ t ∧ t ≤ st.times.getD idx 0 + 3600 ∧ 0 ≤ dur ∧
      st2 = { st with
        active := st.active ++ [d'],
        changes := st.changes ++
          [status_change_event c (st.devices.getD idx defaultDevice)
            "reserved" "user_pick_up" t (st.locations.getD idx defaultFeature),
           status_change_event c d' "available" "user_drop_off" (t + dur) endLoc],
        trips := st.trips ++ [trip],
        times := st.times.set idx (t + dur),
        locations := st.locations.set idx endLoc,
        devices := st.devices.set idx d',
        n := n2 }) ∨
    (∃ (d' : Device) (n2 : ℕ),
      d'.device_id = (st.devices.getD idx defaultDevice).device_id ∧
      st2 = { st with
        active := st.active ++ [d'],
        devices := st.devices.set idx d',
        n := n2 }) := by
  simp only [service_hour_step] at h
  cases hbl : battery_low (st.devices.getD idx defaultDevice) with
  | error e =>
    rw [hbl, err_bind] at h
    exact absurd h (by simp)
  | ok low =>
    rw [hbl, ok_bind] at h
    cases low with
    | true =>
      rw [if_pos rfl] at h
      simp only [Except.ok.injEq] at h
      subst h
      refine Or.inl ?_
      rw [List.erase_append_right _ hni, List.erase_cons_head, List.append_nil]
      simp [device_lowbattery, status_change_event]
    | false =>
      rw [if_neg (by simp)] at h
      cases htt : g.b st.n with
      | true =>
        rw [htt, if_pos rfl] at h
        cases hdt : device_trip c g (st.devices.getD idx defaultDevice)
            (st.locations.getD idx defaultFeature) (st.times.getD idx 0) (st.n + 1) with
        | error e =>
          rw [hdt, err_bind] at h
          exact absurd h (by simp)
        | ok val =>
          obtain ⟨evs, trip, d', n2⟩ := val
          rw [hdt, ok_bind] at h
          simp only [Except.ok.injEq] at h
          subst h
          obtain ⟨hid', htrip', t, dur, endLoc, hT1, hT2, hdur, hevs⟩ := device_trip_spec hdt
          refine Or.inr (Or.inl ⟨d', t, dur, endLoc, trip, n2, hid', htrip',
            hT1, hT2, hdur, ?_⟩)
          rw [hevs]
          simp [List.getLastD, status_change_event]
      | false =>
        rw [htt] at h
        simp only [Bool.false_eq_true, if_false] at h
        by_cases hb : has_battery (st.devices.getD idx defaultDevice)
        · rw [if_pos hb] at h
          cases hdr : drain_battery (st.devices.getD idx defaultDevice) 0
              (uniformD g (st.n + 1) 0 (1/20)).1 with
          | error e =>
            rw [hdr, err_bind] at h
            exact absurd h (by simp)
          | ok d'' =>
            rw [hdr, ok_bind] at h
            simp only [Except.ok.injEq] at h
            subst h
            obtain ⟨hid'', _, _⟩ := drain_ok_fields hdr
            exact Or.inr (Or.inr ⟨d'', (uniformD g (st.n + 1) 0 (1/20)).2, hid'', rfl⟩)
        · rw [if_neg hb] at h
          simp only [Except.ok.injEq] at h
          subst h
          refine Or.inr (Or.inr ⟨st.devices.getD idx defaultDevice, st.n + 1, rfl, ?_⟩)
          rw [set_getD_self]

theorem isInterior_lowbattery (c : Ctx) (d : Device) (t : ℚ) (loc : Feature) :
    isInterior (device_lowbattery c d t loc) = true := rfl

theorem isInterior_pickup (c : Ctx) (d : Device) (t : ℚ) (loc : Feature) :
    isInterior (status_change_event c d "reserved" "user_pick_up" t loc) = true := rfl

theorem isInterior_dropoff (c : Ctx) (d : Device) (t : ℚ) (loc : Feature) :
    isInterior (status_change_event c d "available" "user_drop_off" t loc) = true := rfl

theorem isInterior_maintenance (c : Ctx) (d : Device) (t : ℚ) (loc : Feature) :
    isInterior (status_change_event c d "available" "maintenance_drop_off" t loc)
      = true := rfl

theorem interiorEvents_append (i : ℕ) (l1 l2 : List Event) :
    interiorEvents i (l1 ++ l2) = interiorEvents i l1 ++ interiorEvents i l2 :=
  List.filter_append l1 l2

theorem devEvents_append (i : ℕ) (l1 l2 : List Event) :
    devEvents i (l1 ++ l2) = devEvents i l1 ++ devEvents i l2 :=
  List.filter_append l1 l2

theorem devEvents_single_ne (i : ℕ) (e : Event) (h : evId e ≠ i) :
    devEvents i [e] = [] := by
  simp [devEvents, h]

theorem devEvents_single_eq (i : ℕ) (e : Event) (h : evId e = i) :
    devEvents i [e] = [e] := by
  simp [devEvents, h]

theorem interiorEvents_single_ne (i : ℕ) (e : Event) (h : evId e ≠ i) :
    interiorEvents i [e] = [] := by
  simp [interiorEvents, h]

theorem interiorEvents_single_eq (i : ℕ) (e : Event) (hid : evId e = i)
    (hint : isInterior e = true) : interiorEvents i [e] = [e] := by
  simp [interiorEvents, hid, hint]

theorem interiorEvents_sub (i : ℕ) (l : List Event) :
    ∀ e ∈ interiorEvents i l, e ∈ l ∧ evId e = i ∧ isInterior e = true := by
  intro e he
  unfold interiorEvents at he
  have h1 := List.mem_of_mem_filter he
  have h2 := List.of_mem_filter he
  simp only [Bool.and_eq_true, beq_iff_eq] at h2
  exact ⟨h1, h2.1, h2.2⟩

theorem mem_interiorEvents (i : ℕ) (l : List Event) (e : Event) (he : e ∈ l)
    (hid : evId e = i) (hint : isInterior e = true) : e ∈ interiorEvents i l := by
  unfold interiorEvents
  apply List.mem_filter.2
  exact ⟨he, by simp [hid, hint]⟩

theorem perm_shuffle2 {α : Type} (A R I : List α) (x : α) :
    (((A ++ [x]) ++ R) ++ I).Perm ((A ++ R) ++ (x :: I)) := by
  have h1 : ([x] ++ R).Perm (R ++ [x]) := List.perm_append_comm
  have h2 : ((A ++ [x]) ++ R) ++ I = A ++ (([x] ++ R) ++ I) := by
    simp [List.append_assoc]
  have h3 : (A ++ R) ++ (x :: I) = A ++ ((R ++ [x]) ++ I) := by
    simp [List.append_assoc]
  rw [h2, h3]
  exact (h1.append_right I).append_left A

theorem perm_shuffle1 {α : Type} (A R I : List α) (x : α) :
    ((A ++ (R ++ [x])) ++ I).Perm ((A ++ R) ++ (x :: I)) := by
  have : (A ++ (R ++ [x])) ++ I = (A ++ R) ++ (x :: I) := by simp [List.append_assoc]
  rw [this]

theorem interiorEvents_pair_eq (i : ℕ) (a b : Event) (ha : evId a = i) (hb : evId b = i)
    (hia : isInterior a = true) (hib : isInterior b = true) :
    interiorEvents i [a, b] = [a, b] := by
  unfold interiorEvents
  simp [List.filter_cons, ha, hb, hia, hib]

theorem interiorEvents_pair_ne (i : ℕ) (a b : Event) (ha : evId a ≠ i) (hb : evId b ≠ i) :
    interiorEvents i [a, b] = [] := by
  unfold interiorEvents
  simp [List.filter_cons, ha, hb]

theorem devEvents_pair_eq (i : ℕ) (a b : Event) (ha : evId a = i) (hb : evId b = i) :
    devEvents i [a, b] = [a, b] := by
  unfold devEvents
  simp [List.filter_cons, ha, hb]

theorem devEvents_pair_ne (i : ℕ) (a b : Event) (ha : evId a ≠ i) (hb : evId b ≠ i) :
    devEvents i [a, b] = [] := by
  unfold devEvents
  simp [List.filter_cons, ha, hb]

theorem perm_active_gain (A R : List Device) (I : List ℕ) (f : ℕ → ℕ) (x : Device)
    (j : ℕ) (hx : x.device_id = f j) :
    (((A ++ [x]) ++ R).map Device.device_id ++ I.map f).Perm
      ((A ++ R).map Device.device_id ++ (j :: I).map f) := by
  simp only [List.map_append, List.map_cons, List.map_nil]
  rw [hx]
  have h1 : (([f j] ++ R.map Device.device_id) ++ I.map f).Perm
      ((R.map Device.device_id ++ [f j]) ++ I.map f) :=
    List.Perm.append_right _ List.perm_append_comm
  have h2 := (h1.append_left (A.map Device.device_id))
  refine List.Perm.trans ?_ (List.Perm.trans h2 ?_)
  · apply List.Perm.of_eq
    simp [List.append_assoc]
  · apply List.Perm.of_eq
    simp [List.append_assoc]

theorem step_preserves_HourInv {c : Ctx} {g : Oracle} {dayCh : List Event}
    {j : ℕ} {is : List ℕ} {st st2 : HourState}
    (inv : HourInv dayCh (j :: is) st)
    (h : service_hour_step c g st j = Except.ok st2) :
    HourInv dayCh is st2 := by
  have hjlt : j < st.devices.length := inv.bound j (List.mem_cons_self _ _)
  have hLnd := (inv.perm.nodup_iff).2 inv.ndev
  rw [List.nodup_append] at hLnd
  obtain ⟨hARnd, hInd, hdisj⟩ := hLnd
  have hidj_mem : (st.devices.getD j defaultDevice).device_id
      ∈ (j :: is).map (fun j' => (st.devices.getD j' defaultDevice).device_id) :=
    List.mem_map_of_mem _ (List.mem_cons_self _ _)
  have hid_fresh : ∀ x ∈ st.active ++ st.removed,
      x.device_id ≠ (st.devices.getD j defaultDevice).device_id := by
    intro x hx hc
    exact hdisj (List.mem_map_of_mem _ hx) (hc ▸ hidj_mem)
  have hni : st.devices.getD j defaultDevice ∉ st.active := fun hc =>
    hid_fresh _ (List.mem_append_left _ hc) rfl
  have hIsNe : ∀ j' ∈ is,
      (st.devices.getD j' defaultDevice).device_id
        ≠ (st.devices.getD j defaultDevice).device_id := by
    intro j' hj' hc
    rw [List.map_cons, List.nodup_cons] at hInd
    exact hInd.1 (hc ▸ List.mem_map_of_mem _ hj')
  obtain ⟨hupJ, hlastJ⟩ := inv.pristine j (List.mem_cons_self _ _)
  have histail : ∀ j' ∈ is, j' ∈ j :: is := fun j' hj' => List.mem_cons_of_mem _ hj'
  rcases step_cases h hni with heq
      | ⟨d', t, dur, endLoc, trip, n2, hid', htripid, hT1, hT2, hdur, heq⟩
      | ⟨d', n2, hid', heq⟩
  -- Outcome 1: low battery
  · have hevid : evId (device_lowbattery c (st.devices.getD j defaultDevice)
        (st.times.getD j 0) (st.locations.getD j defaultFeature))
        = (st.devices.getD j defaultDevice).device_id := rfl
    have hevtime : (device_lowbattery c (st.devices.getD j defaultDevice)
        (st.times.getD j 0) (st.locations.getD j defaultFeature)).event_time
        = st.times.getD j 0 := rfl
    have hevloc : (device_lowbattery c (st.devices.getD j defaultDevice)
        (st.times.getD j 0) (st.locations.getD j defaultFeature)).event_location
        = st.locations.getD j defaultFeature := rfl
    subst heq
    refine { len_t := inv.len_t, len_l := inv.len_l, ndev := inv.ndev,
             bound := fun j' hj' => inv.bound j' (histail j' hj'),
             isnd := (List.nodup_cons.1 inv.isnd).2,
             perm := ?_, sorted := ?_, chain := ?_, pristine := ?_,
             tracked := ?_, removed_ub := ?_, hourly := ?_,
             trips_attrib := inv.trips_attrib }
    · show ((st.active ++ (st.removed ++ [_])).map Device.device_id ++ _).Perm _
      refine List.Perm.trans ?_ inv.perm
      simp only [List.map_append, List.map_cons]
      have := perm_shuffle1 (st.active.map Device.device_id)
        (st.removed.map Device.device_id)
        (is.map (fun j' => (st.devices.getD j' defaultDevice).device_id))
        (st.devices.getD j defaultDevice).device_id
      simp only [List.map_cons] at this
      exact this
    · intro i
      show timesSorted (interiorEvents i (dayCh ++ (st.changes ++ [_])))
      rw [← List.append_assoc, interiorEvents_append]
      by_cases hii : (st.devices.getD j defaultDevice).device_id = i
      · rw [interiorEvents_single_eq i _ (hevid.trans hii) (isInterior_lowbattery ..)]
        refine List.pairwise_append.2 ⟨inv.sorted i, List.pairwise_singleton _ _, ?_⟩
        intro a ha b hb
        rw [List.mem_singleton] at hb
        subst hb
        obtain ⟨hmem, hid, hint⟩ := interiorEvents_sub i _ a ha
        rw [hevtime]
        exact hupJ a hmem (by rw [hid, hii]) hint
      · rw [interiorEvents_single_ne i _ (fun hc => hii (hevid.symm.trans hc)),
          List.append_nil]
        exact inv.sorted i
    · intro i
      show locChain (devEvents i (dayCh ++ (st.changes ++ [_])))
      rw [← List.append_assoc, devEvents_append]
      by_cases hii : (st.devices.getD j defaultDevice).device_id = i
      · rw [devEvents_single_eq i _ (hevid.trans hii)]
        rw [locChain, List.chain'_append]
        refine ⟨inv.chain i, List.chain'_singleton _, ?_⟩
        intro x hx y hy
        rw [List.head?_cons, Option.mem_some_iff] at hy
        subst hy
        obtain ⟨e, hlast, hloc⟩ := hlastJ
        rw [← hii] at hx
        rw [hlast, Option.mem_some_iff] at hx
        subst hx
        right; right
        rw [hevloc, hloc]
      · rw [devEvents_single_ne i _ (fun hc => hii (hevid.symm.trans hc)),
          List.append_nil]
        exact inv.chain i
    · intro j' hj'
      obtain ⟨hup, hlast⟩ := inv.pristine j' (histail j' hj')
      have hne : (st.devices.getD j' defaultDevice).device_id
          ≠ (st.devices.getD j defaultDevice).device_id := hIsNe j' hj'
      constructor
      · intro e he hid hint
        rw [← List.append_assoc, List.mem_append] at he
        rcases he with he | he
        · exact hup e he hid hint
        · rw [List.mem_singleton] at he
          subst he
          exact absurd (hevid.symm.trans hid).symm hne
      · obtain ⟨e, hlast', hloc⟩ := hlast
        refine ⟨e, ?_, hloc⟩
        show (devEvents _ (dayCh ++ (st.changes ++ [_]))).getLast? = some e
        rw [← List.append_assoc, devEvents_append, devEvents_single_ne _ _
          (fun hc => hne (hevid.symm.trans hc).symm), List.append_nil]
        exact hlast'
    · intro a ha
      have ha' : a ∈ st.active := ha
      obtain ⟨k, hk, hgk, hup, hlast⟩ := inv.tracked a ha'
      have hane : a.device_id ≠ (st.devices.getD j defaultDevice).device_id :=
        hid_fresh a (List.mem_append_left _ ha')
      refine ⟨k, hk, hgk, ?_, ?_⟩
      · intro e he hid hint
        rw [← List.append_assoc, List.mem_append] at he
        rcases he with he | he
        · exact hup e he hid hint
        · rw [List.mem_singleton] at he
          subst he
          exact absurd (hevid.symm.trans hid).symm hane
      · obtain ⟨e, hlast', hloc⟩ := hlast
        refine ⟨e, ?_, hloc⟩
        show (devEvents _ (dayCh ++ (st.changes ++ [_]))).getLast? = some e
        rw [← List.append_assoc, devEvents_append, devEvents_single_ne _ _
          (fun hc => hane (hevid.symm.trans hc).symm), List.append_nil]
        exact hlast'
    · intro r hr
      rw [List.mem_append] at hr
      rcases hr with hr | hr
      · obtain ⟨tr, htr, hub⟩ := inv.removed_ub r hr
        have hrne : r.device_id ≠ (st.devices.getD j defaultDevice).device_id :=
          hid_fresh r (List.mem_append_right _ hr)
        refine ⟨tr, htr, ?_⟩
        intro e he hid hint
        rw [← List.append_assoc, List.mem_append] at he
        rcases he with he | he
        · exact hub e he hid hint
        · rw [List.mem_singleton] at he
          subst he
          exact absurd (hevid.symm.trans hid).symm hrne
      · rw [List.mem_singleton] at hr
        subst hr
        refine ⟨st.times.getD j 0, rfl, ?_⟩
        intro e he hid hint
        rw [← List.append_assoc, List.mem_append] at he
        rcases he with he | he
        · exact hupJ e he hid hint
        · rw [List.mem_singleton] at he
          subst he
          rw [hevtime]
    · intro e he
      rw [List.mem_append] at he
      rcases he with he | he
      · exact inv.hourly e he
      · rw [List.mem_singleton] at he
        subst he
        refine ⟨isInterior_lowbattery .., ?_⟩
        rw [hevid]
        exact List.mem_map_of_mem _ (getD_mem _ _ _ hjlt)
  -- Outcome 2: trip
  · have hpickid : evId (status_change_event c (st.devices.getD j defaultDevice)
        "reserved" "user_pick_up" t (st.locations.getD j defaultFeature))
        = (st.devices.getD j defaultDevice).device_id := rfl
    have hdropid : evId (status_change_event c d'
        "available" "user_drop_off" (t + dur) endLoc)
        = (st.devices.getD j defaultDevice).device_id := hid'
    have hpicktime : (status_change_event c (st.devices.getD j defaultDevice)
        "reserved" "user_pick_up" t (st.locations.getD j defaultFeature)).event_time
        = t := rfl
    have hdroptime : (status_change_event c d'
        "available" "user_drop_off" (t + dur) endLoc).event_time = t + dur := rfl
    have hmapid : (st.devices.set j d').map Device.device_id
        = st.devices.map Device.device_id := by
      rw [List.map_set, hid',
        show (st.devices.getD j defaultDevice).device_id
          = (st.devices.map Device.device_id).getD j defaultDevice.device_id from
          (getD_map_of_lt Device.device_id st.devices j defaultDevice _ hjlt).symm,
        set_getD_self]
    subst heq
    refine { len_t := ?_, len_l := ?_, ndev := ?_, bound := ?_,
             isnd := (List.nodup_cons.1 inv.isnd).2,
             perm := ?_, sorted := ?_, chain := ?_, pristine := ?_,
             tracked := ?_, removed_ub := ?_, hourly := ?_, trips_attrib := ?_ }
    · show (st.times.set j (t + dur)).length = (st.devices.set j d').length
      simp [inv.len_t]
    · show (st.locations.set j endLoc).length = (st.devices.set j d').length
      simp [inv.len_l]
    · show ((st.devices.set j d').map Device.device_id).Nodup
      rw [hmapid]
      exact inv.ndev
    · intro j' hj'
      show j' < (st.devices.set j d').length
      rw [List.length_set]
      exact inv.bound j' (histail j' hj')
    · show (((st.active ++ [d']) ++ st.removed).map Device.device_id
          ++ is.map (fun j' => ((st.devices.set j d').getD j' defaultDevice).device_id)).Perm
          ((st.devices.set j d').map Device.device_id)
      rw [hmapid]
      have hmapis : is.map (fun j' => ((st.devices.set j d').getD j' defaultDevice).device_id)
          = is.map (fun j' => (st.devices.getD j' defaultDevice).device_id) := by
        apply List.map_congr_left
        intro x hx
        have hxj : x ≠ j := fun hc =>
          (List.nodup_cons.1 inv.isnd).1 (hc ▸ hx)
        rw [getD_set_ne _ _ _ _ _ hxj]
      rw [hmapis]
      exact List.Perm.trans
        (perm_active_gain st.active st.removed is
          (fun j' => (st.devices.getD j' defaultDevice).device_id) d' j hid') inv.perm
    · intro i
      show timesSorted (interiorEvents i (dayCh ++ (st.changes ++ [_, _])))
      rw [← List.append_assoc, interiorEvents_append]
      by_cases hii : (st.devices.getD j defaultDevice).device_id = i
      · rw [interiorEvents_pair_eq i _ _ (hpickid.trans hii) (hdropid.trans hii)
          (isInterior_pickup ..) (isInterior_dropoff ..)]
        refine List.pairwise_append.2 ⟨inv.sorted i, ?_, ?_⟩
        · refine List.pairwise_cons.2 ⟨?_, List.pairwise_singleton _ _⟩
          intro b hb
          rw [List.mem_singleton] at hb
          subst hb
          rw [hpicktime, hdroptime]
          linarith
        · intro a ha b hb
          obtain ⟨hmem, hid, hint⟩ := interiorEvents_sub i _ a ha
          have hat : a.event_time ≤ st.times.getD j 0 :=
            hupJ a hmem (by rw [hid, hii]) hint
          rw [List.mem_cons, List.mem_singleton] at hb
          rcases hb with hb | hb <;> subst hb
          · rw [hpicktime]; linarith
          · rw [hdroptime]; linarith
      · rw [interiorEvents_pair_ne i _ _ (fun hc => hii (hpickid.symm.trans hc))
          (fun hc => hii (hdropid.symm.trans hc)), List.append_nil]
        exact inv.sorted i
    · intro i
      show locChain (devEvents i (dayCh ++ (st.changes ++ [_, _])))
      rw [← List.append_assoc, devEvents_append]
      by_cases hii : (st.devices.getD j defaultDevice).device_id = i
      · rw [devEvents_pair_eq i _ _ (hpickid.trans hii) (hdropid.trans hii)]
        rw [locChain, List.chain'_append]
        refine ⟨inv.chain i, ?_, ?_⟩
        · exact List.chain'_cons.2 ⟨Or.inl rfl, List.chain'_singleton _⟩
        · intro x hx y hy
          rw [List.head?_cons, Option.mem_some_iff] at hy
          subst hy
          obtain ⟨e, hlast, hloc⟩ := hlastJ
          rw [← hii] at hx
          rw [hlast, Option.mem_some_iff] at hx
          subst hx
          right; right
          show (st.locations.getD j defaultFeature).point = _
          rw [hloc]
      · rw [devEvents_pair_ne i _ _ (fun hc => hii (hpickid.symm.trans hc))
          (fun hc => hii (hdropid.symm.trans hc)), List.append_nil]
        exact inv.chain i
    · intro j' hj'
      have hxj : j' ≠ j := fun hc => (List.nodup_cons.1 inv.isnd).1 (hc ▸ hj')
      have hdev' : (st.devices.set j d').getD j' defaultDevice
          = st.devices.getD j' defaultDevice := getD_set_ne _ _ _ _ _ hxj
      obtain ⟨hup, hlast⟩ := inv.pristine j' (histail j' hj')
      have hne : (st.devices.getD j' defaultDevice).device_id
          ≠ (st.devices.getD j defaultDevice).device_id := hIsNe j' hj'
      rw [hdev']
      constructor
      · intro e he hid hint
        rw [← List.append_assoc, List.mem_append] at he
        rcases he with he | he
        · rw [show (st.times.set j (t + dur)).getD j' 0 = st.times.getD j' 0 from
            getD_set_ne _ _ _ _ _ hxj]
          exact hup e he hid hint
        · rw [List.mem_cons, List.mem_singleton] at he
          rcases he with he | he <;> subst he
          · exact absurd (hpickid.symm.trans hid).symm hne
          · exact absurd (hdropid.symm.trans hid).symm hne
      · obtain ⟨e, hlast', hloc⟩ := hlast
        refine ⟨e, ?_, ?_⟩
        · show (devEvents _ (dayCh ++ (st.changes ++ [_, _]))).getLast? = some e
          rw [← List.append_assoc, devEvents_append,
            devEvents_pair_ne _ _ _ (fun hc => hne (hpickid.symm.trans hc).symm)
              (fun hc => hne (hdropid.symm.trans hc).symm), List.append_nil]
          exact hlast'
        · rw [show (st.locations.set j endLoc).getD j' defaultFeature
            = st.locations.getD j' defaultFeature from getD_set_ne _ _ _ _ _ hxj]
          exact hloc
    · intro a ha
      rw [List.mem_append] at ha
      rcases ha with ha | ha
      · obtain ⟨k, hk, hgk, hup, hlast⟩ := inv.tracked a ha
        have hane : a.device_id ≠ (st.devices.getD j defaultDevice).device_id :=
          hid_fresh a (List.mem_append_left _ ha)
        have hkj : k ≠ j := fun hc => hane (by rw [← hgk, hc])
        refine ⟨k, ?_, ?_, ?_, ?_⟩
        · show k < (st.devices.set j d').length
          rw [List.length_set]; exact hk
        · rw [getD_set_ne _ _ _ _ _ hkj]; exact hgk
        · intro e he hid hint
          rw [← List.append_assoc, List.mem_append] at he
          rcases he with he | he
          · rw [show (st.times.set j (t + dur)).getD k 0 = st.times.getD k 0 from
              getD_set_ne _ _ _ _ _ hkj]
            exact hup e he hid hint
          · rw [List.mem_cons, List.mem_singleton] at he
            rcases he with he | he <;> subst he
            · exact absurd (hpickid.symm.trans hid).symm hane
            · exact absurd (hdropid.symm.trans hid).symm hane
        · obtain ⟨e, hlast', hloc⟩ := hlast
          refine ⟨e, ?_, ?_⟩
          · show (devEvents _ (dayCh ++ (st.changes ++ [_, _]))).getLast? = some e
            rw [← List.append_assoc, devEvents_append,
              devEvents_pair_ne _ _ _ (fun hc => hane (hpickid.symm.trans hc).symm)
                (fun hc => hane (hdropid.symm.trans hc).symm), List.append_nil]
            exact hlast'
          · rw [show (st.locations.set j endLoc).getD k defaultFeature
              = st.locations.getD k defaultFeature from getD_set_ne _ _ _ _ _ hkj]
            exact hloc
      · rw [List.mem_singleton] at ha
        subst ha
        refine ⟨j, ?_, ?_, ?_, ?_⟩
        · show j < (st.devices.set j a).length
          rw [List.length_set]; exact hjlt
        · show (st.devices.set j a).getD j defaultDevice = a
          simp [List.getD, List.getElem?_set_self,
            show j < (st.devices).length from hjlt]
        · intro e he hid hint
          rw [show (st.times.set j (t + dur)).getD j 0 = t + dur by
            simp [List.getD, List.getElem?_set_self,
              show j < st.times.length from inv.len_t ▸ hjlt]]
          rw [← List.append_assoc, List.mem_append] at he
          rcases he with he | he
          · have h1 := hupJ e he (by rw [hid, hid']) hint
            have h2 : st.times.getD j 0 ≤ t + dur := by linarith
            linarith
          · rw [List.mem_cons, List.mem_singleton] at he
            rcases he with he | he <;> subst he
            · rw [hpicktime]; linarith
            · rw [hdroptime]
        · refine ⟨status_change_event c a "available" "user_drop_off" (t + dur) endLoc,
            ?_, ?_⟩
          · show (devEvents _ (dayCh ++ (st.changes ++ [_, _]))).getLast? = some _
            rw [← List.append_assoc, devEvents_append,
              devEvents_pair_eq a.device_id
                (status_change_event c (st.devices.getD j defaultDevice)
                  "reserved" "user_pick_up" t (st.locations.getD j defaultFeature))
                (status_change_event c a "available" "user_drop_off" (t + dur) endLoc)
                (hpickid.trans hid'.symm) rfl]
            rw [List.getLast?_append_of_ne_nil _ (by simp)]
            rfl
          · rw [show (st.locations.set j endLoc).getD j defaultFeature = endLoc by
              simp [List.getD, List.getElem?_set_self,
                show j < st.locations.length from inv.len_l ▸ hjlt]]
            rfl
    · intro r hr
      obtain ⟨tr, htr, hub⟩ := inv.removed_ub r hr
      have hrne : r.device_id ≠ (st.devices.getD j defaultDevice).device_id :=
        hid_fresh r (List.mem_append_right _ hr)
      refine ⟨tr, htr, ?_⟩
      intro e he hid hint
      rw [← List.append_assoc, List.mem_append] at he
      rcases he with he | he
      · exact hub e he hid hint
      · rw [List.mem_cons, List.mem_singleton] at he
        rcases he with he | he <;> subst he
        · exact absurd (hpickid.symm.trans hid).symm hrne
        · exact absurd (hdropid.symm.trans hid).symm hrne
    · intro e he
      rw [List.mem_append] at he
      rcases he with he | he
      · obtain ⟨h1, h2⟩ := inv.hourly e he
        refine ⟨h1, ?_⟩
        rw [hmapid]
        exact h2
      · rw [List.mem_cons, List.mem_singleton] at he
        rcases he with he | he <;> subst he
        · refine ⟨isInterior_pickup .., ?_⟩
          rw [hmapid, hpickid]
          exact List.mem_map_of_mem _ (getD_mem _ _ _ hjlt)
        · refine ⟨isInterior_dropoff .., ?_⟩
          rw [hmapid, hdropid]
          exact List.mem_map_of_mem _ (getD_mem _ _ _ hjlt)
    · intro tr htr
      rw [List.mem_append] at htr
      rcases htr with htr | htr
      · rw [hmapid]
        exact inv.trips_attrib tr htr
      · rw [List.mem_singleton] at htr
        subst htr
        rw [hmapid, htripid]
        exact List.mem_map_of_mem _ (getD_mem _ _ _ hjlt)
  -- Outcome 3: idle
  · have hmapid : (st.devices.set j d').map Device.device_id
        = st.devices.map Device.device_id := by
      rw [List.map_set, hid',
        show (st.devices.getD j defaultDevice).device_id
          = (st.devices.map Device.device_id).getD j defaultDevice.device_id from
          (getD_map_of_lt Device.device_id st.devices j defaultDevice _ hjlt).symm,
        set_getD_self]
    subst heq
    refine { len_t := ?_, len_l := ?_, ndev := ?_, bound := ?_,
             isnd := (List.nodup_cons.1 inv.isnd).2,
             perm := ?_, sorted := inv.sorted, chain := inv.chain, pristine := ?_,
             tracked := ?_, removed_ub := inv.removed_ub, hourly := ?_,
             trips_attrib := ?_ }
    · show st.times.length = (st.devices.set j d').length
      simp [inv.len_t]
    · show st.locations.length = (st.devices.set j d').length
      simp [inv.len_l]
    · show ((st.devices.set j d').map Device.device_id).Nodup
      rw [hmapid]
      exact inv.ndev
    · intro j' hj'
      show j' < (st.devices.set j d').length
      rw [List.length_set]
      exact inv.bound j' (histail j' hj')
    · show (((st.active ++ [d']) ++ st.removed).map Device.device_id
          ++ is.map (fun j' => ((st.devices.set j d').getD j' defaultDevice).device_id)).Perm
          ((st.devices.set j d').map Device.device_id)
      rw [hmapid]
      have hmapis : is.map (fun j' => ((st.devices.set j d').getD j' defaultDevice).device_id)
          = is.map (fun j' => (st.devices.getD j' defaultDevice).device_id) := by
        apply List.map_congr_left
        intro x hx
        have hxj : x ≠ j := fun hc =>
          (List.nodup_cons.1 inv.isnd).1 (hc ▸ hx)
        rw [getD_set_ne _ _ _ _ _ hxj]
      rw [hmapis]
      exact List.Perm.trans
        (perm_active_gain st.active st.removed is
          (fun j' => (st.devices.getD j' defaultDevice).device_id) d' j hid') inv.perm
    · intro j' hj'
      have hxj : j' ≠ j := fun hc => (List.nodup_cons.1 inv.isnd).1 (hc ▸ hj')
      have hdev' : (st.devices.set j d').getD j' defaultDevice
          = st.devices.getD j' defaultDevice := getD_set_ne _ _ _ _ _ hxj
      rw [hdev']
      exact inv.pristine j' (histail j' hj')
    · intro a ha
      rw [List.mem_append] at ha
      rcases ha with ha | ha
      · obtain ⟨k, hk, hgk, hup, hlast⟩ := inv.tracked a ha
        have hane : a.device_id ≠ (st.devices.getD j defaultDevice).device_id :=
          hid_fresh a (List.mem_append_left _ ha)
        have hkj : k ≠ j := fun hc => hane (by rw [← hgk, hc])
        refine ⟨k, ?_, ?_, hup, hlast⟩
        · show k < (st.devices.set j d').length
          rw [List.length_set]; exact hk
        · rw [getD_set_ne _ _ _ _ _ hkj]; exact hgk
      · rw [List.mem_singleton] at ha
        subst ha
        refine ⟨j, ?_, ?_, ?_, ?_⟩
        · show j < (st.devices.set j a).length
          rw [List.length_set]; exact hjlt
        · simp [List.getD, List.getElem?_set_self,
            show j < (st.devices).length from hjlt]
        · intro e he hid hint
          exact hupJ e he (by rw [hid, hid']) hint
        · obtain ⟨e, hlast', hloc⟩ := hlastJ
          refine ⟨e, ?_, hloc⟩
          rw [show a.device_id = (st.devices.getD j defaultDevice).device_id from hid']
          exact hlast'
    · intro e he
      obtain ⟨h1, h2⟩ := inv.hourly e he
      refine ⟨h1, ?_⟩
      rw [hmapid]
      exact h2
    · intro tr htr
      rw [hmapid]
      exact inv.trips_attrib tr htr

theorem go_HourInv {c : Ctx} {g : Oracle} {dayCh : List Event} :
    ∀ {is : List ℕ} {st st' : HourState},
    HourInv dayCh is st → service_hour_go c g is st = Except.ok st' →
    HourInv dayCh [] st' := by
  intro is
  induction is with
  | nil =>
    intro st st' inv h
    rw [service_hour_go] at h
    simp only [Except.ok.injEq] at h
    subst h
    exact inv
  | cons j js ih =>
    intro st st' inv h
    rw [service_hour_go] at h
    cases hs : service_hour_step c g st j with
    | error e =>
      rw [hs, err_bind] at h
      exact absurd h (by simp)
    | ok st1 =>
      rw [hs, ok_bind] at h
      exact ih (step_preserves_HourInv inv hs) h

theorem step_devids {c : Ctx} {g : Oracle} {st st2 : HourState} {idx : ℕ}
    (h : service_hour_step c g st idx = Except.ok st2) :
    st2.devices.map Device.device_id = st.devices.map Device.device_id := by
  obtain ⟨hlen, _, _, _, hids, _, _⟩ := step_effect h
  apply List.ext_getElem (by simpa using hlen)
  intro i h1 h2
  have hthis := hids i
  rw [getD_eq_get _ _ _ (by simpa using h1), getD_eq_get _ _ _ (by simpa using h2)] at hthis
  simpa [List.get_eq_getElem] using hthis

theorem go_devids {c : Ctx} {g : Oracle} :
    ∀ {is : List ℕ} {st st' : HourState},
    service_hour_go c g is st = Except.ok st' →
    st'.devices.map Device.device_id = st.devices.map Device.device_id := by
  intro is
  induction is with
  | nil =>
    intro st st' h
    rw [service_hour_go] at h
    simp only [Except.ok.injEq] at h
    subst h
    rfl
  | cons j js ih =>
    intro st st' h
    rw [service_hour_go] at h
    cases hs : service_hour_step c g st j with
    | error e =>
      rw [hs, err_bind] at h
      exact absurd h (by simp)
    | ok st1 =>
      rw [hs, ok_bind] at h
      exact (ih h).trans (step_devids hs)

theorem service_hour_summary {c : Ctx} {g : Oracle} {devices : List Device}
    {times : List ℚ} {locations : List Feature} {ia : ℚ} {n : ℕ} {out : HourOut}
    {dayCh : List Event}
    (hok : service_hour c g devices times locations ia n = Except.ok out)
    (inv0 : HourInv dayCh (List.range devices.length)
      { active := [], removed := [], changes := [], trips := [],
        devices := devices, times := times, locations := locations, n := n }) :
    out.times.length = out.active.length ∧
    out.locations.length = out.active.length ∧
    ((out.active ++ out.removed).map Device.device_id).Perm
      (devices.map Device.device_id) ∧
    (∀ i, timesSorted (interiorEvents i (dayCh ++ out.changes))) ∧
    (∀ i, locChain (devEvents i (dayCh ++ out.changes))) ∧
    (∀ k, k < out.active.length →
      (∀ e ∈ dayCh ++ out.changes,
        evId e = (out.active.getD k defaultDevice).device_id → isInterior e = true →
        e.event_time ≤ out.times.getD k 0) ∧
      (∃ e, (devEvents (out.active.getD k defaultDevice).device_id
          (dayCh ++ out.changes)).getLast? = some e ∧
        e.event_location = out.locations.getD k defaultFeature)) ∧
    (∀ r ∈ out.removed, ∃ tr, r.event_time = some tr ∧
      ∀ e ∈ dayCh ++ out.changes, evId e = r.device_id → isInterior e = true →
        e.event_time ≤ tr) ∧
    (∀ e ∈ out.changes, isInterior e = true ∧
      evId e ∈ devices.map Device.device_id) ∧
    (∀ tr ∈ out.trips, tr.device.device_id ∈ devices.map Device.device_id) := by
  unfold service_hour at hok
  cases hgo : service_hour_go c g (List.range devices.length)
      { active := [], removed := [], changes := [], trips := [],
        devices := devices, times := times, locations := locations, n := n } with
  | error e =>
    rw [hgo, err_bind] at hok
    exact absurd hok (by simp)
  | ok stF =>
    rw [hgo, ok_bind] at hok
    simp only [Except.ok.injEq] at hok
    subst hok
    have invF := go_HourInv inv0 hgo
    have hdev : stF.devices.map Device.device_id = devices.map Device.device_id :=
      go_devids hgo
    refine ⟨by simp, by simp, ?_, ?_, ?_, ?_, ?_, ?_, ?_⟩
    · have hp := invF.perm
      simp only [List.map_nil, List.append_nil] at hp
      exact hp.trans (List.Perm.of_eq hdev)
    · exact invF.sorted
    · exact invF.chain
    · intro k hk
      have hk' : k < stF.active.length := by simpa using hk
      have hmem : stF.active.getD k defaultDevice ∈ stF.active :=
        getD_mem _ _ _ hk'
      obtain ⟨k2, hk2, hgk2, hup, hlast⟩ := invF.tracked _ hmem
      have hidx : stF.devices.indexOf (stF.active.getD k defaultDevice) = k2 := by
        rw [← hgk2]
        exact nodup_ids_indexOf_getD _ _ invF.ndev hk2
      constructor
      · intro e he hid hint
        show e.event_time ≤
          (stF.active.map (fun a => stF.times.getD (stF.devices.indexOf a) 0)).getD k 0
        rw [getD_map_of_lt _ _ _ defaultDevice _ hk', hidx]
        exact hup e he hid hint
      · obtain ⟨e, hlast', hloc⟩ := hlast
        refine ⟨e, hlast', ?_⟩
        show e.event_location =
          (stF.active.map (fun a =>
            stF.locations.getD (stF.devices.indexOf a) defaultFeature)).getD k defaultFeature
        rw [getD_map_of_lt _ _ _ defaultDevice _ hk', hidx]
        exact hloc
    · exact invF.removed_ub
    · intro e he
      obtain ⟨h1, h2⟩ := invF.hourly e he
      exact ⟨h1, hdev ▸ h2⟩
    · intro tr htr
      have := invF.trips_attrib tr htr
      exact hdev ▸ this

theorem mem_getD_of_mem {α : Type} {l : List α} {x : α} (d : α) (h : x ∈ l) :
    ∃ k, k < l.length ∧ l.getD k d = x := by
  obtain ⟨k, hk, hx⟩ := List.mem_iff_getElem.1 h
  exact ⟨k, hk, by rw [getD_eq_get _ _ _ hk]; simpa [List.get_eq_getElem] using hx⟩

theorem sampleGo_perm (g : Oracle) :
    ∀ (k : ℕ) (n : ℕ) (pop : List Device), k ≤ pop.length →
    ((sampleGo g n pop k).1 ++ (sampleGo g n pop k).2.1).Perm pop := by
  intro k
  induction k with
  | zero =>
    intro n pop h
    rw [sampleGo]
    simp
  | succ k ih =>
    intro n pop h
    match pop with
    | [] => simp at h
    | p0 :: rest =>
      rw [sampleGo]
      simp only
      have hlen : 0 < (p0 :: rest).length := by simp
      have hi : g.ri n % (p0 :: rest).length < (p0 :: rest).length :=
        Nat.mod_lt _ hlen
      have herase := List.length_eraseIdx_add_one hi
      have hk' : k ≤ ((p0 :: rest).eraseIdx (g.ri n % (p0 :: rest).length)).length := by
        omega
      have hih := ih (n + 1) ((p0 :: rest).eraseIdx (g.ri n % (p0 :: rest).length)) hk'
      refine List.Perm.trans ?_ (cons_eraseIdx_perm (p0 :: rest)
        (g.ri n % (p0 :: rest).length) p0 hi)
      rw [List.cons_append]
      exact hih.cons _

theorem sample_ok_perm {g : Oracle} {n : ℕ} {pop : List Device} {k : ℤ}
    {sel rest : List Device} {n' : ℕ}
    (h : sample g n pop k = Except.ok (sel, rest, n')) :
    (sel ++ rest).Perm pop := by
  unfold sample at h
  by_cases hk : 0 ≤ k ∧ k ≤ (pop.length : ℤ)
  · rw [if_pos hk] at h
    have heq : sampleGo g n pop k.toNat = (sel, rest, n') := Except.ok.inj h
    have hkn : k.toNat ≤ pop.length := by omega
    have hp := sampleGo_perm g k.toNat n pop hkn
    rw [heq] at hp
    simpa using hp
  · rw [if_neg hk] at h
    exact absurd h (by simp)

theorem recharge_id (d : Device) : (recharge_battery d).device_id = d.device_id := rfl

theorem devices_recharged_go_spec (c : Ctx) (g : Oracle) (L : List ℚ) :
    ∀ (todo upd : List Device) (n : ℕ),
    ((upd ++ todo).map Device.device_id).Nodup →
    (devices_recharged_go c g (TimesArg.list L) none upd todo n).2.1
      = todo.map recharge_battery ∧
    (devices_recharged_go c g (TimesArg.list L) none upd todo n).1.length
      = todo.length ∧
    ∀ k, k < todo.length → ∃ p,
      (devices_recharged_go c g (TimesArg.list L) none upd todo n).1.getD k defaultEvent
        = status_change_event c (recharge_battery (todo.getD k defaultDevice))
            "available" "maintenance_drop_off" (L.getD (upd.length + k) 0)
            { point := p, timestamp := L.getD (upd.length + k) 0 } := by
  intro todo
  induction todo with
  | nil =>
    intro upd n hnd
    rw [devices_recharged_go]
    exact ⟨rfl, rfl, fun k hk => absurd hk (by simp)⟩
  | cons d todo ih =>
    intro upd n hnd
    have hnotin : d ∉ upd := by
      intro hc
      rw [List.map_append, List.nodup_append] at hnd
      exact hnd.2.2 (List.mem_map_of_mem _ hc)
        (List.mem_map_of_mem _ (List.mem_cons_self _ _))
    have hidx : (upd ++ d :: todo).indexOf d = upd.length :=
      indexOf_append_cons upd todo d hnotin
    have hnd' : ((upd ++ [recharge_battery d] ++ todo).map Device.device_id).Nodup := by
      have heq : (upd ++ [recharge_battery d] ++ todo).map Device.device_id
          = (upd ++ d :: todo).map Device.device_id := by
        simp [List.map_append, recharge_id]
      rw [heq]
      exact hnd
    obtain ⟨ih1, ih2, ih3⟩ := ih (upd ++ [recharge_battery d]) (n + 1) hnd'
    have hstep : devices_recharged_go c g (TimesArg.list L) none upd (d :: todo) n
        = ((status_change_event c (recharge_battery d) "available"
              "maintenance_drop_off" (L.getD upd.length 0)
              { point := g.pt n, timestamp := L.getD upd.length 0 })
            :: (devices_recharged_go c g (TimesArg.list L) none
                  (upd ++ [recharge_battery d]) todo (n + 1)).1,
           recharge_battery d
            :: (devices_recharged_go c g (TimesArg.list L) none
                  (upd ++ [recharge_battery d]) todo (n + 1)).2.1,
           (devices_recharged_go c g (TimesArg.list L) none
                  (upd ++ [recharge_battery d]) todo (n + 1)).2.2) := by
      rw [devices_recharged_go]
      simp only [hidx, device_recharged]
    refine ⟨?_, ?_, ?_⟩
    · rw [hstep]
      simp only [List.map_cons]
      rw [ih1]
    · rw [hstep]
      simp only [List.length_cons]
      rw [ih2]
    · intro k hk
      cases k with
      | zero =>
        refine ⟨g.pt n, ?_⟩
        rw [hstep]
        simp
      | succ k =>
        have hk' : k < todo.length := by simpa using hk
        obtain ⟨p, hp⟩ := ih3 k hk'
        refine ⟨p, ?_⟩
        rw [hstep]
        simp only [List.getD_cons_succ]
        rw [hp]
        have harith : (upd ++ [recharge_battery d]).length + k = upd.length + (k + 1) := by
          simp
          omega
        rw [harith]

theorem isInterior_service_start (c : Ctx) (d : Device) (t : ℚ) (loc : Feature) :
    isInterior (status_change_event c d "available" "service_start" t loc)
      = false := rfl

theorem isInterior_service_end (c : Ctx) (d : Device) (t : ℚ) (loc : Feature) :
    isInterior (status_change_event c d "removed" "service_end" t loc)
      = false := rfl

theorem evId_sce (c : Ctx) (d : Device) (et r : String) (t : ℚ) (loc : Feature) :
    evId (status_change_event c d et r t loc) = d.device_id := rfl

/-- In an event list with pairwise-distinct device ids, any filter implying
a fixed id keeps at most one event. -/
theorem filter_evId_le_one {E : List Event} (h : (E.map evId).Nodup) (i : ℕ)
    (p : Event → Bool) (hp : ∀ e, p e = true → evId e = i) :
    (E.filter p).length ≤ 1 := by
  induction E with
  | nil => simp
  | cons e E ih =>
    simp only [List.map_cons, List.nodup_cons] at h
    by_cases hpe : p e = true
    · rw [List.filter_cons_of_pos hpe]
      have hnil : E.filter p = [] := by
        rw [List.filter_eq_nil_iff]
        intro e' he' hc
        have heq : evId e = evId e' := (hp e hpe).trans (hp e' hc).symm
        exact h.1 (by rw [heq]; exact List.mem_map_of_mem _ he')
      rw [hnil]
      simp
    · rw [List.filter_cons_of_neg (by simpa using hpe)]
      exact ih h.2

theorem filter_evId_single {E : List Event} (h : (E.map evId).Nodup) (i : ℕ)
    (p : Event → Bool) (hp : ∀ e, p e = true → evId e = i) {e : Event}
    (he : e ∈ E) (hpe : p e = true) :
    E.filter p = [e] := by
  have hmem : e ∈ E.filter p := List.mem_filter.2 ⟨he, hpe⟩
  have hle := filter_evId_le_one h i p hp
  have hlen : (E.filter p).length = 1 := by
    have : 0 < (E.filter p).length := List.length_pos.2 (by
      intro hnil
      rw [hnil] at hmem
      simp at hmem)
    omega
  obtain ⟨x, hx⟩ := List.length_eq_one.1 hlen
  rw [hx] at hmem ⊢
  simp at hmem
  rw [hmem]

theorem timesSorted_append_le_one {A B : List Event} (hA : timesSorted A)
    (hB : B.length ≤ 1)
    (hcross : ∀ a ∈ A, ∀ b ∈ B, a.event_time ≤ b.event_time) :
    timesSorted (A ++ B) := by
  unfold timesSorted at *
  rw [List.pairwise_append]
  refine ⟨hA, ?_, hcross⟩
  cases B with
  | nil => simp
  | cons b B2 =>
    cases B2 with
    | nil => simp
    | cons b2 B3 =>
      simp only [List.length_cons] at hB
      omega

theorem contOk_maintenance (a : Event) {b : Event}
    (hb : b.event_type_reason = "maintenance_drop_off") : contOk a b :=
  Or.inr (Or.inl hb)

theorem locChain_append_le_one {A B : List Event} (hA : locChain A)
    (hB : B.length ≤ 1)
    (hm : ∀ b ∈ B, b.event_type_reason = "maintenance_drop_off") :
    locChain (A ++ B) := by
  cases B with
  | nil => simpa using hA
  | cons b B2 =>
    cases B2 with
    | cons b2 B3 =>
      simp only [List.length_cons] at hB
      omega
    | nil =>
      unfold locChain at *
      refine List.Chain'.append hA (by simp) ?_
      intro x _ y hy
      simp only [List.head?_cons, Option.mem_def, Option.some.injEq] at hy
      subst hy
      exact contOk_maintenance x (hm b (by simp))

theorem map_evId_of_spec {E : List Event} {D : List Device}
    (hlen : E.length = D.length)
    (hid : ∀ k, k < D.length → evId (E.getD k defaultEvent)
        = (D.getD k defaultDevice).device_id) :
    E.map evId = D.map Device.device_id := by
  apply List.ext_getElem (by simpa using hlen)
  intro k h1 h2
  simp only [List.getElem_map]
  have hk : k < D.length := by simpa using h2
  have hE : k < E.length := by omega
  have := hid k hk
  rw [getD_eq_get _ _ _ hE, getD_eq_get _ _ _ hk] at this
  simpa [List.get_eq_getElem] using this

theorem start_service_step (c : Ctx) (g : Oracle) (start_time : ℚ)
    (d : Device) (ds : List Device) (n : ℕ) {t : ℚ} {n1 : ℕ}
    (hrdf : random_date_from g n start_time (some (-7200)) none = (t, n1)) :
    start_service c g start_time (d :: ds) n
      = (status_change_event c d "available" "service_start" t
            { point := g.pt n1, timestamp := t }
          :: (start_service c g start_time ds (n1 + 1)).1,
         (if has_battery d then recharge_battery d else d)
          :: (start_service c g start_time ds (n1 + 1)).2.1,
         (start_service c g start_time ds (n1 + 1)).2.2) := by
  rw [start_service, hrdf]

theorem start_service_spec (c : Ctx) (g : Oracle) (start_time : ℚ) :
    ∀ (ds : List Device) (n : ℕ),
    (start_service c g start_time ds n).2.1
      = ds.map (fun d => if has_battery d then recharge_battery d else d) ∧
    (start_service c g start_time ds n).1.length = ds.length ∧
    ∀ k, k < ds.length → ∃ t p,
      (start_service c g start_time ds n).1.getD k defaultEvent
        = status_change_event c (ds.getD k defaultDevice) "available"
            "service_start" t { point := p, timestamp := t } := by
  intro ds
  induction ds with
  | nil =>
    intro n
    rw [start_service]
    exact ⟨rfl, rfl, fun k hk => absurd hk (by simp)⟩
  | cons d ds ih =>
    intro n
    cases hrdf : random_date_from g n start_time (some (-7200)) none with
    | mk t n1 =>
      obtain ⟨ih1, ih2, ih3⟩ := ih (n1 + 1)
      rw [start_service_step c g start_time d ds n hrdf]
      refine ⟨by simp only [List.map_cons, ih1], by simp only [List.length_cons, ih2], ?_⟩
      intro k hk
      cases k with
      | zero => exact ⟨t, g.pt n1, by simp⟩
      | succ k =>
        have hk' : k < ds.length := by simpa using hk
        obtain ⟨t', p, hp⟩ := ih3 k hk'
        exact ⟨t', p, by simpa using hp⟩

theorem start_service_ids (c : Ctx) (g : Oracle) (start_time : ℚ)
    (ds : List Device) (n : ℕ) :
    (start_service c g start_time ds n).2.1.map Device.device_id
      = ds.map Device.device_id := by
  rw [(start_service_spec c g start_time ds n).1, List.map_map]
  apply List.map_congr_left
  intro d _
  by_cases hb : has_battery d <;> simp [hb, recharge_id]

theorem end_service_step (c : Ctx) (g : Oracle) (end_time : ℚ)
    (all : List Device) (ls : List Feature) (d : Device) (ds : List Device)
    (n : ℕ) {t : ℚ} {n1 : ℕ}
    (hrdf : random_date_from g n end_time none (some 7200) = (t, n1)) :
    end_service_go c g end_time all (some ls) (d :: ds) n
      = (status_change_event c d "removed" "service_end" t
            { point := (ls.getD (all.indexOf d) defaultFeature).point,
              timestamp := t }
          :: (end_service_go c g end_time all (some ls) ds n1).1,
         (end_service_go c g end_time all (some ls) ds n1).2) := by
  rw [end_service_go, hrdf]

theorem end_service_go_spec (c : Ctx) (g : Oracle) (end_time : ℚ)
    (all : List Device) (ls : List Feature) :
    ∀ (ds : List Device) (n : ℕ),
    (end_service_go c g end_time all (some ls) ds n).1.length = ds.length ∧
    ∀ k, k < ds.length → ∃ t,
      (end_service_go c g end_time all (some ls) ds n).1.getD k defaultEvent
        = status_change_event c (ds.getD k defaultDevice) "removed"
            "service_end" t
            { point := (ls.getD (all.indexOf (ds.getD k defaultDevice))
                defaultFeature).point,
              timestamp := t } := by
  intro ds
  induction ds with
  | nil =>
    intro n
    rw [end_service_go]
    exact ⟨rfl, fun k hk => absurd hk (by simp)⟩
  | cons d ds ih =>
    intro n
    cases hrdf : random_date_from g n end_time none (some 7200) with
    | mk t n1 =>
      obtain ⟨ih1, ih2⟩ := ih n1
      rw [end_service_step c g end_time all ls d ds n hrdf]
      refine ⟨by simp only [List.length_cons, ih1], ?_⟩
      intro k hk
      cases k with
      | zero => exact ⟨t, by simp⟩
      | succ k =>
        have hk' : k < ds.length := by simpa using hk
        obtain ⟨t', hp⟩ := ih2 k hk'
        exact ⟨t', by simpa using hp⟩

theorem reason_sce (c : Ctx) (d : Device) (et r : String) (t : ℚ) (loc : Feature) :
    (status_change_event c d et r t loc).event_type_reason = r := rfl

theorem device_sce (c : Ctx) (d : Device) (et r : String) (t : ℚ) (loc : Feature) :
    (status_change_event c d et r t loc).device = d := rfl

theorem time_sce (c : Ctx) (d : Device) (et r : String) (t : ℚ) (loc : Feature) :
    (status_change_event c d et r t loc).event_time = t := rfl

theorem loc_sce (c : Ctx) (d : Device) (et r : String) (t : ℚ) (loc : Feature) :
    (status_change_event c d et r t loc).event_location = loc := rfl

theorem nodup_getD_inj {α : Type} {l : List α} (h : l.Nodup) {k1 k2 : ℕ} (d : α)
    (h1 : k1 < l.length) (h2 : k2 < l.length)
    (heq : l.getD k1 d = l.getD k2 d) : k1 = k2 := by
  rw [getD_eq_get _ _ _ h1, getD_eq_get _ _ _ h2] at heq
  have h3 := (List.Nodup.get_inj_iff h).1 heq
  simpa using congrArg Fin.val h3

theorem nodup_ids_getD_inj {l : List Device} (h : (l.map Device.device_id).Nodup)
    {k1 k2 : ℕ} (h1 : k1 < l.length) (h2 : k2 < l.length)
    (heq : (l.getD k1 defaultDevice).device_id = (l.getD k2 defaultDevice).device_id) :
    k1 = k2 := by
  apply nodup_getD_inj h (0 : ℕ) (by simpa using h1) (by simpa using h2)
  rw [getD_map_of_lt _ _ _ defaultDevice _ h1, getD_map_of_lt _ _ _ defaultDevice _ h2]
  exact heq

/-- The recharge block preserves the day invariant. -/
theorem recharge_step_DayInv {c : Ctx} {g : Oracle} {A0 : List ℕ}
    {changes0 : List Event} {st st' : DayState}
    (inv : DayInv A0 changes0 st)
    (h : recharge_step c g st = Except.ok st') :
    DayInv A0 changes0 st' := by
  unfold recharge_step at h
  cases hs : sample g (randintD g st.n 0 st.removed.length).2 st.removed
      (randintD g st.n 0 st.removed.length).1 with
  | error err =>
    simp only [hs, err_bind] at h
    exact absurd h (by simp)
  | ok res =>
  simp only [hs, ok_bind] at h
  set recharged := res.1 with hrech_def
  set rest := res.2.1 with hrest_def
  set n2 := res.2.2 with hn2_def
  have hs2 : sample g (randintD g st.n 0 st.removed.length).2 st.removed
      (randintD g st.n 0 st.removed.length).1 = Except.ok (recharged, rest, n2) := by
    rw [hs]
  -- id bookkeeping
  have hA0nd := inv.nodupA0
  have hARnd : ((st.active ++ st.removed).map Device.device_id).Nodup :=
    inv.perm.nodup_iff.mpr hA0nd
  rw [List.map_append, List.nodup_append] at hARnd
  obtain ⟨hAnd, hRnd, hdisjAR⟩ := hARnd
  have hsp : (recharged ++ rest).Perm st.removed := sample_ok_perm hs2
  have hspids : ((recharged ++ rest).map Device.device_id).Perm
      (st.removed.map Device.device_id) := hsp.map _
  have hrrnd : ((recharged ++ rest).map Device.device_id).Nodup :=
    hspids.nodup_iff.mpr hRnd
  rw [List.map_append, List.nodup_append] at hrrnd
  obtain ⟨hrechnd, hrestnd, hdisjrr⟩ := hrrnd
  have hrech_mem : ∀ kk, kk < recharged.length →
      recharged.getD kk defaultDevice ∈ st.removed := by
    intro kk hkk
    exact hsp.subset (List.mem_append_left _ (getD_mem _ _ _ hkk))
  by_cases hpos : recharged.length > 0
  · rw [if_pos hpos] at h
    set dr := devices_recharged c g recharged
      (TimesArg.list (recharged.map (fun r => r.event_time.getD 0))) none n2
      with hdr_def
    have hgo_eq : devices_recharged_go c g
        (TimesArg.list (recharged.map (fun r => r.event_time.getD 0))) none
        [] recharged n2 = dr := by
      rw [hdr_def]
      rfl
    have hspec := devices_recharged_go_spec c g
      (recharged.map (fun r => r.event_time.getD 0)) recharged [] n2
      (by simpa using hrechnd)
    rw [hgo_eq] at hspec
    obtain ⟨hrech2, hevlen, hevpos0⟩ := hspec
    simp only [List.length_nil, Nat.zero_add] at hevpos0
    have hfact : ∀ kk, kk < recharged.length → ∃ p, dr.1.getD kk defaultEvent
        = status_change_event c (recharge_battery (recharged.getD kk defaultDevice))
            "available" "maintenance_drop_off"
            ((recharged.getD kk defaultDevice).event_time.getD 0)
            { point := p,
              timestamp := (recharged.getD kk defaultDevice).event_time.getD 0 } := by
      intro kk hkk
      obtain ⟨p, hp⟩ := hevpos0 kk hkk
      have hm : (recharged.map (fun r => r.event_time.getD 0)).getD kk 0
          = (recharged.getD kk defaultDevice).event_time.getD 0 :=
        getD_map_of_lt _ _ _ defaultDevice _ hkk
      rw [hm] at hp
      exact ⟨p, hp⟩
    have hids_ev : dr.1.map evId = recharged.map Device.device_id := by
      apply map_evId_of_spec hevlen
      intro kk hkk
      obtain ⟨p, hp⟩ := hfact kk hkk
      rw [hp, evId_sce, recharge_id]
    have hevnd : (dr.1.map evId).Nodup := by
      rw [hids_ev]
      exact hrechnd
    have hrc_ids : dr.2.1.map Device.device_id = recharged.map Device.device_id := by
      rw [hrech2, List.map_map]
      exact List.map_congr_left (fun d _ => recharge_id d)
    have hrc_len : dr.2.1.length = recharged.length := by
      rw [hrech2]
      simp
    have hev_mem : ∀ e ∈ dr.1, ∃ kk, kk < recharged.length ∧
        dr.1.getD kk defaultEvent = e := by
      intro e he
      obtain ⟨kk, hkk, heq⟩ := mem_getD_of_mem defaultEvent he
      rw [hevlen] at hkk
      exact ⟨kk, hkk, heq⟩
    have hrest_filter : rest.filter (fun d => !(dr.2.1.contains d)) = rest := by
      rw [List.filter_eq_self]
      intro d hd
      have hnot : d ∉ dr.2.1 := by
        intro hc
        rw [hrech2] at hc
        obtain ⟨r0, hr0, hr0eq⟩ := List.mem_map.1 hc
        apply hdisjrr (a := r0.device_id)
        · exact List.mem_map_of_mem _ hr0
        · rw [← recharge_id r0, hr0eq]
          exact List.mem_map_of_mem _ hd
      simpa using hnot
    have hst' := Except.ok.inj h
    subst hst'
    rw [hrest_filter]
    refine ⟨?_, ?_, ?_, ?_, ?_, ?_, ?_, ?_, ?_, ?_, ?_⟩
    · show (st.times ++ dr.1.map (·.event_time)).length = (st.active ++ dr.2.1).length
      simp only [List.length_append, List.length_map, inv.len_t, hevlen, hrc_len]
    · show (st.locations ++ dr.1.map (·.event_location)).length
        = (st.active ++ dr.2.1).length
      simp only [List.length_append, List.length_map, inv.len_l, hevlen, hrc_len]
    · exact hA0nd
    · show (((st.active ++ dr.2.1) ++ rest).map Device.device_id).Perm A0
      have h1 : (((st.active ++ dr.2.1) ++ rest).map Device.device_id)
          = st.active.map Device.device_id
            ++ ((recharged ++ rest).map Device.device_id) := by
        rw [List.map_append, List.map_append, hrc_ids, List.map_append,
          List.append_assoc]
      rw [h1]
      refine List.Perm.trans ?_ inv.perm
      have h2 : ((st.active ++ st.removed).map Device.device_id)
          = st.active.map Device.device_id ++ st.removed.map Device.device_id :=
        List.map_append _ _ _
      rw [h2]
      exact List.Perm.append_left _ hspids
    · obtain ⟨delta, hδ, hδok⟩ := inv.init
      refine ⟨delta ++ dr.1, ?_, ?_⟩
      · show st.changes ++ dr.1 = changes0 ++ (delta ++ dr.1)
        rw [hδ, List.append_assoc]
      · intro e he
        rcases List.mem_append.1 he with h1 | h2
        · exact hδok e h1
        · obtain ⟨kk, hkk, heq⟩ := hev_mem e h2
          obtain ⟨p, hp⟩ := hfact kk hkk
          constructor
          · rw [← heq, hp]
            exact isInterior_maintenance _ _ _ _
          · have hid : evId e = (recharged.getD kk defaultDevice).device_id := by
              rw [← heq, hp, evId_sce, recharge_id]
            rw [hid]
            exact inv.perm.subset
              (List.mem_map_of_mem _ (List.mem_append_right _ (hrech_mem kk hkk)))
    · intro i
      show timesSorted (interiorEvents i (st.changes ++ dr.1))
      rw [interiorEvents_append]
      apply timesSorted_append_le_one (inv.sorted i)
      · exact filter_evId_le_one hevnd i _ (fun e hpe => by
          simp only [Bool.and_eq_true, beq_iff_eq] at hpe
          exact hpe.1)
      · intro a ha b hb
        obtain ⟨hbE, hbp⟩ := List.mem_filter.1 hb
        simp only [Bool.and_eq_true, beq_iff_eq] at hbp
        obtain ⟨kk, hkk, heq⟩ := hev_mem b hbE
        obtain ⟨p, hp⟩ := hfact kk hkk
        obtain ⟨tr, htr, hub⟩ := inv.removed_ub _ (hrech_mem kk hkk)
        have hbt : b.event_time = tr := by
          rw [← heq, hp, time_sce, htr]
          rfl
        have hbid : evId b = (recharged.getD kk defaultDevice).device_id := by
          rw [← heq, hp, evId_sce, recharge_id]
        obtain ⟨haC, hap⟩ := List.mem_filter.1 ha
        simp only [Bool.and_eq_true, beq_iff_eq] at hap
        rw [hbt]
        apply hub a haC ?_ hap.2
        rw [hap.1, ← hbp.1]
        exact hbid
    · intro i
      show locChain (devEvents i (st.changes ++ dr.1))
      rw [devEvents_append]
      apply locChain_append_le_one (inv.chain i)
      · exact filter_evId_le_one hevnd i _ (fun e hpe => by simpa using hpe)
      · intro b hb
        obtain ⟨hbE, _⟩ := List.mem_filter.1 hb
        obtain ⟨kk, hkk, heq⟩ := hev_mem b hbE
        obtain ⟨p, hp⟩ := hfact kk hkk
        rw [← heq, hp]
        exact reason_sce _ _ _ _ _ _
    · intro k hk e he hid hint
      show e.event_time ≤ (st.times ++ dr.1.map (·.event_time)).getD k 0
      have hk' : k < st.active.length + dr.2.1.length := by simpa using hk
      by_cases hklt : k < st.active.length
      · have hdev : (st.active ++ dr.2.1).getD k defaultDevice
            = st.active.getD k defaultDevice := getD_append_left _ _ _ _ hklt
        have ht : (st.times ++ dr.1.map (·.event_time)).getD k 0
            = st.times.getD k 0 :=
          getD_append_left _ _ _ _ (by rw [inv.len_t]; exact hklt)
        rw [ht]
        rcases List.mem_append.1 he with h1 | h2
        · exact inv.upper k hklt e h1 (by rw [← hdev]; exact hid) hint
        · exfalso
          obtain ⟨kk, hkk, heq⟩ := hev_mem e h2
          obtain ⟨p, hp⟩ := hfact kk hkk
          have hidE : evId e = (recharged.getD kk defaultDevice).device_id := by
            rw [← heq, hp, evId_sce, recharge_id]
          apply hdisjAR (a := evId e)
          · rw [hid, hdev]
            exact List.mem_map_of_mem _ (getD_mem _ _ _ hklt)
          · rw [hidE]
            exact List.mem_map_of_mem _ (hrech_mem kk hkk)
      · push_neg at hklt
        set j := k - st.active.length with hj
        have hjlt : j < recharged.length := by
          rw [← hrc_len]
          omega
        have hjdr : j < dr.2.1.length := by
          rw [hrc_len]
          exact hjlt
        have hkeq : k = st.active.length + j := by omega
        have hdev : (st.active ++ dr.2.1).getD k defaultDevice
            = dr.2.1.getD j defaultDevice := by
          rw [hkeq]
          exact getD_append_right _ _ _ _ hjdr
        have hdev2 : dr.2.1.getD j defaultDevice
            = recharge_battery (recharged.getD j defaultDevice) := by
          rw [hrech2]
          exact getD_map_of_lt _ _ _ defaultDevice _ hjlt
        have ht : (st.times ++ dr.1.map (·.event_time)).getD k 0
            = (dr.1.getD j defaultEvent).event_time := by
          have hlt : j < (dr.1.map (·.event_time)).length := by
            rw [List.length_map, hevlen]
            exact hjlt
          rw [hkeq, show st.active.length = st.times.length from inv.len_t.symm,
            getD_append_right _ _ _ _ hlt]
          exact getD_map_of_lt _ _ _ defaultEvent _ (by rw [hevlen]; exact hjlt)
        obtain ⟨pj, hpj⟩ := hfact j hjlt
        obtain ⟨trj, htrj, hubj⟩ := inv.removed_ub _ (hrech_mem j hjlt)
        have htj : (dr.1.getD j defaultEvent).event_time = trj := by
          rw [hpj, time_sce, htrj]
          rfl
        rw [ht, htj]
        have hidj : evId e = (recharged.getD j defaultDevice).device_id := by
          rw [hid, hdev, hdev2, recharge_id]
        rcases List.mem_append.1 he with h1 | h2
        · exact hubj e h1 hidj hint
        · obtain ⟨kk, hkk, heq⟩ := hev_mem e h2
          obtain ⟨pk, hpk⟩ := hfact kk hkk
          have hidE : evId e = (recharged.getD kk defaultDevice).device_id := by
            rw [← heq, hpk, evId_sce, recharge_id]
          have hkkj : kk = j := nodup_ids_getD_inj hrechnd hkk hjlt
            (by rw [← hidE, hidj])
          subst hkkj
          have hte : e.event_time = trj := by
            rw [← heq, hpk, time_sce, htrj]
            rfl
          rw [hte]
    · intro k hk
      have hk' : k < st.active.length + dr.2.1.length := by simpa using hk
      show ∃ e, (devEvents ((st.active ++ dr.2.1).getD k defaultDevice).device_id
          (st.changes ++ dr.1)).getLast? = some e ∧
        e.event_location = (st.locations ++ dr.1.map (·.event_location)).getD k
          defaultFeature
      rw [devEvents_append]
      by_cases hklt : k < st.active.length
      · have hdev : (st.active ++ dr.2.1).getD k defaultDevice
            = st.active.getD k defaultDevice := getD_append_left _ _ _ _ hklt
        have hloc : (st.locations ++ dr.1.map (·.event_location)).getD k defaultFeature
            = st.locations.getD k defaultFeature :=
          getD_append_left _ _ _ _ (by rw [inv.len_l]; exact hklt)
        have hnil : devEvents ((st.active ++ dr.2.1).getD k defaultDevice).device_id
            dr.1 = [] := by
          rw [devEvents, List.filter_eq_nil_iff]
          intro e he hc
          simp only [beq_iff_eq] at hc
          obtain ⟨kk, hkk, heq⟩ := hev_mem e he
          obtain ⟨p, hp⟩ := hfact kk hkk
          have hidE : evId e = (recharged.getD kk defaultDevice).device_id := by
            rw [← heq, hp, evId_sce, recharge_id]
          apply hdisjAR (a := evId e)
          · rw [hc, hdev]
            exact List.mem_map_of_mem _ (getD_mem _ _ _ hklt)
          · rw [hidE]
            exact List.mem_map_of_mem _ (hrech_mem kk hkk)
        rw [hnil, List.append_nil, hloc, hdev]
        exact inv.lastloc k hklt
      · push_neg at hklt
        set j := k - st.active.length with hj
        have hjlt : j < recharged.length := by
          rw [← hrc_len]
          omega
        have hjdr : j < dr.2.1.length := by
          rw [hrc_len]
          exact hjlt
        have hjev : j < dr.1.length := by
          rw [hevlen]
          exact hjlt
        have hkeq : k = st.active.length + j := by omega
        have hdev : (st.active ++ dr.2.1).getD k defaultDevice
            = dr.2.1.getD j defaultDevice := by
          rw [hkeq]
          exact getD_append_right _ _ _ _ hjdr
        have hdev2 : dr.2.1.getD j defaultDevice
            = recharge_battery (recharged.getD j defaultDevice) := by
          rw [hrech2]
          exact getD_map_of_lt _ _ _ defaultDevice _ hjlt
        obtain ⟨pj, hpj⟩ := hfact j hjlt
        have hsingle : devEvents ((st.active ++ dr.2.1).getD k defaultDevice).device_id
            dr.1 = [dr.1.getD j defaultEvent] := by
          apply filter_evId_single hevnd
            ((st.active ++ dr.2.1).getD k defaultDevice).device_id _
            (fun e hpe => by simpa using hpe) (getD_mem _ _ _ hjev)
          simp only [beq_iff_eq]
          rw [hpj, evId_sce, recharge_id, hdev, hdev2, recharge_id]
        rw [hsingle]
        refine ⟨dr.1.getD j defaultEvent, ?_, ?_⟩
        · rw [List.getLast?_append_of_ne_nil _ (by simp)]
          rfl
        · have hlt : j < (dr.1.map (·.event_location)).length := by
            rw [List.length_map, hevlen]
            exact hjlt
          rw [hkeq, show st.active.length = st.locations.length from inv.len_l.symm,
            getD_append_right _ _ _ _ hlt]
          exact (getD_map_of_lt _ _ _ defaultEvent _ hjev).symm
    · intro r hr
      have hrR : r ∈ st.removed := hsp.subset (List.mem_append_right _ hr)
      obtain ⟨tr, htr, hub⟩ := inv.removed_ub r hrR
      refine ⟨tr, htr, ?_⟩
      intro e he hid hint
      rcases List.mem_append.1 he with h1 | h2
      · exact hub e h1 hid hint
      · exfalso
        obtain ⟨kk, hkk, heq⟩ := hev_mem e h2
        obtain ⟨p, hp⟩ := hfact kk hkk
        have hidE : evId e = (recharged.getD kk defaultDevice).device_id := by
          rw [← heq, hp, evId_sce, recharge_id]
        apply hdisjrr (a := evId e)
        · rw [hidE]
          exact List.mem_map_of_mem _ (getD_mem _ _ _ hkk)
        · rw [hid]
          exact List.mem_map_of_mem _ hr
    · intro tr htr
      exact inv.trips_attrib tr htr
  · rw [if_neg hpos] at h
    have hst' := Except.ok.inj h
    subst hst'
    exact ⟨inv.len_t, inv.len_l, inv.nodupA0, inv.perm, inv.init, inv.sorted,
      inv.chain, inv.upper, inv.lastloc, inv.removed_ub, inv.trips_attrib⟩

theorem type_sce (c : Ctx) (d : Device) (et r : String) (t : ℚ) (loc : Feature) :
    (status_change_event c d et r t loc).event_type = et := rfl

theorem locChain_of_le_one {l : List Event} (h : l.length ≤ 1) : locChain l := by
  cases l with
  | nil => exact List.chain'_nil
  | cons a l2 =>
    cases l2 with
    | nil => exact List.chain'_singleton a
    | cons b l3 =>
      simp only [List.length_cons] at h
      omega

theorem locChain_append_single {A : List Event} {b : Event} (hA : locChain A)
    (hlink : ∀ x, A.getLast? = some x → contOk x b) : locChain (A ++ [b]) := by
  refine List.Chain'.append hA (List.chain'_singleton b) ?_
  intro x hx y hy
  simp only [List.head?_cons, Option.mem_def, Option.some.injEq] at hy
  subst hy
  exact hlink x hx

theorem interiorEvents_nil_of_noninterior {l : List Event} (i : ℕ)
    (h : ∀ e ∈ l, isInterior e = false) : interiorEvents i l = [] := by
  rw [interiorEvents, List.filter_eq_nil_iff]
  intro e he hc
  rw [h e he] at hc
  simp at hc

theorem devEvents_nil_of_notmem {l : List Event} {i : ℕ} {ids : List ℕ}
    (hids : l.map evId = ids) (h : i ∉ ids) : devEvents i l = [] := by
  rw [devEvents, List.filter_eq_nil_iff]
  intro e he hc
  simp only [beq_iff_eq] at hc
  apply h
  rw [← hids, ← hc]
  exact List.mem_map_of_mem _ he

theorem start_service_events_mem (c : Ctx) (g : Oracle) (T : ℚ) (ds : List Device)
    (n : ℕ) : ∀ e ∈ (start_service c g T ds n).1,
    e.event_type_reason = "service_start" ∧ isInterior e = false ∧
    evId e ∈ ds.map Device.device_id := by
  intro e he
  obtain ⟨k, hk, heq⟩ := mem_getD_of_mem defaultEvent he
  rw [(start_service_spec c g T ds n).2.1] at hk
  obtain ⟨t, p, hp⟩ := (start_service_spec c g T ds n).2.2 k hk
  refine ⟨by rw [← heq, hp]; rfl, by rw [← heq, hp]; rfl, ?_⟩
  rw [← heq, hp, evId_sce]
  exact List.mem_map_of_mem _ (getD_mem _ _ _ hk)

theorem end_service_events_mem (c : Ctx) (g : Oracle) (T : ℚ) (all ds : List Device)
    (ls : List Feature) (n : ℕ) :
    ∀ e ∈ (end_service_go c g T all (some ls) ds n).1,
    e.event_type_reason = "service_end" ∧ isInterior e = false ∧
    evId e ∈ ds.map Device.device_id := by
  intro e he
  obtain ⟨k, hk, heq⟩ := mem_getD_of_mem defaultEvent he
  rw [(end_service_go_spec c g T all ls ds n).1] at hk
  obtain ⟨t, hp⟩ := (end_service_go_spec c g T all ls ds n).2 k hk
  refine ⟨by rw [← heq, hp]; rfl, by rw [← heq, hp]; rfl, ?_⟩
  rw [← heq, hp, evId_sce]
  exact List.mem_map_of_mem _ (getD_mem _ _ _ hk)

/-- The day-opening bracket (inactive start/end pairs followed by the active
service_starts) is location-continuous for every device id. -/
theorem chain_changes0 {iS iE sE : List Event} {I R : List ℕ}
    (hiS : iS.map evId = I) (hiE : iE.map evId = I) (hsE : sE.map evId = R)
    (hInd : I.Nodup) (hRnd : R.Nodup) (hdisj : ∀ x ∈ I, x ∉ R)
    (hlink : ∀ k, k < iE.length →
      (iE.getD k defaultEvent).event_location.point
        = (iS.getD k defaultEvent).event_location.point) :
    ∀ i, locChain (devEvents i ((iS ++ iE) ++ sE)) := by
  intro i
  have hiSlen : iS.length = I.length := by rw [← hiS, List.length_map]
  have hiElen : iE.length = I.length := by rw [← hiE, List.length_map]
  have hiSnd : (iS.map evId).Nodup := by rw [hiS]; exact hInd
  have hiEnd : (iE.map evId).Nodup := by rw [hiE]; exact hInd
  have hsEnd : (sE.map evId).Nodup := by rw [hsE]; exact hRnd
  rw [devEvents_append, devEvents_append]
  by_cases hiI : i ∈ I
  · obtain ⟨k, hk, hIk⟩ := mem_getD_of_mem 0 hiI
    have hkS : k < iS.length := by omega
    have hkE : k < iE.length := by omega
    have hidS : evId (iS.getD k defaultEvent) = i := by
      rw [← getD_map_of_lt evId iS k defaultEvent 0 hkS, hiS, hIk]
    have hidE : evId (iE.getD k defaultEvent) = i := by
      rw [← getD_map_of_lt evId iE k defaultEvent 0 hkE, hiE, hIk]
    have hS : devEvents i iS = [iS.getD k defaultEvent] :=
      filter_evId_single hiSnd i _ (fun e hpe => by simpa using hpe)
        (getD_mem _ _ _ hkS) (by simpa using hidS)
    have hE : devEvents i iE = [iE.getD k defaultEvent] :=
      filter_evId_single hiEnd i _ (fun e hpe => by simpa using hpe)
        (getD_mem _ _ _ hkE) (by simpa using hidE)
    have hN : devEvents i sE = [] :=
      devEvents_nil_of_notmem hsE (hdisj i hiI)
    rw [hS, hE, hN, List.append_nil]
    unfold locChain
    refine List.chain'_pair.2 ?_
    exact Or.inr (Or.inr (hlink k hkE))
  · have hS : devEvents i iS = [] := devEvents_nil_of_notmem hiS hiI
    have hE : devEvents i iE = [] := devEvents_nil_of_notmem hiE hiI
    rw [hS, hE, List.nil_append, List.nil_append]
    exact locChain_of_le_one
      (filter_evId_le_one hsEnd i _ (fun e hpe => by simpa using hpe))

/-- Entering an hour: the day invariant yields the hour-loop invariant at the
initial hour state over the current active roster. -/
theorem DayInv_to_HourInv {A0 : List ℕ} {changes0 : List Event} {st : DayState}
    (inv : DayInv A0 changes0 st) (n : ℕ) :
    HourInv st.changes (List.range st.active.length)
      { active := [], removed := [], changes := [], trips := [],
        devices := st.active, times := st.times, locations := st.locations,
        n := n } := by
  have hAnd : (st.active.map Device.device_id).Nodup := by
    have h1 : ((st.active ++ st.removed).map Device.device_id).Nodup :=
      inv.perm.nodup_iff.mpr inv.nodupA0
    rw [List.map_append, List.nodup_append] at h1
    exact h1.1
  refine ⟨inv.len_t, inv.len_l, hAnd, ?_, List.nodup_range _, ?_, ?_, ?_, ?_, ?_,
    ?_, ?_, ?_⟩
  · intro j hj
    exact List.mem_range.1 hj
  · show ((([] ++ []).map Device.device_id)
        ++ (List.range st.active.length).map
            (fun j => (st.active.getD j defaultDevice).device_id)).Perm
      (st.active.map Device.device_id)
    have he : (List.range st.active.length).map
        (fun j => (st.active.getD j defaultDevice).device_id)
        = st.active.map Device.device_id := by
      have h2 : (fun j => (st.active.getD j defaultDevice).device_id)
          = Device.device_id ∘ (fun j => st.active.getD j defaultDevice) := rfl
      rw [h2, ← List.map_map, range_map_getD]
    rw [he]
    simp
  · intro i
    show timesSorted (interiorEvents i (st.changes ++ []))
    rw [List.append_nil]
    exact inv.sorted i
  · intro i
    show locChain (devEvents i (st.changes ++ []))
    rw [List.append_nil]
    exact inv.chain i
  · intro j hj
    have hj' : j < st.active.length := List.mem_range.1 hj
    constructor
    · intro e he hid hint
      rw [List.append_nil] at he
      exact inv.upper j hj' e he hid hint
    · show ∃ e, (devEvents (st.active.getD j defaultDevice).device_id
          (st.changes ++ [])).getLast? = some e ∧
        e.event_location = st.locations.getD j defaultFeature
      rw [List.append_nil]
      exact inv.lastloc j hj'
  · intro a ha
    exact absurd ha (by simp)
  · intro r hr
    exact absurd hr (by simp)
  · intro e he
    exact absurd he (by simp)
  · intro tr htr
    exact absurd htr (by simp)

/-- One full hour iteration (recharge already applied) preserves the day
invariant. -/
theorem hour_iter_DayInv {c : Ctx} {g : Oracle} {A0 : List ℕ}
    {changes0 : List Event} {st1 : DayState} {ia : ℚ} {out : HourOut}
    (inv : DayInv A0 changes0 st1)
    (hok : service_hour c g st1.active st1.times st1.locations ia st1.n
      = Except.ok out) :
    DayInv A0 changes0
      { active := out.active, times := out.times, locations := out.locations,
        removed := st1.removed ++ out.removed,
        changes := st1.changes ++ out.changes,
        trips := st1.trips ++ out.trips, n := out.n } := by
  obtain ⟨hlt, hll, hperm2, hsorted, hchain, hpos, hremub, hch, htr⟩ :=
    service_hour_summary hok (DayInv_to_HourInv inv st1.n)
  have hARnd : ((st1.active ++ st1.removed).map Device.device_id).Nodup :=
    inv.perm.nodup_iff.mpr inv.nodupA0
  rw [List.map_append, List.nodup_append] at hARnd
  obtain ⟨hAnd, hRnd, hdisjAR⟩ := hARnd
  have hsubA : ∀ i ∈ st1.active.map Device.device_id, i ∈ A0 := by
    intro i hi
    exact inv.perm.subset (by rw [List.map_append]; exact List.mem_append_left _ hi)
  refine ⟨hlt, hll, inv.nodupA0, ?_, ?_, hsorted, hchain, ?_, ?_, ?_, ?_⟩
  · show ((out.active ++ (st1.removed ++ out.removed)).map Device.device_id).Perm A0
    have e1 : ((out.active ++ (st1.removed ++ out.removed)).map Device.device_id)
        = out.active.map Device.device_id
          ++ (st1.removed.map Device.device_id
              ++ out.removed.map Device.device_id) := by
      rw [List.map_append, List.map_append]
    rw [e1]
    have hA0p : (st1.active.map Device.device_id
        ++ st1.removed.map Device.device_id).Perm A0 := by
      rw [← List.map_append]
      exact inv.perm
    refine List.Perm.trans ?_ hA0p
    have h3 : (out.active.map Device.device_id
        ++ (st1.removed.map Device.device_id
            ++ out.removed.map Device.device_id)).Perm
        ((out.active.map Device.device_id ++ out.removed.map Device.device_id)
          ++ st1.removed.map Device.device_id) := by
      refine (List.Perm.append_left _ List.perm_append_comm).trans ?_
      rw [List.append_assoc]
    refine h3.trans ?_
    refine List.Perm.append_right _ ?_
    rw [← List.map_append]
    exact hperm2
  · obtain ⟨delta, hδ, hδok⟩ := inv.init
    refine ⟨delta ++ out.changes, ?_, ?_⟩
    · show st1.changes ++ out.changes = changes0 ++ (delta ++ out.changes)
      rw [hδ, List.append_assoc]
    · intro e he
      rcases List.mem_append.1 he with h1 | h2
      · exact hδok e h1
      · obtain ⟨h3, h4⟩ := hch e h2
        exact ⟨h3, hsubA _ h4⟩
  · intro k hk e he hid hint
    exact (hpos k hk).1 e he hid hint
  · intro k hk
    exact (hpos k hk).2
  · intro r hr
    rcases List.mem_append.1 hr with h1 | h2
    · obtain ⟨tr0, htr0, hub⟩ := inv.removed_ub r h1
      refine ⟨tr0, htr0, ?_⟩
      intro e he hid hint
      rcases List.mem_append.1 he with h3 | h4
      · exact hub e h3 hid hint
      · exfalso
        obtain ⟨_, h5⟩ := hch e h4
        apply hdisjAR (a := evId e)
        · exact h5
        · rw [hid]
          exact List.mem_map_of_mem _ h1
    · exact hremub r h2
  · intro tr htr2
    rcases List.mem_append.1 htr2 with h1 | h2
    · exact inv.trips_attrib tr h1
    · exact hsubA _ (htr tr h2)

/-- The whole hour loop preserves the day invariant. -/
theorem service_day_hours_DayInv {c : Ctx} {g : Oracle} {ia : ℚ} {A0 : List ℕ}
    {changes0 : List Event} :
    ∀ (hours : List ℕ) (st stF : DayState),
    DayInv A0 changes0 st →
    service_day_hours c g ia hours st = Except.ok stF →
    DayInv A0 changes0 stF := by
  intro hours
  induction hours with
  | nil =>
    intro st stF inv h
    rw [service_day_hours] at h
    exact (Except.ok.inj h) ▸ inv
  | cons hr hrs ih =>
    intro st stF inv h
    rw [service_day_hours] at h
    cases h1 : recharge_step c g st with
    | error e =>
      rw [h1, err_bind] at h
      exact absurd h (by simp)
    | ok st1 =>
      simp only [h1, ok_bind] at h
      cases h2 : service_hour c g st1.active st1.times st1.locations ia st1.n with
      | error e =>
        rw [h2, err_bind] at h
        exact absurd h (by simp)
      | ok out =>
        simp only [h2, ok_bind] at h
        exact ih _ _ (hour_iter_DayInv (recharge_step_DayInv inv h1) h2) h

theorem if_battery_id (d : Device) :
    (if has_battery d then recharge_battery d else d).device_id = d.device_id := by
  by_cases hb : has_battery d <;> simp [hb, recharge_id]

/-- Master characterization of a successful `service_day` run over a roster
with pairwise-distinct device ids: per-device interior event times are
non-decreasing, per-device event locations chain, and each day-inactive
device gets exactly its service_start / service_end bracket at one point,
no trips, and only the service-start battery recharge. -/
theorem service_day_master {c : Ctx} {g : Oracle} {devices : List Device}
    {day0 : ℚ} {hour_open hour_closed : ℕ} {ia : ℚ} {result : DayResult}
    (hnd : (devices.map Device.device_id).Nodup)
    (hok : service_day c g devices day0 hour_open hour_closed ia
      = Except.ok result) :
    (∀ i, timesSorted (interiorEvents i result.status_changes)) ∧
    (∀ i, locChain (devEvents i result.status_changes)) ∧
    (∀ k, k < result.inactive_final.length →
      ∃ e1 e2,
        devEvents ((result.inactive_final.getD k defaultDevice).device_id)
          result.status_changes = [e1, e2] ∧
        e1.event_type = "available" ∧
        e1.event_type_reason = "service_start" ∧
        e2.event_type = "removed" ∧
        e2.event_type_reason = "service_end" ∧
        e2.event_location.point = e1.event_location.point ∧
        e2.device = result.inactive_final.getD k defaultDevice ∧
        (∀ tr ∈ result.trips, tr.device.device_id
          ≠ (result.inactive_final.getD k defaultDevice).device_id) ∧
        ∃ d0 ∈ devices,
          d0.device_id
            = (result.inactive_final.getD k defaultDevice).device_id ∧
          e1.device = d0 ∧
          result.inactive_final.getD k defaultDevice
            = (if has_battery d0 then recharge_battery d0 else d0)) := by
  unfold service_day at hok
  cases hsmp : sample g 0 devices (pyInt (devices.length * ia)) with
  | error e =>
    simp only [hsmp, err_bind] at hok
    exact absurd hok (by simp)
  | ok smp =>
  simp only [hsmp, ok_bind] at hok
  set T0 : ℚ := day0 + 3600 * hour_open with hT0
  set T1 : ℚ := day0 + 3600 * hour_closed with hT1
  set inactive := smp.1 with hinactive
  set restPop := smp.2.1 with hrestPop
  set ss1 := start_service c g T0 inactive smp.2.2 with hss1
  set iS := ss1.1 with hiS_def
  set inactive' := ss1.2.1 with hinactive'
  set iLocs := iS.map (·.event_location) with hiLocs
  set es1 := end_service c g T1 inactive' (some iLocs) ss1.2.2 with hes1
  set iE := es1.1 with hiE_def
  set aD := restPop.filter (fun d => !(inactive'.contains d)) with haD
  set ss2 := start_service c g T0 aD es1.2 with hss2
  set sE := ss2.1 with hsE_def
  set active0 := ss2.2.1 with hactive0
  cases hhrs : service_day_hours c g ia
      (List.range' hour_open (hour_closed + 1 - hour_open))
      { active := active0, times := sE.map (fun _ => T0),
        locations := sE.map (·.event_location), removed := [],
        changes := iS ++ iE ++ sE, trips := [], n := ss2.2.2 } with
  | error e =>
    simp only [hhrs, err_bind] at hok
    exact absurd hok (by simp)
  | ok stF =>
  simp only [hhrs, ok_bind] at hok
  set es2 := end_service c g T1 stF.active (some stF.locations) stF.n with hes2
  have hres := Except.ok.inj hok
  subst hres
  -- sampling bookkeeping
  have hs2 : sample g 0 devices (pyInt (devices.length * ia))
      = Except.ok (inactive, restPop, smp.2.2) := by rw [hsmp]
  have hpermIR : (inactive ++ restPop).Perm devices := sample_ok_perm hs2
  have hIRnd : ((inactive ++ restPop).map Device.device_id).Nodup :=
    (hpermIR.map _).nodup_iff.mpr hnd
  rw [List.map_append, List.nodup_append] at hIRnd
  obtain ⟨hInd, hRPnd, hdisjIR⟩ := hIRnd
  -- the two start_service passes and the inactive end_service pass
  have hiSspec := start_service_spec c g T0 inactive smp.2.2
  have hIids : inactive'.map Device.device_id = inactive.map Device.device_id := by
    rw [hinactive', hss1]
    exact start_service_ids c g T0 inactive smp.2.2
  have hIlen : inactive'.length = inactive.length := by
    have h1 := congrArg List.length hIids
    simpa using h1
  have hImap : inactive' = inactive.map
      (fun d => if has_battery d then recharge_battery d else d) := by
    rw [hinactive', hss1]
    exact hiSspec.1
  have hiSlen : iS.length = inactive.length := by
    rw [hiS_def, hss1]
    exact hiSspec.2.1
  have hiSevs : iS.map evId = inactive.map Device.device_id := by
    apply map_evId_of_spec hiSlen
    intro k hk
    obtain ⟨t, p, hp⟩ := hiSspec.2.2 k hk
    rw [hiS_def, hss1, hp, evId_sce]
  have hiSnd : (iS.map evId).Nodup := by rw [hiSevs]; exact hInd
  have hiEgo : iE = (end_service_go c g T1 inactive' (some iLocs) inactive'
      ss1.2.2).1 := by
    rw [hiE_def, hes1]
    rfl
  have hiEspec := end_service_go_spec c g T1 inactive' iLocs inactive' ss1.2.2
  have hiElen : iE.length = inactive.length := by
    rw [hiEgo, hiEspec.1, hIlen]
  have hInd' : (inactive'.map Device.device_id).Nodup := by
    rw [hIids]
    exact hInd
  have hiEevs : iE.map evId = inactive.map Device.device_id := by
    rw [← hIids]
    refine map_evId_of_spec ?_ ?_
    · rw [hiEgo, hiEspec.1]
    intro k hk
    obtain ⟨t, hp⟩ := hiEspec.2 k hk
    rw [hiEgo, hp, evId_sce]
  have hiEnd : (iE.map evId).Nodup := by rw [hiEevs]; exact hInd
  have haD_eq : aD = restPop := by
    rw [haD, List.filter_eq_self]
    intro d hd
    have hdn : d ∉ inactive' := by
      intro hc
      apply hdisjIR (a := d.device_id)
      · rw [← hIids]
        exact List.mem_map_of_mem _ hc
      · exact List.mem_map_of_mem _ hd
    simpa using hdn
  have hsEspec := start_service_spec c g T0 aD es1.2
  have hsElen : sE.length = restPop.length := by
    rw [hsE_def, hss2, hsEspec.2.1, haD_eq]
  have hsEevs : sE.map evId = restPop.map Device.device_id := by
    rw [← haD_eq]
    refine map_evId_of_spec ?_ ?_
    · rw [hsE_def, hss2]
      exact hsEspec.2.1
    intro k hk
    obtain ⟨t, p, hp⟩ := hsEspec.2.2 k hk
    rw [hsE_def, hss2, hp, evId_sce]
  have hsEnd : (sE.map evId).Nodup := by rw [hsEevs]; exact hRPnd
  have hA0 : active0.map Device.device_id = restPop.map Device.device_id := by
    rw [hactive0, hss2, start_service_ids, haD_eq]
  have hactive0len : active0.length = restPop.length := by
    have h1 := congrArg List.length hA0
    simpa using h1
  -- the bracket-location link for the day-inactive devices
  have hlinkpts : ∀ k, k < iE.length →
      (iE.getD k defaultEvent).event_location.point
        = (iS.getD k defaultEvent).event_location.point := by
    intro k hk
    have hk' : k < inactive'.length := by rw [hIlen, ← hiElen]; exact hk
    obtain ⟨t, hp⟩ := hiEspec.2 k hk'
    have hidx : inactive'.indexOf (inactive'.getD k defaultDevice) = k :=
      nodup_ids_indexOf_getD inactive' k hInd' hk'
    have hkS : k < iS.length := by rw [hiSlen, ← hiElen]; exact hk
    have hloc : iLocs.getD k defaultFeature
        = (iS.getD k defaultEvent).event_location := by
      rw [hiLocs]
      exact getD_map_of_lt _ _ _ defaultEvent _ hkS
    rw [hiEgo, hp, loc_sce, hidx, hloc]
  -- non-interiority of the opening bracket
  have hiSmem : ∀ e ∈ iS, e.event_type_reason = "service_start" ∧
      isInterior e = false ∧ evId e ∈ inactive.map Device.device_id := by
    intro e he
    rw [hiS_def, hss1] at he
    exact start_service_events_mem c g T0 inactive smp.2.2 e he
  have hiEmem : ∀ e ∈ iE, e.event_type_reason = "service_end" ∧
      isInterior e = false ∧ evId e ∈ inactive.map Device.device_id := by
    intro e he
    rw [hiEgo] at he
    obtain ⟨h1, h2, h3⟩ := end_service_events_mem c g T1 inactive' inactive'
      iLocs ss1.2.2 e he
    exact ⟨h1, h2, by rw [← hIids]; exact h3⟩
  have hsEmem : ∀ e ∈ sE, e.event_type_reason = "service_start" ∧
      isInterior e = false ∧ evId e ∈ restPop.map Device.device_id := by
    intro e he
    rw [hsE_def, hss2] at he
    obtain ⟨h1, h2, h3⟩ := start_service_events_mem c g T0 aD es1.2 e he
    exact ⟨h1, h2, by rw [← haD_eq]; exact h3⟩
  have hch0_nonint : ∀ e ∈ iS ++ iE ++ sE, isInterior e = false := by
    intro e he
    rcases List.mem_append.1 he with h1 | h2
    · rcases List.mem_append.1 h1 with h3 | h4
      · exact (hiSmem e h3).2.1
      · exact (hiEmem e h4).2.1
    · exact (hsEmem e h2).2.1
  -- the day invariant at the opening state
  have inv0 : DayInv (active0.map Device.device_id) (iS ++ iE ++ sE)
      { active := active0, times := sE.map (fun _ => T0),
        locations := sE.map (·.event_location), removed := [],
        changes := iS ++ iE ++ sE, trips := [], n := ss2.2.2 } := by
    have hA0nd : (active0.map Device.device_id).Nodup := by
      rw [hA0]
      exact hRPnd
    refine ⟨?_, ?_, hA0nd, ?_, ?_, ?_, ?_, ?_, ?_, ?_, ?_⟩
    · show (sE.map (fun _ => T0)).length = active0.length
      rw [List.length_map, hsElen, hactive0len]
    · show (sE.map (·.event_location)).length = active0.length
      rw [List.length_map, hsElen, hactive0len]
    · show ((active0 ++ []).map Device.device_id).Perm
        (active0.map Device.device_id)
      rw [List.append_nil]
    · exact ⟨[], by rw [List.append_nil], by intro e he; simp at he⟩
    · intro i
      show timesSorted (interiorEvents i (iS ++ iE ++ sE))
      rw [interiorEvents_nil_of_noninterior i hch0_nonint]
      exact List.Pairwise.nil
    · intro i
      show locChain (devEvents i (iS ++ iE ++ sE))
      exact chain_changes0 hiSevs hiEevs hsEevs hInd hRPnd
        (fun x hx hc => hdisjIR hx hc) hlinkpts i
    · intro k hk e he hid hint
      rw [hch0_nonint e he] at hint
      simp at hint
    · intro k hk
      have hkA : k < aD.length := by
        rw [haD_eq, ← hactive0len]
        exact hk
      have hkS : k < sE.length := by rw [hsElen, ← haD_eq]; exact hkA
      obtain ⟨t, p, hp⟩ := hsEspec.2.2 k hkA
      have hsEk : sE.getD k defaultEvent = status_change_event c
          (aD.getD k defaultDevice) "available" "service_start" t
          { point := p, timestamp := t } := by
        rw [hsE_def, hss2]
        exact hp
      have hdevid : (active0.getD k defaultDevice).device_id
          = (aD.getD k defaultDevice).device_id := by
        rw [hactive0, hss2, hsEspec.1,
          getD_map_of_lt _ _ _ defaultDevice _ hkA, if_battery_id]
      have hsingle : devEvents (active0.getD k defaultDevice).device_id sE
          = [sE.getD k defaultEvent] := by
        apply filter_evId_single hsEnd _ _ (fun e hpe => by simpa using hpe)
          (getD_mem _ _ _ hkS)
        simp only [beq_iff_eq]
        rw [hsEk, evId_sce, hdevid]
      have hnilS : devEvents (active0.getD k defaultDevice).device_id iS = [] := by
        apply devEvents_nil_of_notmem hiSevs
        intro hc
        apply hdisjIR hc
        rw [hdevid]
        rw [haD_eq] at hkA
        rw [haD_eq]
        exact List.mem_map_of_mem _ (getD_mem _ _ _ hkA)
      have hnilE : devEvents (active0.getD k defaultDevice).device_id iE = [] := by
        apply devEvents_nil_of_notmem hiEevs
        intro hc
        apply hdisjIR hc
        rw [hdevid, haD_eq] at *
        exact List.mem_map_of_mem _ (getD_mem _ _ _ hkA)
      show ∃ e, (devEvents (active0.getD k defaultDevice).device_id
          (iS ++ iE ++ sE)).getLast? = some e ∧
        e.event_location = (sE.map (·.event_location)).getD k defaultFeature
      rw [devEvents_append, devEvents_append, hnilS, hnilE, hsingle,
        List.nil_append, List.nil_append]
      refine ⟨sE.getD k defaultEvent, by simp, ?_⟩
      exact (getD_map_of_lt _ _ _ defaultEvent _ hkS).symm
    · intro r hr
      simp at hr
    · intro tr htr
      simp at htr
  have invF := service_day_hours_DayInv _ _ _ inv0 hhrs
  -- the closing end_service pass
  have hFnd : (stF.active.map Device.device_id).Nodup := by
    have h1 : ((stF.active ++ stF.removed).map Device.device_id).Nodup :=
      invF.perm.nodup_iff.mpr invF.nodupA0
    rw [List.map_append, List.nodup_append] at h1
    exact h1.1
  have hE2go : es2.1 = (end_service_go c g T1 stF.active (some stF.locations)
      stF.active stF.n).1 := by
    rw [hes2]
    rfl
  have hE2spec := end_service_go_spec c g T1 stF.active stF.locations
    stF.active stF.n
  have hE2len : es2.1.length = stF.active.length := by rw [hE2go, hE2spec.1]
  have hE2evs : es2.1.map evId = stF.active.map Device.device_id := by
    apply map_evId_of_spec hE2len
    intro k hk
    obtain ⟨t, hp⟩ := hE2spec.2 k hk
    rw [hE2go, hp, evId_sce]
  have hE2nd : (es2.1.map evId).Nodup := by rw [hE2evs]; exact hFnd
  have hE2mem : ∀ e ∈ es2.1, e.event_type_reason = "service_end" ∧
      isInterior e = false ∧ evId e ∈ stF.active.map Device.device_id := by
    intro e he
    rw [hE2go] at he
    exact end_service_events_mem c g T1 stF.active stF.active stF.locations
      stF.n e he
  have hsubF : ∀ i ∈ stF.active.map Device.device_id,
      i ∈ active0.map Device.device_id := by
    intro i hi
    exact invF.perm.subset (by rw [List.map_append]; exact List.mem_append_left _ hi)
  refine ⟨?_, ?_, ?_⟩
  · -- C1: interior event times are sorted per device
    intro i
    show timesSorted (interiorEvents i (stF.changes ++ es2.1))
    rw [interiorEvents_append,
      interiorEvents_nil_of_noninterior i (fun e he => (hE2mem e he).2.1),
      List.append_nil]
    exact invF.sorted i
  · -- C2: locations chain per device
    intro i
    show locChain (devEvents i (stF.changes ++ es2.1))
    rw [devEvents_append]
    by_cases hiF : i ∈ stF.active.map Device.device_id
    · obtain ⟨d, hd, hdi⟩ := List.mem_map.1 hiF
      obtain ⟨k, hk, hdk⟩ := mem_getD_of_mem defaultDevice hd
      have hidk : (stF.active.getD k defaultDevice).device_id = i := by
        rw [hdk, hdi]
      have hkE : k < es2.1.length := by rw [hE2len]; exact hk
      obtain ⟨t, hp⟩ := hE2spec.2 k hk
      have hE2k : es2.1.getD k defaultEvent = status_change_event c
          (stF.active.getD k defaultDevice) "removed" "service_end" t
          { point := (stF.locations.getD (stF.active.indexOf
              (stF.active.getD k defaultDevice)) defaultFeature).point,
            timestamp := t } := by
        rw [hE2go]
        exact hp
      have hidx : stF.active.indexOf (stF.active.getD k defaultDevice) = k :=
        nodup_ids_indexOf_getD stF.active k hFnd hk
      have hsingle : devEvents i es2.1 = [es2.1.getD k defaultEvent] := by
        apply filter_evId_single hE2nd i _ (fun e hpe => by simpa using hpe)
          (getD_mem _ _ _ hkE)
        simp only [beq_iff_eq]
        rw [hE2k, evId_sce, hidk]
      rw [hsingle]
      apply locChain_append_single (invF.chain i)
      intro x hx
      obtain ⟨e0, he0, hloc0⟩ := invF.lastloc k hk
      rw [hidk] at he0
      rw [hx] at he0
      have hxe : x = e0 := Option.some.inj he0
      right
      right
      rw [hE2k, loc_sce, hidx, hxe, hloc0]
    · have hnil : devEvents i es2.1 = [] := devEvents_nil_of_notmem hE2evs hiF
      rw [hnil, List.append_nil]
      exact invF.chain i
  · -- C8: the day-inactive bracket
    intro k hk
    have hk' : k < inactive.length := by
      rw [← hIlen]
      exact hk
    have hkI' : k < inactive'.length := by rw [hIlen]; exact hk'
    have hkS : k < iS.length := by rw [hiSlen]; exact hk'
    have hkE : k < iE.length := by rw [hiElen]; exact hk'
    have hdid : (inactive'.getD k defaultDevice).device_id
        = (inactive.getD k defaultDevice).device_id := by
      rw [hImap, getD_map_of_lt _ _ _ defaultDevice _ hk', if_battery_id]
    have hmemI : (inactive'.getD k defaultDevice).device_id
        ∈ inactive.map Device.device_id := by
      rw [hdid]
      exact List.mem_map_of_mem _ (getD_mem _ _ _ hk')
    -- single starts and ends at position k
    have hidS : evId (iS.getD k defaultEvent)
        = (inactive'.getD k defaultDevice).device_id := by
      rw [← getD_map_of_lt evId iS k defaultEvent 0 hkS, hiSevs, hdid,
        getD_map_of_lt _ _ _ defaultDevice _ hk']
    have hidE : evId (iE.getD k defaultEvent)
        = (inactive'.getD k defaultDevice).device_id := by
      rw [← getD_map_of_lt evId iE k defaultEvent 0 hkE, hiEevs, hdid,
        getD_map_of_lt _ _ _ defaultDevice _ hk']
    have hS1 : devEvents (inactive'.getD k defaultDevice).device_id iS
        = [iS.getD k defaultEvent] :=
      filter_evId_single hiSnd _ _ (fun e hpe => by simpa using hpe)
        (getD_mem _ _ _ hkS) (by simpa using hidS)
    have hE1 : devEvents (inactive'.getD k defaultDevice).device_id iE
        = [iE.getD k defaultEvent] :=
      filter_evId_single hiEnd _ _ (fun e hpe => by simpa using hpe)
        (getD_mem _ _ _ hkE) (by simpa using hidE)
    have hSEnil : devEvents (inactive'.getD k defaultDevice).device_id sE = [] := by
      apply devEvents_nil_of_notmem hsEevs
      intro hc
      exact hdisjIR hmemI hc
    obtain ⟨delta, hδ, hδok⟩ := invF.init
    have hdeltanil : devEvents (inactive'.getD k defaultDevice).device_id delta
        = [] := by
      rw [devEvents, List.filter_eq_nil_iff]
      intro e he hc
      simp only [beq_iff_eq] at hc
      obtain ⟨_, hA⟩ := hδok e he
      rw [hA0] at hA
      apply hdisjIR hmemI
      rw [← hc]
      exact hA
    have hE2nil : devEvents (inactive'.getD k defaultDevice).device_id es2.1
        = [] := by
      rw [devEvents, List.filter_eq_nil_iff]
      intro e he hc
      simp only [beq_iff_eq] at hc
      have hA := hsubF _ (hE2mem e he).2.2
      rw [hA0] at hA
      apply hdisjIR hmemI
      rw [← hc]
      exact hA
    refine ⟨iS.getD k defaultEvent, iE.getD k defaultEvent, ?_, ?_, ?_, ?_, ?_,
      ?_, ?_, ?_, ?_⟩
    · show devEvents (inactive'.getD k defaultDevice).device_id
        (stF.changes ++ es2.1) = _
      rw [hδ, devEvents_append, devEvents_append, devEvents_append,
        devEvents_append, hS1, hE1, hSEnil, hdeltanil, hE2nil]
      simp
    · obtain ⟨t, p, hp⟩ := hiSspec.2.2 k hk'
      have : iS.getD k defaultEvent = status_change_event c
          (inactive.getD k defaultDevice) "available" "service_start" t
          { point := p, timestamp := t } := by
        rw [hiS_def, hss1]
        exact hp
      rw [this, type_sce]
    · obtain ⟨t, p, hp⟩ := hiSspec.2.2 k hk'
      have : iS.getD k defaultEvent = status_change_event c
          (inactive.getD k defaultDevice) "available" "service_start" t
          { point := p, timestamp := t } := by
        rw [hiS_def, hss1]
        exact hp
      rw [this, reason_sce]
    · obtain ⟨t, hp⟩ := hiEspec.2 k hkI'
      rw [hiEgo, hp, type_sce]
    · obtain ⟨t, hp⟩ := hiEspec.2 k hkI'
      rw [hiEgo, hp, reason_sce]
    · exact hlinkpts k hkE
    · obtain ⟨t, hp⟩ := hiEspec.2 k hkI'
      show (iE.getD k defaultEvent).device = inactive'.getD k defaultDevice
      rw [hiEgo, hp, device_sce]
    · intro tr htr heq
      have hA := invF.trips_attrib tr htr
      rw [hA0] at hA
      apply hdisjIR hmemI
      rw [← heq]
      exact hA
    · refine ⟨inactive.getD k defaultDevice, ?_, ?_, ?_, ?_⟩
      · exact hpermIR.subset (List.mem_append_left _ (getD_mem _ _ _ hk'))
      · show (inactive.getD k defaultDevice).device_id
          = (inactive'.getD k defaultDevice).device_id
        exact hdid.symm
      · obtain ⟨t, p, hp⟩ := hiSspec.2.2 k hk'
        have h1 : iS.getD k defaultEvent = status_change_event c
            (inactive.getD k defaultDevice) "available" "service_start" t
            { point := p, timestamp := t } := by
          rw [hiS_def, hss1]
          exact hp
        rw [h1, device_sce]
      · show inactive'.getD k defaultDevice = _
        rw [hImap]
        exact getD_map_of_lt _ _ _ defaultDevice _ hk'

theorem dNB_no_battery : has_battery dNB = false := by decide

theorem c1ex_trip : device_trip cW gT dNB { point := (0, 1), timestamp := -7200 }
    0 5 = Except.ok ([c1Pick, c1Drop], c1Trip, dNB, 15) := by
  rw [c1Pick, c1Drop, c1Trip]
  simp [device_trip, random_date_from, randintD, uniformD, clamp01, gT, cW,
    dNB_no_battery, pyInt, ok_bind]
  norm_num
  rfl

theorem c1ex_recharge : recharge_step cW gT
    { active := [dNB], times := [0],
      locations := [{ point := (0, 1), timestamp := -7200 }], removed := [],
      changes := [c1Start], trips := [], n := 3 }
    = Except.ok
    { active := [dNB], times := [0],
      locations := [{ point := (0, 1), timestamp := -7200 }], removed := [],
      changes := [c1Start], trips := [], n := 4 } := by
  simp [recharge_step, randintD, sample, sampleGo, gT, ok_bind]

theorem c1ex_step : service_hour_step cW gT
    { active := [], removed := [], changes := [], trips := [],
      devices := [dNB], times := [0],
      locations := [{ point := (0, 1), timestamp := -7200 }], n := 4 } 0
    = Except.ok
    { active := [dNB], removed := [], changes := [c1Pick, c1Drop],
      trips := [c1Trip], devices := [dNB], times := [6000],
      locations := [{ point := (0, 1), timestamp := 6000 }], n := 15 } := by
  have hbl : battery_low dNB = Except.ok false := rfl
  simp only [service_hour_step, List.getD_cons_zero, hbl, ok_bind]
  simp only [show (4 : ℕ) + 1 = 5 from rfl, c1ex_trip, ok_bind]
  simp [c1Drop, List.set, time_sce, loc_sce, show gT.b 4 = true from rfl]

theorem c1ex_hour : service_hour cW gT [dNB] [0]
    [{ point := (0, 1), timestamp := -7200 }] 0 4
    = Except.ok
    { active := [dNB], times := [6000],
      locations := [{ point := (0, 1), timestamp := 6000 }], removed := [],
      changes := [c1Pick, c1Drop], trips := [c1Trip], devices := [dNB],
      n := 15 } := by
  simp only [service_hour, List.length_singleton, List.range_succ,
    List.range_zero, List.nil_append, service_hour_go, c1ex_step, ok_bind]
  rfl

theorem c1ex_end : end_service cW gT 0 [dNB]
    (some [{ point := (0, 1), timestamp := 6000 }]) 15
    = ([c1End], 17) := by
  rw [c1End]
  simp [end_service, end_service_go, random_date_from, randintD, uniformD,
    clamp01, gT]

theorem c1run_eq : service_day cW gT [dNB] 0 0 0 0 = Except.ok c1Run := by
  have hk : pyInt ((List.length [dNB] : ℚ) * 0) = 0 := by norm_num [pyInt]
  have hsmp : sample gT 0 [dNB] 0 = Except.ok ([], [dNB], 0) := by
    rw [sample]
    norm_num
    rfl
  have hss2 : start_service cW gT (0 + 3600 * ((0 : ℕ) : ℚ)) [dNB] 0
      = ([c1Start], [dNB], 3) := by
    rw [c1Start]
    simp [start_service, random_date_from, randintD, uniformD, clamp01, gT,
      dNB_no_battery]
  have hrng : List.range' 0 (0 + 1 - 0) = [0] := rfl
  have hssnil : start_service cW gT (0 + 3600 * ((0 : ℕ) : ℚ)) [] 0
      = ([], [], 0) := rfl
  have hesnil : end_service cW gT (0 + 3600 * ((0 : ℕ) : ℚ)) []
      (some []) 0 = ([], 0) := rfl
  have hfil : List.filter (fun d => !(([] : List Device).contains d)) [dNB]
      = [dNB] := by simp
  have hc1SL : c1Start.event_location
      = ({ point := (0, 1), timestamp := -7200 } : Feature) := rfl
  unfold service_day
  simp only [hk, hsmp, ok_bind]
  simp only [hssnil, List.map_nil, hesnil, hfil, hss2, List.map_cons, hc1SL,
    List.nil_append, List.append_nil]
  norm_num
  simp only [hrng, service_day_hours, c1ex_recharge, ok_bind, c1ex_hour,
    c1ex_end]
  rfl

/-- The empty-pool recharge block only advances the counter. -/
theorem recharge_step_nil (c : Ctx) (g : Oracle) (st : DayState)
    (h : st.removed = []) :
    recharge_step c g st = Except.ok { st with n := st.n + 1 } := by
  unfold recharge_step
  rw [h]
  simp only [List.length_nil, Nat.cast_zero, randintD]
  have h0 : (0 : ℤ) + (g.ri st.n : ℤ) % (0 - 0 + 1) = 0 := by simp
  rw [h0]
  simp [sample, sampleGo, ok_bind]

theorem c2ex_trip : device_trip cE gE dEl { point := (2, 1), timestamp := -7200 }
    0 5 = Except.ok ([c2P, c2D], c2Trip, dE0, 13) := by
  rw [c2P, c2D, c2Trip]
  simp [device_trip, random_date_from, randintD, uniformD, clamp01, gE, cE,
    has_battery, dEl, pyInt, ok_bind, drain_battery, dE0]
  norm_num

theorem c2ex_step0 : service_hour_step cE gE
    { active := [], removed := [], changes := [], trips := [],
      devices := [dEl], times := [0],
      locations := [{ point := (2, 1), timestamp := -7200 }], n := 4 } 0
    = Except.ok
    { active := [dE0], removed := [], changes := [c2P, c2D],
      trips := [c2Trip], devices := [dE0], times := [60],
      locations := [{ point := (8, 1), timestamp := 60 }], n := 13 } := by
  have hbl : battery_low dEl = Except.ok false := by
    simp [battery_low, dEl, has_battery]
    norm_num
  simp only [service_hour_step, List.getD_cons_zero, hbl, ok_bind]
  simp only [show (4 : ℕ) + 1 = 5 from rfl, c2ex_trip, ok_bind]
  simp [c2D, List.set, time_sce, loc_sce, show gE.b 4 = true from rfl]

theorem c2ex_hour0 : service_hour cE gE [dEl] [0]
    [{ point := (2, 1), timestamp := -7200 }] 0 4
    = Except.ok
    { active := [dE0], times := [60],
      locations := [{ point := (8, 1), timestamp := 60 }], removed := [],
      changes := [c2P, c2D], trips := [c2Trip], devices := [dE0],
      n := 13 } := by
  simp only [service_hour, List.length_singleton, List.range_succ,
    List.range_zero, List.nil_append, service_hour_go, c2ex_step0, ok_bind]
  rfl

theorem c2ex_step1 : service_hour_step cE gE
    { active := [], removed := [], changes := [], trips := [],
      devices := [dE0], times := [60],
      locations := [{ point := (8, 1), timestamp := 60 }], n := 14 } 0
    = Except.ok
    { active := [], removed := [dRm], changes := [c2L], trips := [],
      devices := [dE0], times := [60],
      locations := [{ point := (8, 1), timestamp := 60 }], n := 14 } := by
  have hbl : battery_low dE0 = Except.ok true := by
    have h15 : ((0 : ℚ) < 1 / 5) := by norm_num
    simp [battery_low, dE0, dEl, has_battery, h15]
  simp only [service_hour_step, List.getD_cons_zero, hbl, ok_bind, if_true]
  simp [c2L, dRm, device_lowbattery, time_sce]

theorem c2ex_hour1 : service_hour cE gE [dE0] [60]
    [{ point := (8, 1), timestamp := 60 }] 0 14
    = Except.ok
    { active := [], times := [], locations := [], removed := [dRm],
      changes := [c2L], trips := [], devices := [dE0], n := 14 } := by
  simp only [service_hour, List.length_singleton, List.range_succ,
    List.range_zero, List.nil_append, service_hour_go, c2ex_step1, ok_bind]
  rfl

theorem c2ex_recharge2 : recharge_step cE gE
    { active := [], times := [], locations := [], removed := [dRm],
      changes := [c2S, c2P, c2D, c2L], trips := [c2Trip], n := 14 }
    = Except.ok
    { active := [dR], times := [60],
      locations := [{ point := (16, 1), timestamp := 60 }], removed := [],
      changes := [c2S, c2P, c2D, c2L, c2M], trips := [c2Trip], n := 17 } := by
  rw [c2M]
  unfold recharge_step
  simp [randintD, gE, sample, sampleGo, ok_bind, devices_recharged,
    devices_recharged_go, device_recharged, recharge_battery, dRm, dR, dE0,
    dEl, time_sce, loc_sce]

theorem c2ex_step2 : service_hour_step cE gE
    { active := [], removed := [], changes := [], trips := [],
      devices := [dR], times := [60],
      locations := [{ point := (16, 1), timestamp := 60 }], n := 17 } 0
    = Except.ok
    { active := [dR], removed := [], changes := [], trips := [],
      devices := [dR], times := [60],
      locations := [{ point := (16, 1), timestamp := 60 }], n := 19 } := by
  have hbl : battery_low dR = Except.ok false := by
    simp [battery_low, dR, dRm, dE0, dEl, has_battery]
    norm_num
  have hdr : drain_battery dR 0 (uniformD gE 18 0 (1 / 20)).1
      = Except.ok dR := by
    simp [drain_battery, has_battery, uniformD, clamp01, gE, dR, dRm, dE0, dEl]
  simp only [service_hour_step, List.getD_cons_zero, hbl, ok_bind]
  rw [show gE.b 17 = false from rfl]
  simp only [Bool.false_eq_true, if_false]
  rw [if_pos (show has_battery dR = true from rfl)]
  simp only [show (17 : ℕ) + 1 = 18 from rfl, hdr, ok_bind]
  simp [uniformD, List.set]

theorem c2ex_hour2 : service_hour cE gE [dR] [60]
    [{ point := (16, 1), timestamp := 60 }] 0 17
    = Except.ok
    { active := [dR], times := [60],
      locations := [{ point := (16, 1), timestamp := 60 }], removed := [],
      changes := [], trips := [], devices := [dR], n := 19 } := by
  simp only [service_hour, List.length_singleton, List.range_succ,
    List.range_zero, List.nil_append, service_hour_go, c2ex_step2, ok_bind]
  rfl

theorem c2ex_end : end_service cE gE 7200 [dR]
    (some [{ point := (16, 1), timestamp := 60 }]) 19
    = ([c2E], 21) := by
  rw [c2E]
  simp [end_service, end_service_go, random_date_from, randintD, uniformD,
    clamp01, gE]

theorem c2run_eq : service_day cE gE [dEl] 0 0 2 0 = Except.ok c2Run := by
  have hk : pyInt ((List.length [dEl] : ℚ) * 0) = 0 := by norm_num [pyInt]
  have hsmp : sample gE 0 [dEl] 0 = Except.ok ([], [dEl], 0) := by
    rw [sample]
    norm_num
    rfl
  have hss2 : start_service cE gE (0 + 3600 * ((0 : ℕ) : ℚ)) [dEl] 0
      = ([c2S], [dEl], 3) := by
    rw [c2S]
    simp [start_service, random_date_from, randintD, uniformD, clamp01, gE,
      has_battery, recharge_battery, dEl]
  have hrng : List.range' 0 (2 + 1 - 0) = [0, 1, 2] := rfl
  have hssnil : start_service cE gE (0 + 3600 * ((0 : ℕ) : ℚ)) [] 0
      = ([], [], 0) := rfl
  have hesnil : end_service cE gE (0 + 3600 * ((2 : ℕ) : ℚ)) []
      (some []) 0 = ([], 0) := rfl
  have hfil : List.filter (fun d => !(([] : List Device).contains d)) [dEl]
      = [dEl] := by simp
  have hc2SL : c2S.event_location
      = ({ point := (2, 1), timestamp := -7200 } : Feature) := rfl
  have hrech0 : recharge_step cE gE
      { active := [dEl], times := [0],
        locations := [{ point := (2, 1), timestamp := -7200 }], removed := [],
        changes := [c2S], trips := [], n := 3 }
      = Except.ok
      { active := [dEl], times := [0],
        locations := [{ point := (2, 1), timestamp := -7200 }], removed := [],
        changes := [c2S], trips := [], n := 4 } := by
    rw [recharge_step_nil cE gE _ rfl]
  have hrech1 : recharge_step cE gE
      { active := [dE0], times := [60],
        locations := [{ point := (8, 1), timestamp := 60 }], removed := [],
        changes := [c2S, c2P, c2D], trips := [c2Trip], n := 13 }
      = Except.ok
      { active := [dE0], times := [60],
        locations := [{ point := (8, 1), timestamp := 60 }], removed := [],
        changes := [c2S, c2P, c2D], trips := [c2Trip], n := 14 } := by
    rw [recharge_step_nil cE gE _ rfl]
  unfold service_day
  simp only [hk, hsmp, ok_bind]
  simp only [hssnil, List.map_nil, hesnil, hfil, hss2, List.map_cons, hc2SL,
    List.nil_append, List.append_nil]
  norm_num
  simp only [hrng, service_day_hours, hrech0, ok_bind, c2ex_hour0,
    List.cons_append, List.nil_append, List.append_nil, hrech1, c2ex_hour1,
    c2ex_recharge2, c2ex_hour2, c2ex_end]
  rfl

theorem c8run_eq : service_day cW gW [dHalf] 0 1 0 1 = Except.ok c8Run := by
  have hk : pyInt ((List.length [dHalf] : ℚ) * 1) = 1 := by norm_num [pyInt]
  have hsmp : sample gW 0 [dHalf] 1 = Except.ok ([dHalf], [], 1) := by
    rw [sample]
    norm_num
    rfl
  have hss1 : start_service cW gW (0 + 3600 * ((1 : ℕ) : ℚ)) [dHalf] 1
      = ([status_change_event cW dHalf "available" "service_start" (-3600)
            { point := (0, 0), timestamp := -3600 }],
         [dHalfR], 4) := by
    simp [start_service, random_date_from, randintD, uniformD, clamp01, gW,
      has_battery, recharge_battery, dHalf, dHalfR]
    norm_num
  have hes1 : end_service cW gW (0 + 3600 * ((0 : ℕ) : ℚ)) [dHalfR]
      (some [{ point := (0, 0), timestamp := -3600 }]) 4
      = ([status_change_event cW dHalfR "removed" "service_end" 0
            { point := (0, 0), timestamp := 0 }], 6) := by
    simp [end_service, end_service_go, random_date_from, randintD, uniformD,
      clamp01, gW]
  unfold service_day
  simp only [hk, hsmp, ok_bind]
  simp only [hss1, List.map_cons, List.map_nil, loc_sce]
  simp only [hes1, List.filter_nil, start_service]
  simp only [show (0 : ℕ) + 1 - 1 = 0 from rfl, List.range'_zero,
    service_day_hours, ok_bind]
  simp only [end_service, end_service_go, List.map_nil]
  rfl

/-- C1: for every device processed by `service_day`, the `event_time`
sequence of its interior status-change events (trip pick-up/drop-off,
low_battery, maintenance_drop_off), in emission order, is non-decreasing.
Amended from the claim: the `service_start` / `service_end` brackets are
excluded, since trips and recharges during the day can carry later
timestamps than either bracket draw. -/
theorem C1_interior_times_monotone {c : Ctx} {g : Oracle}
    {devices : List Device} {day0 : ℚ} {hour_open hour_closed : ℕ} {ia : ℚ}
    {result : DayResult}
    (hnd : (devices.map Device.device_id).Nodup)
    (hok : service_day c g devices day0 hour_open hour_closed ia
      = Except.ok result) :
    ∀ i, timesSorted (interiorEvents i result.status_changes) :=
  (service_day_master hnd hok).1

/-- C1 counterexample to the full claim: in the fixture day the device's
trip drop-off lands at 6000 s while its service_end draw lands at 0 s, so
the complete per-device event-time sequence is not non-decreasing. -/
theorem C1_counterexample :
    service_day cW gT [dNB] 0 0 0 0 = Except.ok c1Run ∧
    ¬ timesSorted (devEvents dNB.device_id c1Run.status_changes) := by
  refine ⟨c1run_eq, ?_⟩
  intro h
  have hdev : devEvents dNB.device_id c1Run.status_changes
      = [c1Start, c1Pick, c1Drop, c1End] := rfl
  rw [hdev] at h
  unfold timesSorted at h
  have h3 := (List.pairwise_cons.1
    (List.pairwise_cons.1 (List.pairwise_cons.1 h).2).2).1 c1End (by simp)
  rw [show c1Drop.event_time = (6000 : ℚ) from rfl,
    show c1End.event_time = (0 : ℚ) from rfl] at h3
  norm_num at h3

/-- C1 witness: the amended monotonicity on the concrete fixture day. -/
theorem C1_interior_times_monotone_witness :
    timesSorted (interiorEvents dNB.device_id c1Run.status_changes) :=
  C1_interior_times_monotone (by decide) c1run_eq dNB.device_id

/-- C2: for every device, consecutive status-change events chain through
locations: the later event sits at the earlier event's location, except
that a trip pick-up's successor may be anywhere (the trip moves the
device) and a maintenance drop-off is placed at a fresh random point.
Amended from the claim by the maintenance_drop_off exemption. -/
theorem C2_locations_chain {c : Ctx} {g : Oracle} {devices : List Device}
    {day0 : ℚ} {hour_open hour_closed : ℕ} {ia : ℚ} {result : DayResult}
    (hnd : (devices.map Device.device_id).Nodup)
    (hok : service_day c g devices day0 hour_open hour_closed ia
      = Except.ok result) :
    ∀ i, locChain (devEvents i result.status_changes) :=
  (service_day_master hnd hok).2.1

/-- C2 counterexample to the claim as stated: after a low-battery removal
at the trip drop-off point (8, 1), the recharge run re-places the device
with a maintenance_drop_off at the fresh random point (16, 1), so the
consecutive pair violates location continuity even granting the trip
pick-up exemption the claim makes. -/
theorem C2_counterexample :
    service_day cE gE [dEl] 0 0 2 0 = Except.ok c2Run ∧
    ¬ (devEvents dEl.device_id c2Run.status_changes).Chain' origContOk := by
  refine ⟨c2run_eq, ?_⟩
  intro h
  have hdev : devEvents dEl.device_id c2Run.status_changes
      = [c2S, c2P, c2D, c2L, c2M, c2E] := rfl
  rw [hdev] at h
  have h1 := List.chain'_cons.1 h
  have h2 := List.chain'_cons.1 h1.2
  have h3 := List.chain'_cons.1 h2.2
  have h4 := List.chain'_cons.1 h3.2
  rcases h4.1 with hr | hp
  · rw [show c2L.event_type_reason = "low_battery" from rfl] at hr
    simp at hr
  · rw [show c2M.event_location.point = ((16 : ℚ), (1 : ℚ)) from rfl,
      show c2L.event_location.point = ((8 : ℚ), (1 : ℚ)) from rfl] at hp
    rw [Prod.mk.injEq] at hp
    norm_num at hp

/-- C2 witness: the amended location chain on the concrete drain-recharge
fixture day. -/
theorem C2_locations_chain_witness :
    locChain (devEvents dEl.device_id c2Run.status_changes) :=
  C2_locations_chain (by decide) c2run_eq dEl.device_id

/-- C8: every device sampled as inactive-for-the-day gets exactly two
status-change events — an available:service_start carrying the
pre-recharge roster snapshot (the inner dict merge wins over the in-place
recharge) and a removed:service_end carrying the post-recharge device, at
the same location point — it takes no trips, and its only battery
interaction is the service-start recharge: it comes back as the original
roster device with battery_pct set to 1 when it has a battery, unchanged
otherwise.  Amended from the claim: the battery is not untouched — for
battery devices start_service recharges it to full. -/
theorem C8_day_inactive_bracket {c : Ctx} {g : Oracle}
    {devices : List Device} {day0 : ℚ} {hour_open hour_closed : ℕ} {ia : ℚ}
    {result : DayResult}
    (hnd : (devices.map Device.device_id).Nodup)
    (hok : service_day c g devices day0 hour_open hour_closed ia
      = Except.ok result) :
    ∀ k, k < result.inactive_final.length →
      ∃ e1 e2,
        devEvents ((result.inactive_final.getD k defaultDevice).device_id)
          result.status_changes = [e1, e2] ∧
        e1.event_type = "available" ∧
        e1.event_type_reason = "service_start" ∧
        e2.event_type = "removed" ∧
        e2.event_type_reason = "service_end" ∧
        e2.event_location.point = e1.event_location.point ∧
        e2.device = result.inactive_final.getD k defaultDevice ∧
        (∀ tr ∈ result.trips, tr.device.device_id
          ≠ (result.inactive_final.getD k defaultDevice).device_id) ∧
        ∃ d0 ∈ devices,
          d0.device_id
            = (result.inactive_final.getD k defaultDevice).device_id ∧
          e1.device = d0 ∧
          result.inactive_final.getD k defaultDevice
            = (if has_battery d0 then recharge_battery d0 else d0) :=
  (service_day_master hnd hok).2.2

/-- C8 counterexample to the no-battery-interaction reading: a day-inactive
electric device enters the day at battery 1/2 and leaves the simulation
with battery 1 — start_service recharged it. -/
theorem C8_counterexample :
    service_day cW gW [dHalf] 0 1 0 1 = Except.ok c8Run ∧
    c8Run.inactive_final.map Device.battery_pct
      ≠ [dHalf].map Device.battery_pct := by
  refine ⟨c8run_eq, ?_⟩
  simp only [c8Run, dHalfR, dHalf, List.map_cons, List.map_nil, ne_eq,
    List.cons.injEq]
  norm_num

/-- C8 witness: the bracket property on the concrete one-device
all-inactive fixture day. -/
theorem C8_day_inactive_bracket_witness :
    ∃ e1 e2,
      devEvents ((c8Run.inactive_final.getD 0 defaultDevice).device_id)
        c8Run.status_changes = [e1, e2] ∧
      e1.event_type = "available" ∧
      e1.event_type_reason = "service_start" ∧
      e2.event_type = "removed" ∧
      e2.event_type_reason = "service_end" ∧
      e2.event_location.point = e1.event_location.point ∧
      e2.device = c8Run.inactive_final.getD 0 defaultDevice ∧
      (∀ tr ∈ c8Run.trips, tr.device.device_id
        ≠ (c8Run.inactive_final.getD 0 defaultDevice).device_id) ∧
      ∃ d0 ∈ [dHalf],
        d0.device_id = (c8Run.inactive_final.getD 0 defaultDevice).device_id ∧
        e1.device = d0 ∧
        c8Run.inactive_final.getD 0 defaultDevice
          = (if has_battery d0 then recharge_battery d0 else d0) :=
  C8_day_inactive_bracket (by decide) c8run_eq 0 (by decide)

end MdsFake
